import Mathlib

/-!
# httpdirfs: the argument resolution pipeline of `src/main.c`

A shallow embedding of `main`, `parse_config_file`, `parse_arg_list` and `add_arg`.

Conventions of the embedding.

* A C string is modelled by its content, the characters before the terminating NUL, as a
  `String`; `strdup` is therefore the identity.  A `char *` that may be `NULL` is an
  `Option String`.
* An argument vector is the pair of the `char **` block (a `List String`) and its `int`
  counter, exactly as the C code carries them.
* The buffer `buf` of `parse_config_file` is a `List Char` holding the bytes `fgets` stored,
  the terminating NUL included.
* The libc functions (`fgets`, `strnlen`, `strchr`, `strndup`, `strncmp`, `atoi`,
  `getopt_long`) are modelled from their documented behaviour (glibc).
* Functions return `Option`: `none` means that the C program has no defined result there
  (a loop that does not end within its step budget, a NULL or out-of-range access).
* `char` is taken to be signed (x86), so that `(c = getopt_long(...)) != -1` ends the loop
  exactly when `getopt_long` returns `-1`.
-/

namespace Httpdirfs

/-! ## C library: strings -/

/-- The NUL character that ends a C string inside a buffer. -/
def NUL : Char := '\x00'

/-- Model of `strdup`: a fresh copy of the content. -/
def strdup (s : String) : String := s

/-- Model of `strnlen(buf, n)`: the number of characters before the first NUL, at most `n`. -/
def strnlen : List Char → Nat → Nat
  | _, 0 => 0
  | [], _ => 0
  | c :: cs, n + 1 => if c = NUL then 0 else strnlen cs n + 1

/-- Model of `strchr(buf, ch) - buf`: the offset of the first `ch` before the first NUL,
`none` for a NULL result. -/
def strchr : List Char → Char → Option Nat
  | [], _ => none
  | c :: cs, ch =>
    if c = ch then some 0
    else if c = NUL then none
    else (strchr cs ch).map (· + 1)

/-- Characters copied by `strndup(p, n)`: those before the first NUL, at most `n`. -/
def strndup_chars : List Char → Nat → List Char
  | _, 0 => []
  | [], _ => []
  | c :: cs, n + 1 => if c = NUL then [] else c :: strndup_chars cs n

/-- Model of `strndup(p, n)`. -/
def strndup (p : List Char) (n : Nat) : String := String.mk (strndup_chars p n)

/-- Model of `strncmp(a, b, n)` on string contents (the end of the list is the NUL):
zero when the first `n` characters agree, otherwise the difference at the first
disagreement. -/
def strncmp : List Char → List Char → Nat → Int
  | _, _, 0 => 0
  | [], [], _ + 1 => 0
  | [], b :: _, _ + 1 => 0 - (b.toNat : Int)
  | a :: _, [], _ + 1 => (a.toNat : Int)
  | a :: as, b :: bs, n + 1 =>
    if a = b then strncmp as bs n else (a.toNat : Int) - (b.toNat : Int)

/-! ## C library: integers -/

/-- Conversion of a mathematical integer to a 32-bit `int` (two's complement wrap). -/
def to_int (x : Int) : Int := (x + 2 ^ 31) % 2 ^ 32 - 2 ^ 31

/-- Clamping to the range of a 64-bit `long`, as `strtol` does on overflow. -/
def to_long_clamped (x : Int) : Int :=
  if x < -(2 ^ 63) then -(2 ^ 63) else if 2 ^ 63 - 1 < x then 2 ^ 63 - 1 else x

/-- Multiplication in C `int` arithmetic (an overflowing product wraps). -/
def int_mul (a b : Int) : Int := to_int (a * b)

/-- Model of `isspace` in the C locale. -/
def isspace (c : Char) : Bool :=
  c = ' ' || c = '\t' || c = '\n' || c = '\x0b' || c = '\x0c' || c = '\r'

/-- Value of the leading run of decimal digits, accumulated from `acc`. -/
def strtol_digits : Nat → List Char → Nat
  | acc, [] => acc
  | acc, c :: cs =>
    if c.isDigit then strtol_digits (acc * 10 + (c.toNat - '0'.toNat)) cs else acc

/-- Model of `strtol(s, NULL, 10)`: optional white space, optional sign, decimal digits. -/
def strtol (s : List Char) : Int :=
  let s := s.dropWhile isspace
  if s.head? = some '-' then to_long_clamped (-(strtol_digits 0 s.tail : Int))
  else if s.head? = some '+' then to_long_clamped (strtol_digits 0 s.tail : Int)
  else to_long_clamped (strtol_digits 0 s : Int)

/-- Model of `atoi(s)`, which glibc defines as `(int) strtol(s, NULL, 10)`. -/
def atoi (s : String) : Int := to_int (strtol s.data)

/-! ## C library: `fgets` -/

/-- The characters one `fgets` call takes from the stream: at most `n`, ending after the
first newline.  Returns them with the rest of the stream. -/
def fgets_read : Nat → List Char → List Char × List Char
  | 0, file => ([], file)
  | _ + 1, [] => ([], [])
  | n + 1, c :: file =>
    if c = '\n' then ([c], file)
    else ((c :: (fgets_read n file).1), (fgets_read n file).2)

/-- Model of `fgets(buf, buf_len, config)`: `none` (NULL) at end of file, otherwise the
buffer content (at most `buf_len - 1` characters and the terminating NUL) and the rest of
the stream. -/
def fgets (buf_len : Nat) (file : List Char) : Option (List Char × List Char) :=
  match file with
  | [] => none
  | _ :: _ =>
    some ((fgets_read (buf_len - 1) file).1 ++ [NUL], (fgets_read (buf_len - 1) file).2)

/-! ## C library: `realloc` -/

/-- Model of `realloc(p, n * sizeof(char *))`: a block of `n` slots keeping the old
contents; a new slot has no determined content and is shown as the empty string until it
is assigned. -/
def realloc (p : List String) (n : Nat) : List String :=
  p.take n ++ List.replicate (n - p.length) ""

/-! ## `add_arg` (main.c, lines 244-250) -/

/-- The function `add_arg`: bump the counter, grow the block, store a copy in the last
slot.  Returns the new block and the new counter. -/
def add_arg (fuse_argv : List String) (fuse_argc : Nat) (opt_string : String) :
    List String × Nat :=
  let fuse_argc := fuse_argc + 1
  let fuse_argv := realloc fuse_argv fuse_argc
  (fuse_argv.set (fuse_argc - 1) (strdup opt_string), fuse_argc)

/-! ## `parse_config_file` (main.c, lines 91-127) -/

/-- Body of the `while (fgets(...))` loop of `parse_config_file` (lines 107-124) for one
buffer content. -/
def parse_config_line (buf_len : Nat) (buf : List Char) (argv : List String) (argc : Nat) :
    List String × Nat :=
  if buf.head? = some '-' then
    let argc := argc + 1
    let buf := buf.set (strnlen buf buf_len - 1) NUL
    match strchr buf ' ' with
    | none =>
      let argv := realloc argv argc
      (argv.set (argc - 1) (strndup buf buf_len), argc)
    | some space =>
      let argc := argc + 1
      let argv := realloc argv argc
      let argv := argv.set (argc - 2) (strndup buf space)
      let argv := argv.set (argc - 1) (strndup (buf.drop (space + 1)) (buf_len - (space + 1)))
      (argv, argc)
  else (argv, argc)

/-- The `while (fgets(buf, buf_len, config))` loop, with a step budget. -/
def parse_config_loop : Nat → Nat → List Char → List String → Nat → Option (List String × Nat)
  | 0, _, _, _, _ => none
  | fuel + 1, buf_len, file, argv, argc =>
    match fgets buf_len file with
    | none => some (argv, argc)
    | some (buf, file) =>
      parse_config_loop fuel buf_len file
        (parse_config_line buf_len buf argv argc).1 (parse_config_line buf_len buf argv argc).2

/-- The function `parse_config_file`.  `buf_len` is `MAX_PATH_LEN` (defined in a header
that is not part of the sources at hand); `config` is the content of the configuration
file, `none` when `fopen` fails.  The path computation (lines 93-99) only selects which
file is opened. -/
def parse_config_file (buf_len : Nat) (config : Option (List Char))
    (argv : List String) (argc : Nat) : Option (List String × Nat) :=
  match config with
  | none => some (argv, argc)
  | some file => parse_config_loop (file.length + 1) buf_len file argv argc

/-! ## C library: `getopt_long`

The model follows glibc.  The state is what a call can still see: the elements of `argv`
from `optind` on, and the unread option characters of the element being scanned
(`nextchar`).  glibc also permutes the elements before `optind` so that non-options end up
last; that only reorders elements already passed and is not observed by `parse_arg_list`.
The option string here starts with none of `+`, `-`, `:` and has no `W;`. -/

/-- An entry of a long option table (`struct option`).  Every entry of the table in
`parse_arg_list` has a NULL `flag`, which is left out. -/
structure option where
  name : String
  has_arg : Nat
  val : Char
deriving DecidableEq, Repr

/-- The `has_arg` value `no_argument`. -/
def no_argument : Nat := 0

/-- The `has_arg` value `required_argument`. -/
def required_argument : Nat := 1

/-- What `getopt_long` keeps between calls. -/
structure GetoptState where
  /-- The elements `argv[optind], ..., argv[argc - 1]` after the element being scanned. -/
  rest : List String
  /-- The option characters of the current element that are still to be read. -/
  nextchar : List Char
deriving DecidableEq, Repr

/-- What one call of `getopt_long` gives back when it does not return `-1`. -/
structure GetoptRet where
  /-- The return value. -/
  c : Char
  /-- The global `optarg` after the call (`none` for NULL). -/
  optarg : Option String
  /-- The value stored through the `longindex` pointer, when the call stored one. -/
  longindex : Option Nat
deriving DecidableEq, Repr

/-- The glibc test `NONOPTION_P`: the element does not start with `-`, or is just `-`. -/
def NONOPTION_P (a : String) : Bool :=
  match a.data with
  | c :: _ :: _ => c != '-'
  | _ => true

/-- One short option character `c` of a `-...` element; `more` is the rest of the element
and `rest` the following elements. -/
def getopt_short (optstring : List Char) (c : Char) (more : List Char) (rest : List String) :
    GetoptRet × GetoptState :=
  match optstring.dropWhile (· != c) with
  | [] => (⟨'?', none, none⟩, ⟨rest, more⟩)
  | _ :: temp =>
    if c = ':' ∨ c = ';' then (⟨'?', none, none⟩, ⟨rest, more⟩)
    else if temp.head? = some ':' then
      if temp.tail.head? = some ':' then
        (⟨c, if more = [] then none else some (String.mk more), none⟩, ⟨rest, []⟩)
      else if more ≠ [] then (⟨c, some (String.mk more), none⟩, ⟨rest, []⟩)
      else
        match rest with
        | [] => (⟨'?', none, none⟩, ⟨[], []⟩)
        | a :: rest => (⟨c, some a, none⟩, ⟨rest, []⟩)
    else (⟨c, none, none⟩, ⟨rest, more⟩)

/-- The first entry of the table, from index `i` on, that satisfies `p`. -/
def find_option (p : option → Bool) : List option → Nat → Option (Nat × option)
  | [], _ => none
  | o :: os, i => if p o then some (i, o) else find_option p os (i + 1)

/-- Look a name up in the table as glibc does: an exact match first; otherwise the first
entry the name abbreviates, unless another entry it abbreviates differs from that one in
`has_arg` or `val` (an ambiguous abbreviation).  `none` when nothing is found or the
abbreviation is ambiguous. -/
def lookup_long (longopts : List option) (name : List Char) : Option (Nat × option) :=
  match find_option (fun o => o.name.data == name) longopts 0 with
  | some found => some found
  | none =>
    match find_option (fun o => name.isPrefixOf o.name.data) longopts 0 with
    | none => none
    | some (i, pfound) =>
      if longopts.any (fun o => name.isPrefixOf o.name.data
          && (o.has_arg != pfound.has_arg || o.val != pfound.val)) then none
      else some (i, pfound)

/-- An element `--name` or `--name=value`; `nextchar` is the element without the two
dashes and `rest` the following elements. -/
def process_long_option (longopts : List option) (nextchar : List Char) (rest : List String) :
    GetoptRet × GetoptState :=
  let name := nextchar.takeWhile (· != '=')
  let nameend := nextchar.dropWhile (· != '=')
  match lookup_long longopts name with
  | none => (⟨'?', none, none⟩, ⟨rest, []⟩)
  | some (option_index, pfound) =>
    match nameend with
    | _ :: value =>
      if pfound.has_arg ≠ 0 then
        (⟨pfound.val, some (String.mk value), some option_index⟩, ⟨rest, []⟩)
      else (⟨'?', none, none⟩, ⟨rest, []⟩)
    | [] =>
      if pfound.has_arg = 1 then
        match rest with
        | a :: rest => (⟨pfound.val, some a, some option_index⟩, ⟨rest, []⟩)
        | [] => (⟨'?', none, none⟩, ⟨[], []⟩)
      else (⟨pfound.val, none, some option_index⟩, ⟨rest, []⟩)

/-- One call of `getopt_long(argc, argv, optstring, longopts, &longindex)`; `none` is the
return value `-1`. -/
def getopt_long (optstring : List Char) (longopts : List option) (st : GetoptState) :
    Option (GetoptRet × GetoptState) :=
  match st.nextchar with
  | c :: more => some (getopt_short optstring c more st.rest)
  | [] =>
    match st.rest.dropWhile NONOPTION_P with
    | [] => none
    | a :: rest =>
      match a.data with
      | _ :: c :: more =>
        if c = '-' then
          if more = [] then none
          else some (process_long_option longopts more rest)
        else some (getopt_short optstring c more rest)
      | _ => none

/-! ## The settings record -/

/-- Modelled from the spec: the global `CONFIG` is declared in `network.h`, which is not
among the sources at hand; the fields are those that `main.c` reads or writes.  A `char *`
field is `none` while it is NULL (unset), an `int` field is an integer. -/
structure ConfigStruct where
  http_username : Option String
  http_password : Option String
  proxy : Option String
  proxy_username : Option String
  proxy_password : Option String
  cache_enabled : Int
  data_blksz : Int
  max_segbc : Int
  max_conns : Int
  user_agent : Option String
  http_wait_sec : Int
  cache_dir : Option String
  sonic_username : Option String
  sonic_password : Option String
  sonic_mode : Int
deriving DecidableEq, Repr

/-! ## `parse_arg_list` (main.c, lines 129-238) -/

/-- The option string `short_opts` (line 134). -/
def short_opts : String := "o:hVdfsp:u:P:"

/-- The table `long_opts` (lines 135-155). -/
def long_opts : List option :=
  [ ⟨"help", no_argument, 'h'⟩,
    ⟨"version", no_argument, 'V'⟩,
    ⟨"debug", no_argument, 'd'⟩,
    ⟨"username", required_argument, 'u'⟩,
    ⟨"password", required_argument, 'p'⟩,
    ⟨"proxy", required_argument, 'P'⟩,
    ⟨"proxy-username", required_argument, 'L'⟩,
    ⟨"proxy-password", required_argument, 'L'⟩,
    ⟨"cache", no_argument, 'L'⟩,
    ⟨"dl-seg-size", required_argument, 'L'⟩,
    ⟨"max-seg-count", required_argument, 'L'⟩,
    ⟨"max-conns", required_argument, 'L'⟩,
    ⟨"user-agent", required_argument, 'L'⟩,
    ⟨"retry-wait", required_argument, 'L'⟩,
    ⟨"cache-location", required_argument, 'L'⟩,
    ⟨"sonic-username", required_argument, 'L'⟩,
    ⟨"sonic-password", required_argument, 'L'⟩ ]

/-- The two outputs that `parse_arg_list` updates: the global `CONFIG` and the vector
`*fuse_argv` with its counter `*fuse_argc`. -/
structure ParseState where
  CONFIG : ConfigStruct
  fuse_argv : List String
  fuse_argc : Nat
deriving DecidableEq, Repr

/-- How one pass through the `switch` ends: `break` (the loop goes on) or `return`. -/
inductive Flow where
  | break_ (s : ParseState)
  | return_ (ret : Nat) (s : ParseState)
deriving DecidableEq, Repr

/-- The call `add_arg(fuse_argv, fuse_argc, opt_string)` on the state. -/
def ParseState.add (s : ParseState) (opt_string : String) : ParseState :=
  { s with fuse_argv := (add_arg s.fuse_argv s.fuse_argc opt_string).1,
           fuse_argc := (add_arg s.fuse_argv s.fuse_argc opt_string).2 }

/-- The inner `switch (long_index)` (lines 193-230).  `none`: `optarg` is NULL where it is
dereferenced. -/
def long_switch (long_index : Nat) (optarg : Option String) (s : ParseState) : Option Flow :=
  match long_index with
  | 6 => optarg.map fun a =>
      .break_ { s with CONFIG := { s.CONFIG with proxy_username := some (strdup a) } }
  | 7 => optarg.map fun a =>
      .break_ { s with CONFIG := { s.CONFIG with proxy_password := some (strdup a) } }
  | 8 => some (.break_ { s with CONFIG := { s.CONFIG with cache_enabled := 1 } })
  | 9 => optarg.map fun a =>
      .break_ { s with CONFIG :=
        { s.CONFIG with data_blksz := int_mul (int_mul (atoi a) 1024) 1024 } }
  | 10 => optarg.map fun a =>
      .break_ { s with CONFIG := { s.CONFIG with max_segbc := atoi a } }
  | 11 => optarg.map fun a =>
      .break_ { s with CONFIG := { s.CONFIG with max_conns := atoi a } }
  | 12 => optarg.map fun a =>
      .break_ { s with CONFIG := { s.CONFIG with user_agent := some (strdup a) } }
  | 13 => optarg.map fun a =>
      .break_ { s with CONFIG := { s.CONFIG with http_wait_sec := atoi a } }
  | 14 => optarg.map fun a =>
      .break_ { s with CONFIG := { s.CONFIG with cache_dir := some (strdup a) } }
  | 15 => optarg.map fun a =>
      .break_ { s with CONFIG := { s.CONFIG with sonic_username := some (strdup a) } }
  | 16 => optarg.map fun a =>
      .break_ { s with CONFIG := { s.CONFIG with sonic_password := some (strdup a) } }
  | _ => some (.return_ 1 s)

/-- The outer `switch (c)` (lines 159-235).  `none`: `optarg` is NULL where it is
dereferenced. -/
def arg_switch (c : Char) (long_index : Nat) (optarg : Option String) (s : ParseState) :
    Option Flow :=
  if c = 'o' then optarg.map fun a => .break_ ((s.add "-o").add a)
  else if c = 'h' then some (.return_ 1 (s.add "-ho"))
  else if c = 'V' then some (.return_ 1 (s.add "-V"))
  else if c = 'd' then some (.break_ (s.add "-d"))
  else if c = 'f' then some (.break_ (s.add "-f"))
  else if c = 's' then some (.break_ (s.add "-s"))
  else if c = 'u' then optarg.map fun a =>
    .break_ { s with CONFIG := { s.CONFIG with http_username := some (strdup a) } }
  else if c = 'p' then optarg.map fun a =>
    .break_ { s with CONFIG := { s.CONFIG with http_password := some (strdup a) } }
  else if c = 'P' then optarg.map fun a =>
    .break_ { s with CONFIG := { s.CONFIG with proxy := some (strdup a) } }
  else if c = 'L' then long_switch long_index optarg s
  else some (.return_ 1 s)

/-- What `parse_arg_list` leaves behind: its return value and the two outputs. -/
structure ParseResult where
  ret : Nat
  s : ParseState
deriving DecidableEq, Repr

/-- The `while ((c = getopt_long(...)) != -1)` loop (lines 156-236), with a step budget;
`long_index` is the local variable that `getopt_long` writes through `&long_index`. -/
def parse_arg_loop : Nat → GetoptState → Nat → ParseState → Option ParseResult
  | 0, _, _, _ => none
  | fuel + 1, st, long_index, s =>
    match getopt_long short_opts.data long_opts st with
    | none => some ⟨0, s⟩
    | some (r, st) =>
      match arg_switch r.c (r.longindex.getD long_index) r.optarg s with
      | none => none
      | some (.return_ ret s) => some ⟨ret, s⟩
      | some (.break_ s) => parse_arg_loop fuel st (r.longindex.getD long_index) s

/-- The number of characters and elements `getopt_long` still has to go through. -/
def GetoptState.size (st : GetoptState) : Nat :=
  st.nextchar.length + (st.rest.map fun a => a.data.length + 1).sum

/-- The function `parse_arg_list`: `getopt_long` starts at `optind = 1` with
`long_index = 0`. -/
def parse_arg_list (argc : Nat) (argv : List String) (CONFIG : ConfigStruct)
    (fuse_argv : List String) (fuse_argc : Nat) : Option ParseResult :=
  parse_arg_loop ((GetoptState.mk ((argv.take argc).drop 1) []).size + 1)
    ⟨(argv.take argc).drop 1, []⟩ 0 ⟨CONFIG, fuse_argv, fuse_argc⟩

/-! ## `main` (main.c, lines 17-89) -/

/-- The collaborators of `main` that are not in `main.c`. -/
structure World where
  /-- The constant `MAX_PATH_LEN`, the size of the line buffer. -/
  MAX_PATH_LEN : Nat
  /-- The content of the configuration file, `none` when it cannot be opened. -/
  config : Option (List Char)
  /-- The global `CONFIG` as `Config_init()` leaves it. -/
  Config_init : ConfigStruct
  /-- Whether `LinkSystem_init(url)` returns non-zero, given the settings. -/
  LinkSystem_init : ConfigStruct → String → Bool

/-- The value of `EXIT_FAILURE`. -/
def EXIT_FAILURE : Nat := 1

/-- The `exit(EXIT_FAILURE)` calls of `main`. -/
inductive Failure where
  /-- Line 23: too few arguments. -/
  | usage
  /-- Line 69: the URL is not valid. -/
  | invalid_url
  /-- Line 77: only one of the two Sonic credentials. -/
  | sonic
  /-- Line 81: the network initialisation failed. -/
  | network
deriving DecidableEq, Repr

/-- What a run of `main` does, as seen from outside. -/
structure MainResult where
  /-- The exit status of the process. -/
  status : Nat
  /-- The `exit(EXIT_FAILURE)` that ended the run, if one did. -/
  failure : Option Failure
  /-- The global `CONFIG` at the end. -/
  CONFIG : ConfigStruct
  /-- The argument of `LinkSystem_init`, when it was called. -/
  link_url : Option String
  /-- The arguments `(fuse_argc, fuse_argv)` of `fuse_local_init`, when it was called. -/
  fuse : Option (Nat × List String)
deriving DecidableEq, Repr

/-- The combined argument list `all_argv`, `all_argc` as `main` builds it (lines 30-50):
the program name, the tokens of the configuration file, the command line arguments. -/
def main_all_args (w : World) (argv : List String) : Option (List String × Nat) :=
  match argv[0]? with
  | none => none
  | some argv0 =>
    match parse_config_file w.MAX_PATH_LEN w.config
        (add_arg [] 0 argv0).1 (add_arg [] 0 argv0).2 with
    | none => none
    | some all => some ((argv.drop 1).foldl (fun all a => add_arg all.1 all.2 a) all)

/-- The label `fuse_start` (lines 85-88): hand over to FUSE and return 0. -/
def fuse_start (CONFIG : ConfigStruct) (link_url : Option String)
    (fuse_argc : Nat) (fuse_argv : List String) : MainResult :=
  ⟨0, none, CONFIG, link_url, some (fuse_argc, fuse_argv)⟩

/-- Lines 61-86 of `main`: what happens after `parse_arg_list` returned 0. -/
def main_resolve (w : World) (argv : List String) (s : ParseState) : Option MainResult :=
  let argc := argv.length
  match argv[argc - 1]?, argv[argc - 2]? with
  | some mountpoint, some base_url =>
    let fuse := add_arg s.fuse_argv s.fuse_argc mountpoint
    if strncmp base_url.data "http://".data 7 ≠ 0
        ∧ strncmp base_url.data "https://".data 8 ≠ 0 then
      some ⟨EXIT_FAILURE, some .invalid_url, s.CONFIG, none, none⟩
    else if s.CONFIG.sonic_username.isSome ∧ s.CONFIG.sonic_password.isSome then
      if w.LinkSystem_init { s.CONFIG with sonic_mode := 1 } base_url then
        some (fuse_start { s.CONFIG with sonic_mode := 1 } (some base_url) fuse.2 fuse.1)
      else some ⟨EXIT_FAILURE, some .network, { s.CONFIG with sonic_mode := 1 },
        some base_url, none⟩
    else if s.CONFIG.sonic_username.isSome ∨ s.CONFIG.sonic_password.isSome then
      some ⟨EXIT_FAILURE, some .sonic, s.CONFIG, none, none⟩
    else if w.LinkSystem_init s.CONFIG base_url then
      some (fuse_start s.CONFIG (some base_url) fuse.2 fuse.1)
    else some ⟨EXIT_FAILURE, some .network, s.CONFIG, some base_url, none⟩
  | _, _ => none

/-- The global `CONFIG` before `Config_init()` runs: static storage is zero-initialised. -/
def CONFIG_static : ConfigStruct :=
  ⟨none, none, none, none, none, 0, 0, 0, 0, none, 0, none, none, none, 0⟩

/-- Lines 26-53 of `main`: the call of `parse_arg_list` on the combined argument list, with
the FUSE vector seeded with the program name and `CONFIG` as `Config_init()` left it. -/
def main_parse (w : World) (argv : List String) : Option ParseResult :=
  match argv[0]? with
  | none => none
  | some argv0 =>
    match main_all_args w argv with
    | none => none
    | some all =>
      parse_arg_list all.2 all.1 w.Config_init (add_arg [] 0 argv0).1 (add_arg [] 0 argv0).2

/-- The function `main`; `argc` is the length of `argv`. -/
def main (w : World) (argv : List String) : Option MainResult :=
  let argc := argv.length
  if argc < 2 then some ⟨EXIT_FAILURE, some .usage, CONFIG_static, none, none⟩
  else
    match main_parse w argv with
    | none => none
    | some r =>
      if r.ret ≠ 0 then some (fuse_start r.s.CONFIG none r.s.fuse_argc r.s.fuse_argv)
      else main_resolve w argv r.s

/-! ## Notions used to state the properties -/

/-- The successive return values of `getopt_long` from a state on, up to the `-1`. -/
def getopt_results : Nat → GetoptState → List GetoptRet
  | 0, _ => []
  | fuel + 1, st =>
    match getopt_long short_opts.data long_opts st with
    | none => []
    | some (r, st) => r :: getopt_results fuel st

/-- The occurrences of the options of `argv[1 .. argc - 1]` in the order in which
`getopt_long` reports them. -/
def occurrences (argc : Nat) (argv : List String) : List GetoptRet :=
  getopt_results ((GetoptState.mk ((argv.take argc).drop 1) []).size + 1)
    ⟨(argv.take argc).drop 1, []⟩

/-- An occurrence of the short option `c` or of a long option with the value `c`. -/
def is_opt (c : Char) (r : GetoptRet) : Bool := r.c == c

/-- An occurrence of the long-only option at index `i` of `long_opts`. -/
def is_long (i : Nat) (r : GetoptRet) : Bool := r.c == 'L' && r.longindex == some i

/-- The value a field has by the last-wins rule: the value given by the argument of the last
selected occurrence, and the initial value when there is none. -/
def last_value {α : Type} (sel : GetoptRet → Bool) (val : String → α) (init : α)
    (occ : List GetoptRet) : α :=
  match (occ.filter sel).getLast? with
  | some ⟨_, some a, _⟩ => val a
  | _ => init

/-- The test on the URL as the spec words it: the string starts with `http://` or with
`https://`. -/
def valid_url (s : String) : Prop :=
  "http://".data <+: s.data ∨ "https://".data <+: s.data

instance (s : String) : Decidable (valid_url s) := by
  unfold valid_url
  exact inferInstance

/-- The outputs carried by a `Flow`. -/
def Flow.state : Flow → ParseState
  | .break_ s => s
  | .return_ _ s => s

/-- Modelled from the spec: `Config_init` is defined outside `main.c`; by the spec every
field of the settings record is unset by default. -/
def Config_defaults : ConfigStruct :=
  ⟨none, none, none, none, none, 0, 0, 0, 0, none, 0, none, none, none, 0⟩

/-- A world for the scenarios: no configuration file, a 4096 byte line buffer, default
settings, and a network initialisation that succeeds. -/
def scenario_world : World := ⟨4096, none, Config_defaults, fun _ _ => true⟩

/-- A world like `scenario_world` with a configuration file of the given content. -/
def scenario_world_with (content : String) : World :=
  { scenario_world with config := some content.data }

/-- The combined argument list of the last-wins scenario: the configuration file line
`-u alice`, then the command line `-u carol http://a/ /mnt`. -/
def carol_merged : List String := ["prog", "-u", "alice", "-u", "carol", "http://a/", "/mnt"]

/-- What `parse_arg_list` leaves on `carol_merged`. -/
def carol_parsed : ParseResult :=
  ⟨0, ⟨{ Config_defaults with http_username := some "carol" }, ["prog"], 1⟩⟩

/-- The command line of the Sonic scenario. -/
def sonic_argv : List String := ["prog", "--sonic-username", "bob", "http://a/", "/mnt"]

/-- What `parse_arg_list` leaves on `sonic_argv`. -/
def sonic_parsed : ParseResult :=
  ⟨0, ⟨{ Config_defaults with sonic_username := some "bob" }, ["prog"], 1⟩⟩

/-- The command line of the cache scenario. -/
def cache_argv : List String :=
  ["prog", "--cache", "--dl-seg-size", "4", "http://example.com/dir", "/mnt/x"]

/-- What `parse_arg_list` leaves on `cache_argv`. -/
def cache_parsed : ParseResult :=
  ⟨0, ⟨{ Config_defaults with cache_enabled := 1, data_blksz := 4194304 }, ["prog"], 1⟩⟩

/-- The content of a buffer as a C string: the characters before the first NUL. -/
def c_string (buf : List Char) : List Char := buf.takeWhile (· != NUL)

/-- The buffer contents that the successive `fgets` calls of `parse_config_file` return on
a stream, with a step budget: the lines of the file as the program reads them. -/
def config_lines : Nat → Nat → List Char → List (List Char)
  | 0, _, _ => []
  | fuel + 1, buf_len, file =>
    match fgets buf_len file with
    | none => []
    | some (buf, file) => buf :: config_lines fuel buf_len file

/-- The lines of a text, each with its newline; the last one may lack it. -/
def text_lines : List Char → List (List Char)
  | [] => []
  | c :: cs =>
    if c = '\n' then [c] :: text_lines cs
    else
      match text_lines cs with
      | [] => [[c]]
      | l :: ls => (c :: l) :: ls

/-- The tokens that one pass through the loop body of `parse_config_file` appends for a
buffer content. -/
def line_tokens (buf_len : Nat) (buf : List Char) : List String :=
  (parse_config_line buf_len buf [] 0).1

/-- The tokens that an occurrence contributes to the pass-through vector, as the spec lists
them: `-o` and its value for `-o`, the flag itself for `-d`/`--debug`, `-f` and `-s`, and
nothing for the other options. -/
def passthrough_tokens (r : GetoptRet) : List String :=
  if r.c = 'o' then
    match r.optarg with
    | some v => ["-o", v]
    | none => []
  else if r.c = 'd' then ["-d"]
  else if r.c = 'f' then ["-f"]
  else if r.c = 's' then ["-s"]
  else []

/-- The options with a value of the CLI table of the spec, each with the field it sets. -/
def cli_value_options : List (String × (String → ConfigStruct → ConfigStruct)) :=
  [ ("-u", fun v C => { C with http_username := some v }),
    ("--username", fun v C => { C with http_username := some v }),
    ("-p", fun v C => { C with http_password := some v }),
    ("--password", fun v C => { C with http_password := some v }),
    ("-P", fun v C => { C with proxy := some v }),
    ("--proxy", fun v C => { C with proxy := some v }),
    ("--proxy-username", fun v C => { C with proxy_username := some v }),
    ("--proxy-password", fun v C => { C with proxy_password := some v }),
    ("--dl-seg-size", fun v C => { C with
      data_blksz := (int_mul (int_mul (atoi v) 1024) 1024) }),
    ("--max-seg-count", fun v C => { C with max_segbc := atoi v }),
    ("--max-conns", fun v C => { C with max_conns := atoi v }),
    ("--user-agent", fun v C => { C with user_agent := some v }),
    ("--retry-wait", fun v C => { C with http_wait_sec := atoi v }),
    ("--cache-location", fun v C => { C with cache_dir := some v }),
    ("--sonic-username", fun v C => { C with sonic_username := some v }),
    ("--sonic-password", fun v C => { C with sonic_password := some v }) ]

/-- A file of one line only, longer than a 4096 byte buffer: 4095 times `#`, then `-x` and
a newline. -/
def long_comment_file : List Char := List.replicate 4095 '#' ++ "-x\n".data

/-! ## Argument vectors -/

theorem realloc_succ (argv : List String) (argc : Nat) (h : argv.length = argc) :
    realloc argv (argc + 1) = argv ++ [""] := by
  subst h
  simp [realloc, List.take_of_length_le]

theorem realloc_succ_succ (argv : List String) (argc : Nat) (h : argv.length = argc) :
    realloc argv (argc + 1 + 1) = argv ++ ["", ""] := by
  subst h
  have e : argv.length + 1 + 1 - argv.length = 2 := by omega
  have e2 : argv.length ≤ argv.length + 1 + 1 := by omega
  simp [realloc, List.take_of_length_le e2, e, List.replicate]

theorem set_append_last (argv : List String) (a b : String) :
    (argv ++ [a]).set argv.length b = argv ++ [b] := by
  induction argv with
  | nil => rfl
  | cons x xs ih => simp [List.set, ih]

theorem set_append_two (argv : List String) (a b c d : String) :
    ((argv ++ [a, b]).set argv.length c).set (argv.length + 1) d = argv ++ [c, d] := by
  induction argv with
  | nil => rfl
  | cons x xs ih => simp [List.set, ih]

/-- On a vector whose counter is its length, `add_arg` appends the string and adds one to
the counter. -/
theorem add_arg_eq (argv : List String) (argc : Nat) (s : String) (h : argv.length = argc) :
    add_arg argv argc s = (argv ++ [s], argc + 1) := by
  unfold add_arg
  simp only [realloc_succ argv argc h, strdup, Nat.add_sub_cancel]
  subst h
  rw [set_append_last]

theorem foldl_add_arg (args : List String) :
    ∀ (argv : List String) (argc : Nat), argv.length = argc →
      args.foldl (fun all a => add_arg all.1 all.2 a) (argv, argc)
        = (argv ++ args, argc + args.length) := by
  induction args with
  | nil => intro argv argc _; simp
  | cons a as ih =>
    intro argv argc h
    rw [List.foldl_cons]
    simp only [add_arg_eq argv argc a h]
    rw [ih (argv ++ [a]) (argc + 1) (by simp [h])]
    simp [Nat.add_comm, Nat.add_left_comm]

/-! ## The configuration file -/

/-- The tokens one buffer content contributes. -/
theorem parse_config_line_append (buf_len : Nat) (buf : List Char) (argv : List String)
    (argc : Nat) (h : argv.length = argc) :
    parse_config_line buf_len buf argv argc
      = (argv ++ (parse_config_line buf_len buf [] 0).1,
         argc + (parse_config_line buf_len buf [] 0).1.length) := by
  unfold parse_config_line
  by_cases hd : buf.head? = some '-'
  · simp only [hd, if_true]
    cases hs : strchr (buf.set (strnlen buf buf_len - 1) NUL) ' ' with
    | none =>
      simp only [realloc_succ argv argc h, realloc_succ [] 0 rfl, Nat.add_sub_cancel]
      subst h
      rw [set_append_last]
      simp
    | some space =>
      simp only [realloc_succ_succ argv argc h, realloc_succ_succ [] 0 rfl]
      subst h
      have e1 : argv.length + 1 + 1 - 2 = argv.length := by omega
      have e2 : argv.length + 1 + 1 - 1 = argv.length + 1 := by omega
      rw [e1, e2, set_append_two]
      simp
  · simp [hd]

theorem parse_config_line_count (buf_len : Nat) (buf : List Char) (argv : List String)
    (argc : Nat) (h : argv.length = argc) :
    (parse_config_line buf_len buf argv argc).1.length
      = (parse_config_line buf_len buf argv argc).2 := by
  rw [parse_config_line_append buf_len buf argv argc h]
  simp [h]

theorem parse_config_loop_append (buf_len : Nat) :
    ∀ (fuel : Nat) (file : List Char) (argv : List String) (argc : Nat) (toks : List String)
      (n : Nat), argv.length = argc →
      parse_config_loop fuel buf_len file [] 0 = some (toks, n) →
      n = toks.length ∧
      parse_config_loop fuel buf_len file argv argc = some (argv ++ toks, argc + toks.length) := by
  suffices H : ∀ (fuel : Nat) (file : List Char) (pre : List String) (argv : List String)
      (argc : Nat) (toks : List String) (n : Nat), argv.length = argc →
      parse_config_loop fuel buf_len file pre pre.length = some (toks, n) →
      n = toks.length ∧ ∃ suf, toks = pre ++ suf ∧
      parse_config_loop fuel buf_len file (argv ++ pre) (argc + pre.length)
        = some (argv ++ pre ++ suf, argc + pre.length + suf.length) by
    intro fuel file argv argc toks n h hl
    obtain ⟨hn, suf, hsuf, hr⟩ := H fuel file [] argv argc toks n h hl
    simp at hsuf hr
    subst hsuf
    exact ⟨hn, hr⟩
  intro fuel
  induction fuel with
  | zero => intro file pre argv argc toks n _ hl; simp [parse_config_loop] at hl
  | succ k ih =>
    intro file pre argv argc toks n h hl
    unfold parse_config_loop at hl ⊢
    cases hf : fgets buf_len file with
    | none =>
      simp only [hf] at hl ⊢
      simp only [Option.some.injEq, Prod.mk.injEq] at hl
      exact ⟨by rw [← hl.2, ← hl.1], [], by simp [hl.1], by simp⟩
    | some bf =>
      obtain ⟨buf, file'⟩ := bf
      simp only [hf] at hl ⊢
      have hp := parse_config_line_append buf_len buf pre pre.length rfl
      have ha := parse_config_line_append buf_len buf (argv ++ pre) (argc + pre.length)
        (by simp [h])
      rw [hp] at hl
      rw [ha]
      simp only at hl ⊢
      have hlen : pre.length + (parse_config_line buf_len buf [] 0).1.length
          = (pre ++ (parse_config_line buf_len buf [] 0).1).length := by simp
      rw [hlen] at hl
      obtain ⟨hn, suf, hsuf, hr⟩ := ih file' (pre ++ (parse_config_line buf_len buf [] 0).1)
        argv argc toks n h hl
      refine ⟨hn, (parse_config_line buf_len buf [] 0).1 ++ suf, by simp [hsuf], ?_⟩
      have e : argc + pre.length + (parse_config_line buf_len buf [] 0).1.length
          = argc + (pre ++ (parse_config_line buf_len buf [] 0).1).length := by
        simp [Nat.add_assoc]
      rw [e]
      simp only [List.append_assoc] at hr ⊢
      rw [hr]
      simp [Nat.add_assoc]

theorem fgets_read_length (n : Nat) :
    ∀ file : List Char, (fgets_read n file).2.length ≤ file.length := by
  induction n with
  | zero => intro file; simp [fgets_read]
  | succ k ih =>
    intro file
    cases file with
    | nil => simp [fgets_read]
    | cons c cs =>
      unfold fgets_read
      by_cases hc : c = '\n'
      · simp [hc]
      · simp only [hc, if_false, List.length_cons]
        exact Nat.le_succ_of_le (ih cs)

theorem fgets_consumes (buf_len : Nat) (hb : 2 ≤ buf_len) (file buf file' : List Char)
    (h : fgets buf_len file = some (buf, file')) : file'.length < file.length := by
  cases file with
  | nil => simp [fgets] at h
  | cons c cs =>
    obtain ⟨k, hk⟩ : ∃ k, buf_len - 1 = k + 1 := ⟨buf_len - 2, by omega⟩
    simp only [fgets, hk, Option.some.injEq, Prod.mk.injEq] at h
    rw [← h.2]
    unfold fgets_read
    by_cases hc : c = '\n'
    · simp [hc]
    · simp only [hc, if_false, List.length_cons]
      exact Nat.lt_succ_of_le (fgets_read_length k cs)

/-- With a buffer of at least two bytes the loop over the file ends within its budget, and
the counter it leaves is the length of the vector it leaves. -/
theorem parse_config_loop_total (buf_len : Nat) (hb : 2 ≤ buf_len) :
    ∀ (fuel : Nat) (file : List Char) (argv : List String) (argc : Nat),
      file.length < fuel → argv.length = argc →
      ∃ out, parse_config_loop fuel buf_len file argv argc = some (out, out.length) := by
  intro fuel
  induction fuel with
  | zero => intro file argv argc h _; omega
  | succ k ih =>
    intro file argv argc h hl
    unfold parse_config_loop
    cases hf : fgets buf_len file with
    | none => exact ⟨argv, by simp [hl]⟩
    | some bf =>
      obtain ⟨buf, file'⟩ := bf
      have hlt := fgets_consumes buf_len hb file buf file' hf
      exact ih file' _ _ (by omega) (parse_config_line_count buf_len buf argv argc hl)

/-- The function `parse_config_file` returns, and appends its tokens to the vector. -/
theorem parse_config_file_append (buf_len : Nat) (hb : 2 ≤ buf_len) (config : Option (List Char))
    (argv : List String) (argc : Nat) (h : argv.length = argc) :
    ∃ cfg, parse_config_file buf_len config [] 0 = some (cfg, cfg.length) ∧
      parse_config_file buf_len config argv argc = some (argv ++ cfg, argc + cfg.length) := by
  cases config with
  | none => exact ⟨[], by simp [parse_config_file], by simp [parse_config_file]⟩
  | some file =>
    obtain ⟨cfg, hc⟩ := parse_config_loop_total buf_len hb (file.length + 1) file [] 0
      (Nat.lt_succ_self _) rfl
    exact ⟨cfg, hc, (parse_config_loop_append buf_len _ file argv argc cfg cfg.length h hc).2⟩

theorem short_opts_data :
    short_opts.data = ['o', ':', 'h', 'V', 'd', 'f', 's', 'p', ':', 'u', ':', 'P', ':'] := rfl

theorem getopt_short_spec (c : Char) (more : List Char) (rest : List String) :
    (getopt_short short_opts.data c more rest).1.longindex = none ∧
    ((getopt_short short_opts.data c more rest).1.c = '?' ∨
      ((getopt_short short_opts.data c more rest).1.c = c ∧
        (c = 'o' ∨ c = 'h' ∨ c = 'V' ∨ c = 'd' ∨ c = 'f' ∨ c = 's' ∨ c = 'p' ∨ c = 'u' ∨ c = 'P')
        ∧ ((c = 'o' ∨ c = 'p' ∨ c = 'u' ∨ c = 'P') →
            ∃ a, (getopt_short short_opts.data c more rest).1.optarg = some a))) := by
  rw [short_opts_data]
  by_cases h1 : c = 'o'
  · subst h1; cases more <;> cases rest <;> simp [getopt_short, List.dropWhile]
  by_cases h2 : c = 'h'
  · subst h2; simp [getopt_short, List.dropWhile]
  by_cases h3 : c = 'V'
  · subst h3; simp [getopt_short, List.dropWhile]
  by_cases h4 : c = 'd'
  · subst h4; simp [getopt_short, List.dropWhile]
  by_cases h5 : c = 'f'
  · subst h5; simp [getopt_short, List.dropWhile]
  by_cases h6 : c = 's'
  · subst h6; simp [getopt_short, List.dropWhile]
  by_cases h7 : c = 'p'
  · subst h7; cases more <;> cases rest <;> simp [getopt_short, List.dropWhile]
  by_cases h8 : c = 'u'
  · subst h8; cases more <;> cases rest <;> simp [getopt_short, List.dropWhile]
  by_cases h9 : c = 'P'
  · subst h9; cases more <;> cases rest <;> simp [getopt_short, List.dropWhile]
  by_cases h10 : c = ':'
  · subst h10; simp [getopt_short, List.dropWhile]
  have n1 : ('o' != c) = true := by simpa [bne_iff_ne] using Ne.symm h1
  have n2 : ('h' != c) = true := by simpa [bne_iff_ne] using Ne.symm h2
  have n3 : ('V' != c) = true := by simpa [bne_iff_ne] using Ne.symm h3
  have n4 : ('d' != c) = true := by simpa [bne_iff_ne] using Ne.symm h4
  have n5 : ('f' != c) = true := by simpa [bne_iff_ne] using Ne.symm h5
  have n6 : ('s' != c) = true := by simpa [bne_iff_ne] using Ne.symm h6
  have n7 : ('p' != c) = true := by simpa [bne_iff_ne] using Ne.symm h7
  have n8 : ('u' != c) = true := by simpa [bne_iff_ne] using Ne.symm h8
  have n9 : ('P' != c) = true := by simpa [bne_iff_ne] using Ne.symm h9
  have n10 : (':' != c) = true := by simpa [bne_iff_ne] using Ne.symm h10
  simp [getopt_short, List.dropWhile, n1, n2, n3, n4, n5, n6, n7, n8, n9, n10]

theorem find_option_get (q : option → Bool) :
    ∀ (l : List option) (k i : Nat) (o : option), find_option q l k = some (i, o) →
      ∃ j, i = k + j ∧ l[j]? = some o := by
  intro l
  induction l with
  | nil => intro k i o h; simp [find_option] at h
  | cons x xs ih =>
    intro k i o h
    unfold find_option at h
    by_cases hq : q x = true
    · simp only [hq, if_true, Option.some.injEq, Prod.mk.injEq] at h
      exact ⟨0, by omega, by simp [h.2]⟩
    · simp only [hq] at h
      obtain ⟨j, hj, hg⟩ := ih (k + 1) i o h
      exact ⟨j + 1, by omega, by simpa using hg⟩

theorem lookup_long_get (longopts : List option) (name : List Char) (i : Nat) (o : option)
    (h : lookup_long longopts name = some (i, o)) : longopts[i]? = some o := by
  unfold lookup_long at h
  cases h1 : find_option (fun o => o.name.data == name) longopts 0 with
  | some found =>
    simp only [h1, Option.some.injEq] at h
    subst h
    obtain ⟨j, hj, hg⟩ := find_option_get _ longopts 0 i o h1
    simpa [hj] using hg
  | none =>
    simp only [h1] at h
    cases h2 : find_option (fun o => name.isPrefixOf o.name.data) longopts 0 with
    | none => simp [h2] at h
    | some found =>
      obtain ⟨i', p⟩ := found
      simp only [h2] at h
      split at h
      · simp at h
      · simp only [Option.some.injEq, Prod.mk.injEq] at h
        obtain ⟨j, hj, hg⟩ := find_option_get _ longopts 0 i' p h2
        rw [← h.1, ← h.2]
        simpa [hj] using hg

theorem process_long_option_spec (longopts : List option) (nextchar : List Char)
    (rest : List String) :
    ((process_long_option longopts nextchar rest).1.c = '?' ∧
      (process_long_option longopts nextchar rest).1.longindex = none) ∨
    ∃ i o, longopts[i]? = some o ∧
      (process_long_option longopts nextchar rest).1.c = o.val ∧
      (process_long_option longopts nextchar rest).1.longindex = some i ∧
      (o.has_arg = 1 → ∃ a, (process_long_option longopts nextchar rest).1.optarg = some a) := by
  cases hl : lookup_long longopts (nextchar.takeWhile (· != '=')) with
  | none => left; simp [process_long_option, hl]
  | some found =>
    obtain ⟨i, o⟩ := found
    have hg := lookup_long_get longopts _ i o hl
    cases hn : nextchar.dropWhile (· != '=') with
    | cons e value =>
      by_cases ha : o.has_arg = 0
      · left; simp [process_long_option, hl, hn, ha]
      · right
        refine ⟨i, o, hg, ?_⟩
        simp [process_long_option, hl, hn, ha]
    | nil =>
      by_cases ha : o.has_arg = 1
      · cases rest with
        | nil => left; simp [process_long_option, hl, hn, ha]
        | cons a rest => right; exact ⟨i, o, hg, by simp [process_long_option, hl, hn, ha]⟩
      · right; exact ⟨i, o, hg, by simp [process_long_option, hl, hn, ha]⟩

theorem long_opts_entry (i : Nat) (o : option) (h : long_opts[i]? = some o) :
    o.val ≠ 'o' ∧ o.val ≠ '?' ∧
    ((o.val = 'u' ∨ o.val = 'p' ∨ o.val = 'P') → o.has_arg = 1) ∧
    (o.val = 'L' → 6 ≤ i ∧ i ≤ 16 ∧ (i ≠ 8 → o.has_arg = 1)) := by
  have hi : i < 17 := by
    by_contra hc
    have : long_opts[i]? = none := by
      apply List.getElem?_eq_none
      simp only [long_opts, List.length_cons, List.length_nil]
      omega
    rw [this] at h
    simp at h
  interval_cases i <;> simp [long_opts] at h <;> subst h <;>
    simp [required_argument, no_argument]

/-- What `getopt_long` returns for the tables of `parse_arg_list`: an option that takes a
value comes with a non-NULL `optarg`, and the value `'L'` comes with one of the indices 6
to 16 stored in `long_index`. -/
theorem getopt_long_wf (st st' : GetoptState) (r : GetoptRet)
    (h : getopt_long short_opts.data long_opts st = some (r, st')) :
    ((r.c = 'o' ∨ r.c = 'u' ∨ r.c = 'p' ∨ r.c = 'P') → ∃ a, r.optarg = some a) ∧
    (r.c = 'L' → ∃ i, r.longindex = some i ∧ 6 ≤ i ∧ i ≤ 16 ∧
      (i ≠ 8 → ∃ a, r.optarg = some a)) := by
  have short : ∀ c more rest, r = (getopt_short short_opts.data c more rest).1 →
      ((r.c = 'o' ∨ r.c = 'u' ∨ r.c = 'p' ∨ r.c = 'P') → ∃ a, r.optarg = some a) ∧
      (r.c = 'L' → ∃ i, r.longindex = some i ∧ 6 ≤ i ∧ i ≤ 16 ∧
        (i ≠ 8 → ∃ a, r.optarg = some a)) := by
    intro c more rest hr
    obtain ⟨_, hs⟩ := getopt_short_spec c more rest
    rw [← hr] at hs
    rcases hs with hq | ⟨hc, hmem, harg⟩
    · constructor
      · intro hx; rw [hq] at hx; simp at hx
      · intro hx; rw [hq] at hx; simp at hx
    · constructor
      · intro hx
        rw [hc] at hx
        exact harg (by tauto)
      · intro hx
        rw [hc] at hx
        subst hx
        simp at hmem
  have long : ∀ nextchar rest, r = (process_long_option long_opts nextchar rest).1 →
      ((r.c = 'o' ∨ r.c = 'u' ∨ r.c = 'p' ∨ r.c = 'P') → ∃ a, r.optarg = some a) ∧
      (r.c = 'L' → ∃ i, r.longindex = some i ∧ 6 ≤ i ∧ i ≤ 16 ∧
        (i ≠ 8 → ∃ a, r.optarg = some a)) := by
    intro nextchar rest hr
    have hs := process_long_option_spec long_opts nextchar rest
    rw [← hr] at hs
    rcases hs with ⟨hq, _⟩ | ⟨i, o, hg, hc, hli, harg⟩
    · constructor
      · intro hx; rw [hq] at hx; simp at hx
      · intro hx; rw [hq] at hx; simp at hx
    · obtain ⟨ho, _, hup, hL⟩ := long_opts_entry i o hg
      constructor
      · intro hx
        rw [hc] at hx
        rcases hx with hx | hx
        · exact absurd hx ho
        · exact harg (hup hx)
      · intro hx
        rw [hc] at hx
        obtain ⟨h6, h16, h8⟩ := hL hx
        exact ⟨i, hli, h6, h16, fun hne => harg (h8 hne)⟩
  unfold getopt_long at h
  cases hn : st.nextchar with
  | cons c more =>
    simp only [hn, Option.some.injEq] at h
    exact short c more st.rest (by rw [h])
  | nil =>
    simp only [hn] at h
    cases hd : st.rest.dropWhile NONOPTION_P with
    | nil => simp [hd] at h
    | cons a rest =>
      simp only [hd] at h
      split at h
      · split at h
        · split at h
          · simp at h
          · simp only [Option.some.injEq] at h
            exact long _ rest (by rw [h])
        · simp only [Option.some.injEq] at h
          exact short _ _ rest (by rw [h])
      · simp at h

/-! ## The option loop ends -/

theorem size_dropWhile (p : String → Bool) (l : List String) :
    ((l.dropWhile p).map fun a => a.data.length + 1).sum
      ≤ (l.map fun a => a.data.length + 1).sum := by
  induction l with
  | nil => simp
  | cons x xs ih =>
    simp only [List.dropWhile]
    split
    · simp only [List.map_cons, List.sum_cons]; omega
    · exact Nat.le_refl _

theorem getopt_short_size (optstring : List Char) (c : Char) (more : List Char)
    (rest : List String) :
    (getopt_short optstring c more rest).2.size
      ≤ more.length + (rest.map fun a => a.data.length + 1).sum := by
  unfold getopt_short
  split
  · simp [GetoptState.size]
  · split
    · simp [GetoptState.size]
    · split
      · split
        · simp [GetoptState.size]
        · split
          · simp [GetoptState.size]
          · split
            · simp [GetoptState.size]
            · simp only [GetoptState.size, List.length_nil, List.map_cons, List.sum_cons]
              omega
      · simp [GetoptState.size]

theorem process_long_option_size (longopts : List option) (nextchar : List Char)
    (rest : List String) :
    (process_long_option longopts nextchar rest).2.size
      ≤ (rest.map fun a => a.data.length + 1).sum := by
  simp only [process_long_option]
  split
  · simp [GetoptState.size]
  · split
    · split <;> simp [GetoptState.size]
    · split
      · split
        · simp only [GetoptState.size, List.length_nil, List.map_cons, List.sum_cons]
          omega
        · simp [GetoptState.size]
      · simp [GetoptState.size]

/-- Every call of `getopt_long` that returns an option leaves strictly less to scan. -/
theorem getopt_long_size (optstring : List Char) (longopts : List option)
    (st st' : GetoptState) (r : GetoptRet)
    (h : getopt_long optstring longopts st = some (r, st')) : st'.size < st.size := by
  unfold getopt_long at h
  cases hn : st.nextchar with
  | cons c more =>
    simp only [hn, Option.some.injEq] at h
    have hs := getopt_short_size optstring c more st.rest
    rw [h] at hs
    simp only [GetoptState.size, hn, List.length_cons] at hs ⊢
    omega
  | nil =>
    simp only [hn] at h
    have hd := size_dropWhile NONOPTION_P st.rest
    cases hdw : st.rest.dropWhile NONOPTION_P with
    | nil => simp [hdw] at h
    | cons a rest =>
      simp only [hdw] at h hd
      split at h
      · rename_i x c more hdata
        simp only [List.map_cons, List.sum_cons, hdata, List.length_cons] at hd
        split at h
        · split at h
          · simp at h
          · simp only [Option.some.injEq] at h
            have hs := process_long_option_size longopts more rest
            rw [h] at hs
            simp only [GetoptState.size, hn, List.length_nil] at hs ⊢
            omega
        · simp only [Option.some.injEq] at h
          have hs := getopt_short_size optstring c more rest
          rw [h] at hs
          simp only [GetoptState.size, hn, List.length_nil] at hs ⊢
          omega
      · simp at h

/-- The `switch` of `parse_arg_list` never dereferences a NULL `optarg` on what
`getopt_long` returns. -/
theorem arg_switch_some (st st' : GetoptState) (r : GetoptRet)
    (h : getopt_long short_opts.data long_opts st = some (r, st')) (long_index : Nat)
    (s : ParseState) :
    ∃ fl, arg_switch r.c (r.longindex.getD long_index) r.optarg s = some fl := by
  obtain ⟨hv, hL⟩ := getopt_long_wf st st' r h
  unfold arg_switch
  by_cases c1 : r.c = 'o'
  · obtain ⟨a, ha⟩ := hv (by tauto)
    simp [c1, ha]
  by_cases c2 : r.c = 'h'
  · simp [c2]
  by_cases c3 : r.c = 'V'
  · simp [c3]
  by_cases c4 : r.c = 'd'
  · simp [c4]
  by_cases c5 : r.c = 'f'
  · simp [c5]
  by_cases c6 : r.c = 's'
  · simp [c6]
  by_cases c7 : r.c = 'u'
  · obtain ⟨a, ha⟩ := hv (by tauto)
    simp [c7, ha]
  by_cases c8 : r.c = 'p'
  · obtain ⟨a, ha⟩ := hv (by tauto)
    simp [c8, ha]
  by_cases c9 : r.c = 'P'
  · obtain ⟨a, ha⟩ := hv (by tauto)
    simp [c9, ha]
  by_cases c10 : r.c = 'L'
  · obtain ⟨i, hi, h6, h16, harg⟩ := hL c10
    simp only [c1, c2, c3, c4, c5, c6, c7, c8, c9, c10, if_false, if_true, hi, Option.getD_some]
    by_cases h8 : i = 8
    · subst h8; exact ⟨_, rfl⟩
    · obtain ⟨a, ha⟩ := harg h8
      rw [ha]
      interval_cases i <;> first | exact absurd rfl h8 | exact ⟨_, rfl⟩
  · simp [c1, c2, c3, c4, c5, c6, c7, c8, c9, c10]

/-- The loop of `parse_arg_list` returns within its budget. -/
theorem parse_arg_loop_total :
    ∀ (fuel : Nat) (st : GetoptState) (long_index : Nat) (s : ParseState),
      st.size < fuel → ∃ res, parse_arg_loop fuel st long_index s = some res := by
  intro fuel
  induction fuel with
  | zero => intro st _ _ h; omega
  | succ k ih =>
    intro st long_index s h
    unfold parse_arg_loop
    cases hg : getopt_long short_opts.data long_opts st with
    | none => exact ⟨_, rfl⟩
    | some p =>
      obtain ⟨r, st'⟩ := p
      obtain ⟨fl, hfl⟩ := arg_switch_some st st' r hg long_index s
      simp only [hfl]
      cases fl with
      | return_ ret s' => exact ⟨_, rfl⟩
      | break_ s' =>
        have := getopt_long_size _ _ st st' r hg
        exact ih st' _ s' (by omega)

/-- The function `parse_arg_list` returns on every argument list. -/
theorem parse_arg_list_total (argc : Nat) (argv : List String) (CONFIG : ConfigStruct)
    (fuse_argv : List String) (fuse_argc : Nat) :
    ∃ res, parse_arg_list argc argv CONFIG fuse_argv fuse_argc = some res :=
  parse_arg_loop_total _ _ _ _ (Nat.lt_succ_self _)

/-! ## `main` in terms of its parts -/

theorem strncmp_eq_zero_iff (b : List Char) (hb : ∀ c ∈ b, c.toNat ≠ 0) :
    ∀ a : List Char, strncmp a b b.length = 0 ↔ b <+: a := by
  induction b with
  | nil => intro a; simp [strncmp]
  | cons y ys ih =>
    intro a
    have hy : y.toNat ≠ 0 := hb y (List.mem_cons_self _ _)
    have hys : ∀ c ∈ ys, c.toNat ≠ 0 := fun c hc => hb c (List.mem_cons_of_mem _ hc)
    cases a with
    | nil =>
      simp only [strncmp, List.length_cons]
      constructor
      · intro h; omega
      · intro h; simp at h
    | cons x xs =>
      simp only [strncmp, List.length_cons]
      by_cases hxy : x = y
      · subst hxy
        simp only [if_true, ih hys xs]
        constructor
        · intro h; exact (List.cons_prefix_cons).2 ⟨rfl, h⟩
        · intro h; exact ((List.cons_prefix_cons).1 h).2
      · simp only [hxy, if_false]
        constructor
        · intro h
          exfalso
          apply hxy
          have hn : x.toNat = y.toNat := by omega
          have e : Char.ofNat x.toNat = Char.ofNat y.toNat := by rw [hn]
          simpa [Char.ofNat_toNat] using e
        · intro h
          exact absurd ((List.cons_prefix_cons).1 h).1.symm hxy

/-- The test of line 66 fails exactly on the strings that start with `http://` or with
`https://`. -/
theorem url_test_iff (base_url : String) :
    (strncmp base_url.data "http://".data 7 ≠ 0 ∧ strncmp base_url.data "https://".data 8 ≠ 0)
      ↔ ¬ valid_url base_url := by
  have h1 := strncmp_eq_zero_iff "http://".data (by decide) base_url.data
  have h2 := strncmp_eq_zero_iff "https://".data (by decide) base_url.data
  have l1 : "http://".data.length = 7 := rfl
  have l2 : "https://".data.length = 8 := rfl
  rw [l1] at h1
  rw [l2] at h2
  unfold valid_url
  rw [← h1, ← h2]
  tauto

theorem main_all_args_eq (w : World) (argv0 : String) (args : List String)
    (hb : 2 ≤ w.MAX_PATH_LEN) :
    ∃ cfg, parse_config_file w.MAX_PATH_LEN w.config [] 0 = some (cfg, cfg.length) ∧
      main_all_args w (argv0 :: args)
        = some (argv0 :: (cfg ++ args), (argv0 :: (cfg ++ args)).length) := by
  obtain ⟨cfg, hc, ha⟩ := parse_config_file_append w.MAX_PATH_LEN hb w.config [argv0] 1 rfl
  refine ⟨cfg, hc, ?_⟩
  unfold main_all_args
  simp only [List.getElem?_cons_zero, add_arg_eq [] 0 argv0 rfl, List.nil_append, Nat.zero_add,
    ha, List.drop_succ_cons, List.drop_zero]
  rw [foldl_add_arg args ([argv0] ++ cfg) (1 + cfg.length) (by simp [Nat.add_comm])]
  simp only [List.singleton_append, List.cons_append, List.length_cons, List.length_append,
    Option.some.injEq, Prod.mk.injEq, true_and]
  exact ⟨by simp, by omega⟩

/-- The call of `parse_arg_list` in `main` is on the program name, the configuration file
tokens and the command line arguments, in this order. -/
theorem main_parse_eq (w : World) (argv0 : String) (args : List String)
    (hb : 2 ≤ w.MAX_PATH_LEN) :
    ∃ cfg, parse_config_file w.MAX_PATH_LEN w.config [] 0 = some (cfg, cfg.length) ∧
      main_parse w (argv0 :: args)
        = parse_arg_list (argv0 :: (cfg ++ args)).length (argv0 :: (cfg ++ args))
            w.Config_init [argv0] 1 := by
  obtain ⟨cfg, hc, ha⟩ := main_all_args_eq w argv0 args hb
  refine ⟨cfg, hc, ?_⟩
  unfold main_parse
  simp only [List.getElem?_cons_zero, ha, add_arg_eq [] 0 argv0 rfl, List.nil_append,
    Nat.zero_add]

/-- The function `main` returns on every command line; with at least one argument it is
`fuse_start` or lines 61-86, according to the return value of `parse_arg_list`. -/
theorem main_eq (w : World) (argv : List String) (hb : 2 ≤ w.MAX_PATH_LEN)
    (h : 2 ≤ argv.length) :
    ∃ p, main_parse w argv = some p ∧
      main w argv = (if p.ret ≠ 0 then
        some (fuse_start p.s.CONFIG none p.s.fuse_argc p.s.fuse_argv)
        else main_resolve w argv p.s) := by
  cases argv with
  | nil => simp at h
  | cons argv0 args =>
    obtain ⟨cfg, _, hp⟩ := main_parse_eq w argv0 args hb
    obtain ⟨p, hq⟩ := parse_arg_list_total (argv0 :: (cfg ++ args)).length
      (argv0 :: (cfg ++ args)) w.Config_init [argv0] 1
    refine ⟨p, by rw [hp, hq], ?_⟩
    unfold main
    have hlt : ¬ (argv0 :: args).length < 2 := by omega
    simp only [hlt, if_false, hp, hq]

/-- The two positional reads of `main` are in range when `argc` is at least 2. -/
theorem positional_get (argv : List String) (h : 2 ≤ argv.length) :
    ∃ mountpoint base_url, argv[argv.length - 1]? = some mountpoint ∧
      argv[argv.length - 2]? = some base_url :=
  ⟨argv[argv.length - 1], argv[argv.length - 2],
    List.getElem?_eq_getElem (by omega), List.getElem?_eq_getElem (by omega)⟩

/-! ## The pass-through vector keeps its counter -/

theorem ParseState.add_eq (s : ParseState) (a : String) (h : s.fuse_argv.length = s.fuse_argc) :
    s.add a = ⟨s.CONFIG, s.fuse_argv ++ [a], s.fuse_argc + 1⟩ := by
  simp [ParseState.add, add_arg_eq s.fuse_argv s.fuse_argc a h]

theorem ParseState.add_length (s : ParseState) (a : String)
    (h : s.fuse_argv.length = s.fuse_argc) : (s.add a).fuse_argv.length = (s.add a).fuse_argc := by
  rw [ParseState.add_eq s a h]
  simp [h]

theorem long_switch_default (k : Nat) (optarg : Option String) (s : ParseState) :
    long_switch (k + 17) optarg s = some (.return_ 1 s) := rfl

theorem long_switch_small (i : Nat) (hi : i < 6) (optarg : Option String) (s : ParseState) :
    long_switch i optarg s = some (.return_ 1 s) := by
  interval_cases i <;> rfl

theorem long_switch_length (long_index : Nat) (optarg : Option String)
    (s : ParseState) (fl : Flow) (h : s.fuse_argv.length = s.fuse_argc)
    (hfl : long_switch long_index optarg s = some fl) :
    fl.state.fuse_argv.length = fl.state.fuse_argc := by
  by_cases hbig : 17 ≤ long_index
  · obtain ⟨k, rfl⟩ : ∃ k, long_index = k + 17 := ⟨long_index - 17, by omega⟩
    rw [long_switch_default] at hfl
    simp only [Option.some.injEq] at hfl
    rw [← hfl]; exact h
  · cases optarg with
    | none =>
      interval_cases long_index <;> simp [long_switch] at hfl <;> (rw [← hfl]; exact h)
    | some a =>
      interval_cases long_index <;> simp [long_switch] at hfl <;> (rw [← hfl]; exact h)

theorem arg_switch_length (c : Char) (long_index : Nat) (optarg : Option String)
    (s : ParseState) (fl : Flow) (h : s.fuse_argv.length = s.fuse_argc)
    (hfl : arg_switch c long_index optarg s = some fl) :
    fl.state.fuse_argv.length = fl.state.fuse_argc := by
  have hadd : ∀ a, (s.add a).fuse_argv.length = (s.add a).fuse_argc :=
    fun a => ParseState.add_length s a h
  unfold arg_switch at hfl
  by_cases c1 : c = 'o'
  · subst c1
    cases optarg with
    | none => simp at hfl
    | some a =>
      simp only [if_true, Option.map_some', Option.some.injEq] at hfl
      rw [← hfl]; exact ParseState.add_length _ a (hadd _)
  by_cases c2 : c = 'h'
  · subst c2; simp at hfl; subst hfl; exact hadd _
  by_cases c3 : c = 'V'
  · subst c3; simp at hfl; subst hfl; exact hadd _
  by_cases c4 : c = 'd'
  · subst c4; simp at hfl; subst hfl; exact hadd _
  by_cases c5 : c = 'f'
  · subst c5; simp at hfl; subst hfl; exact hadd _
  by_cases c6 : c = 's'
  · subst c6; simp at hfl; subst hfl; exact hadd _
  by_cases c7 : c = 'u'
  · subst c7
    cases optarg with
    | none => simp at hfl
    | some a => simp at hfl; subst hfl; exact h
  by_cases c8 : c = 'p'
  · subst c8
    cases optarg with
    | none => simp at hfl
    | some a => simp at hfl; subst hfl; exact h
  by_cases c9 : c = 'P'
  · subst c9
    cases optarg with
    | none => simp at hfl
    | some a => simp at hfl; subst hfl; exact h
  by_cases c10 : c = 'L'
  · subst c10
    simp at hfl
    exact long_switch_length long_index optarg s fl h hfl
  · simp only [c1, c2, c3, c4, c5, c6, c7, c8, c9, c10, if_false, Option.some.injEq] at hfl
    rw [← hfl]; exact h

theorem parse_arg_loop_length :
    ∀ (fuel : Nat) (st : GetoptState) (long_index : Nat) (s : ParseState) (res : ParseResult),
      s.fuse_argv.length = s.fuse_argc → parse_arg_loop fuel st long_index s = some res →
      res.s.fuse_argv.length = res.s.fuse_argc := by
  intro fuel
  induction fuel with
  | zero => intro st li s res _ h; simp [parse_arg_loop] at h
  | succ k ih =>
    intro st li s res hl h
    unfold parse_arg_loop at h
    cases hg : getopt_long short_opts.data long_opts st with
    | none =>
      simp only [hg, Option.some.injEq] at h
      rw [← h]; exact hl
    | some p =>
      obtain ⟨r, st'⟩ := p
      simp only [hg] at h
      cases hs : arg_switch r.c (r.longindex.getD li) r.optarg s with
      | none => simp [hs] at h
      | some fl =>
        have hlen := arg_switch_length _ _ _ s fl hl hs
        simp only [hs] at h
        cases fl with
        | return_ ret s' =>
          simp only [Option.some.injEq] at h
          rw [← h]; exact hlen
        | break_ s' => exact ih st' _ s' res hlen h

/-- The pass-through vector that `main` gets back from `parse_arg_list` has its counter
equal to its length. -/
theorem main_parse_length (w : World) (argv : List String) (p : ParseResult)
    (hp : main_parse w argv = some p) : p.s.fuse_argv.length = p.s.fuse_argc := by
  unfold main_parse at hp
  cases h0 : argv[0]? with
  | none => simp [h0] at hp
  | some argv0 =>
    simp only [h0] at hp
    cases ha : main_all_args w argv with
    | none => simp [ha] at hp
    | some all =>
      simp only [ha] at hp
      rw [add_arg_eq [] 0 argv0 rfl] at hp
      exact parse_arg_loop_length _ _ _ _ p rfl hp

/-- What `main` does once `parse_arg_list` has returned `p`. -/
theorem main_of_parse (w : World) (argv : List String) (p : ParseResult)
    (h : 2 ≤ argv.length) (hp : main_parse w argv = some p) :
    main w argv = (if p.ret ≠ 0 then
      some (fuse_start p.s.CONFIG none p.s.fuse_argc p.s.fuse_argv)
      else main_resolve w argv p.s) := by
  unfold main
  have hlt : ¬ argv.length < 2 := by omega
  simp only [hlt, if_false, hp]

/-- Lines 61-86 with the two positional arguments named and the vector appended to. -/
theorem main_resolve_eq (w : World) (argv : List String) (s : ParseState)
    (mountpoint base_url : String) (hl : s.fuse_argv.length = s.fuse_argc)
    (hm : argv[argv.length - 1]? = some mountpoint)
    (hu : argv[argv.length - 2]? = some base_url) :
    main_resolve w argv s =
      if ¬ valid_url base_url then
        some ⟨EXIT_FAILURE, some .invalid_url, s.CONFIG, none, none⟩
      else if s.CONFIG.sonic_username.isSome ∧ s.CONFIG.sonic_password.isSome then
        if w.LinkSystem_init { s.CONFIG with sonic_mode := 1 } base_url then
          some (fuse_start { s.CONFIG with sonic_mode := 1 } (some base_url)
            (s.fuse_argc + 1) (s.fuse_argv ++ [mountpoint]))
        else some ⟨EXIT_FAILURE, some .network, { s.CONFIG with sonic_mode := 1 },
          some base_url, none⟩
      else if s.CONFIG.sonic_username.isSome ∨ s.CONFIG.sonic_password.isSome then
        some ⟨EXIT_FAILURE, some .sonic, s.CONFIG, none, none⟩
      else if w.LinkSystem_init s.CONFIG base_url then
        some (fuse_start s.CONFIG (some base_url) (s.fuse_argc + 1) (s.fuse_argv ++ [mountpoint]))
      else some ⟨EXIT_FAILURE, some .network, s.CONFIG, some base_url, none⟩ := by
  have e := url_test_iff base_url
  unfold main_resolve
  simp only [hm, hu, add_arg_eq s.fuse_argv s.fuse_argc mountpoint hl] at e ⊢
  simp only [e]

theorem parse_config_file_append_of (buf_len : Nat) (config : Option (List Char))
    (argv : List String) (argc : Nat) (cfg : List String) (n : Nat) (h : argv.length = argc)
    (hcfg : parse_config_file buf_len config [] 0 = some (cfg, n)) :
    n = cfg.length ∧
      parse_config_file buf_len config argv argc = some (argv ++ cfg, argc + cfg.length) := by
  cases config with
  | none =>
    simp only [parse_config_file, Option.some.injEq, Prod.mk.injEq] at hcfg
    obtain ⟨h1, h2⟩ := hcfg
    subst h1 h2
    simp [parse_config_file]
  | some file => exact parse_config_loop_append buf_len _ file argv argc cfg n h hcfg

/-! ## The claims -/

/-- C1: for every command line `argv` with at least two tokens and every token sequence
`cfg` that `parse_config_file` produces, the combined list that `main` builds and passes to
`parse_arg_list` is `[argv[0]] ++ cfg ++ argv[1..]`: the program name, then the
configuration file tokens in file order, then the command line tokens in their order. -/
theorem C1_merged_vector (w : World) (argv cfg : List String) (n : Nat)
    (h : 2 ≤ argv.length)
    (hcfg : parse_config_file w.MAX_PATH_LEN w.config [] 0 = some (cfg, n)) :
    main_all_args w argv
      = some (argv.take 1 ++ cfg ++ argv.drop 1, argv.length + cfg.length) ∧
    main_parse w argv
      = parse_arg_list (argv.length + cfg.length) (argv.take 1 ++ cfg ++ argv.drop 1)
          w.Config_init (argv.take 1) 1 := by
  cases argv with
  | nil => simp at h
  | cons argv0 args =>
    obtain ⟨_, ha⟩ := parse_config_file_append_of w.MAX_PATH_LEN w.config [argv0] 1 cfg n rfl hcfg
    have hall : main_all_args w (argv0 :: args)
        = some ([argv0] ++ cfg ++ args, (argv0 :: args).length + cfg.length) := by
      unfold main_all_args
      simp only [List.getElem?_cons_zero, add_arg_eq [] 0 argv0 rfl, List.nil_append,
        Nat.zero_add, ha, List.drop_succ_cons, List.drop_zero]
      rw [foldl_add_arg args ([argv0] ++ cfg) (1 + cfg.length) (by simp [Nat.add_comm])]
      simp only [List.length_cons, Option.some.injEq, Prod.mk.injEq, true_and]
      omega
    have ht : (argv0 :: args).take 1 = [argv0] := rfl
    have hd : (argv0 :: args).drop 1 = args := rfl
    rw [ht, hd]
    refine ⟨hall, ?_⟩
    unfold main_parse
    simp only [List.getElem?_cons_zero, hall, add_arg_eq [] 0 argv0 rfl, List.nil_append,
      Nat.zero_add]

/-- C1, on a configuration file with two option lines and a five token command line. -/
theorem C1_merged_vector_witness :
    (2 ≤ ["prog", "-u", "carol", "http://a/", "/mnt"].length ∧
      parse_config_file (scenario_world_with "-u alice\n--cache\n").MAX_PATH_LEN
        (scenario_world_with "-u alice\n--cache\n").config [] 0
          = some (["-u", "alice", "--cache"], 3)) ∧
    main_all_args (scenario_world_with "-u alice\n--cache\n")
        ["prog", "-u", "carol", "http://a/", "/mnt"]
      = some (["prog", "-u", "alice", "--cache", "-u", "carol", "http://a/", "/mnt"], 8) :=
  ⟨⟨by decide, by decide⟩,
    (C1_merged_vector (scenario_world_with "-u alice\n--cache\n")
      ["prog", "-u", "carol", "http://a/", "/mnt"] ["-u", "alice", "--cache"] 3
      (by decide) (by decide)).1⟩

/-- C3, as stated, fails on its own witness: on `prog --sonic-username bob` with no
configuration file `parse_arg_list` returns 0, `main` takes `--sonic-username` for the URL,
and the run ends in the URL error with a non-zero status and without any hand-over to
FUSE. -/
theorem C3_counterexample :
    (main scenario_world ["prog", "--sonic-username", "bob"]).map
        (fun r => (r.status, r.failure, r.link_url, r.fuse))
      = some (1, some Failure.invalid_url, none, none) := by
  rfl

/-- C3, amended: `main` does not count positional arguments.  With `argc < 2` it exits with
a failure status.  With `argc ≥ 2` it goes straight to the FUSE hand-over, with no
validation and no network initialisation, exactly when `parse_arg_list` returns non-zero;
when `parse_arg_list` returns 0 it takes `argv[argc - 2]` for the URL, whatever it is, and
ends with the URL error and no hand-over when that is not a valid URL. -/
theorem C3_positionals_not_counted (w : World) (argv : List String)
    (hb : 2 ≤ w.MAX_PATH_LEN) :
    (argv.length < 2 →
      main w argv = some ⟨EXIT_FAILURE, some Failure.usage, CONFIG_static, none, none⟩) ∧
    (2 ≤ argv.length → ∃ p r, main_parse w argv = some p ∧ main w argv = some r ∧
      ((r.failure = none ∧ r.link_url = none ∧ r.fuse.isSome) ↔ p.ret ≠ 0) ∧
      (p.ret = 0 → ∃ base_url, argv[argv.length - 2]? = some base_url ∧
        (¬ valid_url base_url →
          r.status = EXIT_FAILURE ∧ r.failure = some Failure.invalid_url ∧ r.fuse = none))) := by
  constructor
  · intro h
    simp [main, h]
  · intro h
    obtain ⟨p, hp, hm⟩ := main_eq w argv hb h
    obtain ⟨mountpoint, base_url, hmp, hu⟩ := positional_get argv h
    have hlen := main_parse_length w argv p hp
    by_cases h0 : p.ret = 0
    · rw [main_resolve_eq w argv p.s mountpoint base_url hlen hmp hu] at hm
      simp only [h0, ne_eq, not_true_eq_false, if_false] at hm
      by_cases hv : valid_url base_url
      · simp only [hv, not_true_eq_false, if_false] at hm
        split at hm
        · split at hm <;>
            exact ⟨p, _, hp, hm, by simp [h0, fuse_start], fun _ => ⟨base_url, hu, fun hn => absurd hv hn⟩⟩
        · split at hm
          · exact ⟨p, _, hp, hm, by simp [h0], fun _ => ⟨base_url, hu, fun hn => absurd hv hn⟩⟩
          · split at hm <;>
              exact ⟨p, _, hp, hm, by simp [h0, fuse_start],
                fun _ => ⟨base_url, hu, fun hn => absurd hv hn⟩⟩
      · simp only [hv, not_false_eq_true, if_true] at hm
        exact ⟨p, _, hp, hm, by simp [h0], fun _ => ⟨base_url, hu, fun _ => ⟨rfl, rfl, rfl⟩⟩⟩
    · simp only [ne_eq, h0, not_false_eq_true, if_true] at hm
      exact ⟨p, _, hp, hm, by simp [h0, fuse_start], fun h => absurd h h0⟩

/-- C3 amended, on a world with a 4096 byte buffer. -/
theorem C3_positionals_not_counted_witness :
    2 ≤ scenario_world.MAX_PATH_LEN ∧
    (["prog"].length < 2 → main scenario_world ["prog"]
      = some ⟨EXIT_FAILURE, some Failure.usage, CONFIG_static, none, none⟩) :=
  ⟨by decide, (C3_positionals_not_counted scenario_world ["prog"] (by decide)).1⟩

theorem arg_switch_unrecognized (long_index : Nat) (optarg : Option String) (s : ParseState) :
    arg_switch '?' long_index optarg s = some (.return_ 1 s) := by
  simp [arg_switch]

/-- C4, as stated, fails: on `prog -x http://a/ /mnt` the unrecognised option makes
`parse_arg_list` return 1, the very value it returns for `-h`, and `main` then hands the
vector `[prog]` over to FUSE and returns 0. -/
theorem C4_counterexample :
    (main scenario_world ["prog", "-x", "http://a/", "/mnt"]).map
        (fun r => (r.status, r.failure, r.fuse))
      = some (0, none, some (1, ["prog"])) ∧
    (main_parse scenario_world ["prog", "-x", "http://a/", "/mnt"]).map (fun p => p.ret)
      = (main_parse scenario_world ["prog", "-h", "http://a/", "/mnt"]).map (fun p => p.ret) := by
  constructor <;> rfl

/-- C4, amended: when `getopt_long` reports an unrecognised option (it returns `'?'`),
`parse_arg_list` returns 1, the value it also returns for `-h` and `-V`, and leaves the
settings and the pass-through vector as they were; and whenever `parse_arg_list` returns
non-zero, `main` skips validation and network initialisation, hands the pass-through vector
over to FUSE and returns 0. -/
theorem C4_unrecognized_returns_one (fuel : Nat) (st st' : GetoptState) (r : GetoptRet)
    (long_index : Nat) (s : ParseState) (w : World) (argv : List String) (p : ParseResult)
    (hg : getopt_long short_opts.data long_opts st = some (r, st')) (hc : r.c = '?')
    (h : 2 ≤ argv.length) (hp : main_parse w argv = some p) (hne : p.ret ≠ 0) :
    parse_arg_loop (fuel + 1) st long_index s = some ⟨1, s⟩ ∧
    main w argv = some ⟨0, none, p.s.CONFIG, none, some (p.s.fuse_argc, p.s.fuse_argv)⟩ := by
  constructor
  · unfold parse_arg_loop
    simp only [hg, hc, arg_switch_unrecognized]
  · rw [main_of_parse w argv p h hp]
    simp [hne, fuse_start]

/-- C4 amended, on `prog -x http://a/ /mnt`. -/
theorem C4_unrecognized_returns_one_witness :
    (getopt_long short_opts.data long_opts ⟨["-x", "http://a/", "/mnt"], []⟩
        = some (⟨'?', none, none⟩, ⟨["http://a/", "/mnt"], []⟩) ∧
      2 ≤ ["prog", "-x", "http://a/", "/mnt"].length ∧
      main_parse scenario_world ["prog", "-x", "http://a/", "/mnt"]
        = some ⟨1, ⟨Config_defaults, ["prog"], 1⟩⟩) ∧
    (parse_arg_loop (0 + 1) ⟨["-x", "http://a/", "/mnt"], []⟩ 0 ⟨Config_defaults, ["prog"], 1⟩
        = some ⟨1, ⟨Config_defaults, ["prog"], 1⟩⟩ ∧
      main scenario_world ["prog", "-x", "http://a/", "/mnt"]
        = some ⟨0, none, Config_defaults, none, some (1, ["prog"])⟩) :=
  ⟨⟨by decide, by decide, by decide⟩,
    C4_unrecognized_returns_one 0 ⟨["-x", "http://a/", "/mnt"], []⟩ ⟨["http://a/", "/mnt"], []⟩
      ⟨'?', none, none⟩ 0 ⟨Config_defaults, ["prog"], 1⟩ scenario_world
      ["prog", "-x", "http://a/", "/mnt"] ⟨1, ⟨Config_defaults, ["prog"], 1⟩⟩
      (by decide) rfl (by decide) (by decide) (by decide)⟩

/-- C5: when `parse_arg_list` has returned 0, `main` takes the second-to-last command line
token as the base URL and rejects it exactly when it starts with neither `http://` nor
`https://` (compared character by character, so case matters); a rejected URL ends the run
with a non-zero status, before any call of `LinkSystem_init` or `fuse_local_init`. -/
theorem C5_url_validation (w : World) (argv : List String) (p : ParseResult)
    (h : 2 ≤ argv.length) (hp : main_parse w argv = some p) (h0 : p.ret = 0) :
    ∃ base_url r, argv[argv.length - 2]? = some base_url ∧ main w argv = some r ∧
      (r.failure = some Failure.invalid_url ↔ ¬ valid_url base_url) ∧
      (¬ valid_url base_url → r.status ≠ 0 ∧ r.link_url = none ∧ r.fuse = none) := by
  obtain ⟨mountpoint, base_url, hmp, hu⟩ := positional_get argv h
  have hlen := main_parse_length w argv p hp
  have hm := main_of_parse w argv p h hp
  rw [main_resolve_eq w argv p.s mountpoint base_url hlen hmp hu] at hm
  simp only [h0, ne_eq, not_true_eq_false, if_false] at hm
  by_cases hv : valid_url base_url
  · simp only [hv, not_true_eq_false, if_false] at hm
    split at hm
    · split at hm <;>
        exact ⟨base_url, _, hu, hm, by simp [hv, fuse_start], fun hn => absurd hv hn⟩
    · split at hm
      · exact ⟨base_url, _, hu, hm, by simp [hv], fun hn => absurd hv hn⟩
      · split at hm <;>
          exact ⟨base_url, _, hu, hm, by simp [hv, fuse_start], fun hn => absurd hv hn⟩
  · simp only [hv, not_false_eq_true, if_true] at hm
    exact ⟨base_url, _, hu, hm, by simp [hv], fun _ => ⟨by simp [EXIT_FAILURE], rfl, rfl⟩⟩

/-- C5, on `prog HTTP://x /mnt`; the strings named in the claim are not valid URLs, and
`http://` and `https://` followed by anything are. -/
theorem C5_url_validation_witness :
    (2 ≤ ["prog", "HTTP://x", "/mnt"].length ∧
      main_parse scenario_world ["prog", "HTTP://x", "/mnt"]
        = some ⟨0, ⟨Config_defaults, ["prog"], 1⟩⟩ ∧
      (ParseResult.mk 0 ⟨Config_defaults, ["prog"], 1⟩).ret = 0) ∧
    (∃ base_url r, ["prog", "HTTP://x", "/mnt"][["prog", "HTTP://x", "/mnt"].length - 2]?
        = some base_url ∧ main scenario_world ["prog", "HTTP://x", "/mnt"] = some r ∧
      (r.failure = some Failure.invalid_url ↔ ¬ valid_url base_url) ∧
      (¬ valid_url base_url → r.status ≠ 0 ∧ r.link_url = none ∧ r.fuse = none)) ∧
    (¬ valid_url "http:/" ∧ ¬ valid_url "HTTP://x" ∧ ¬ valid_url "ftp://x" ∧ ¬ valid_url "" ∧
      valid_url "http://" ∧ valid_url "https://example.com/dir") :=
  ⟨⟨by decide, by decide, rfl⟩,
    C5_url_validation scenario_world ["prog", "HTTP://x", "/mnt"]
      ⟨0, ⟨Config_defaults, ["prog"], 1⟩⟩ (by decide) (by decide) rfl,
    by decide⟩

/-- C6: when `parse_arg_list` has returned 0 and the base URL is valid, the run ends in the
Sonic error exactly when precisely one of `sonic_username`, `sonic_password` is set, and
then the status is non-zero and `LinkSystem_init` is not called; when both are set,
`sonic_mode` becomes 1 and `LinkSystem_init` is called with the URL; when neither is set,
`sonic_mode` stays as it was and `LinkSystem_init` is called with the URL. -/
theorem C6_sonic_pairing (w : World) (argv : List String) (p : ParseResult)
    (base_url : String) (h : 2 ≤ argv.length) (hp : main_parse w argv = some p)
    (h0 : p.ret = 0) (hu : argv[argv.length - 2]? = some base_url) (hv : valid_url base_url) :
    ∃ r, main w argv = some r ∧
      (r.failure = some Failure.sonic ↔
        p.s.CONFIG.sonic_username.isSome ≠ p.s.CONFIG.sonic_password.isSome) ∧
      (p.s.CONFIG.sonic_username.isSome ≠ p.s.CONFIG.sonic_password.isSome →
        r.status ≠ 0 ∧ r.link_url = none ∧ r.fuse = none) ∧
      (p.s.CONFIG.sonic_username.isSome = true ∧ p.s.CONFIG.sonic_password.isSome = true →
        r.CONFIG = { p.s.CONFIG with sonic_mode := 1 } ∧ r.link_url = some base_url) ∧
      (p.s.CONFIG.sonic_username.isSome = false ∧ p.s.CONFIG.sonic_password.isSome = false →
        r.CONFIG = p.s.CONFIG ∧ r.link_url = some base_url) := by
  obtain ⟨mountpoint, base_url', hmp, hu'⟩ := positional_get argv h
  have hbu : base_url' = base_url := by
    rw [hu] at hu'
    exact (Option.some.inj hu').symm
  subst hbu
  have hlen := main_parse_length w argv p hp
  have hm := main_of_parse w argv p h hp
  rw [main_resolve_eq w argv p.s mountpoint base_url' hlen hmp hu] at hm
  simp only [h0, ne_eq, not_true_eq_false, if_false, hv] at hm
  cases hsu : p.s.CONFIG.sonic_username.isSome <;> cases hsp : p.s.CONFIG.sonic_password.isSome <;>
    simp only [hsu, hsp, and_self, or_self, and_true, and_false, or_false, or_true, if_true,
      if_false, Bool.false_eq_true] at hm
  · split at hm <;> exact ⟨_, hm, by simp [fuse_start]⟩
  · exact ⟨_, hm, by simp [EXIT_FAILURE]⟩
  · exact ⟨_, hm, by simp [EXIT_FAILURE]⟩
  · split at hm <;> exact ⟨_, hm, by simp [fuse_start]⟩

/-- C6, on the scenario of the claim: `prog --sonic-username bob http://a/ /mnt` ends in the
Sonic error with status 1 and no network initialisation. -/
theorem C6_sonic_pairing_witness :
    (2 ≤ sonic_argv.length ∧ main_parse scenario_world sonic_argv = some sonic_parsed ∧
      sonic_parsed.ret = 0 ∧ sonic_argv[sonic_argv.length - 2]? = some "http://a/" ∧
      valid_url "http://a/") ∧
    (∃ r, main scenario_world sonic_argv = some r ∧
      (r.failure = some Failure.sonic ↔
        sonic_parsed.s.CONFIG.sonic_username.isSome
          ≠ sonic_parsed.s.CONFIG.sonic_password.isSome) ∧
      (sonic_parsed.s.CONFIG.sonic_username.isSome
          ≠ sonic_parsed.s.CONFIG.sonic_password.isSome →
        r.status ≠ 0 ∧ r.link_url = none ∧ r.fuse = none) ∧
      (sonic_parsed.s.CONFIG.sonic_username.isSome = true ∧
          sonic_parsed.s.CONFIG.sonic_password.isSome = true →
        r.CONFIG = { sonic_parsed.s.CONFIG with sonic_mode := 1 } ∧
          r.link_url = some "http://a/") ∧
      (sonic_parsed.s.CONFIG.sonic_username.isSome = false ∧
          sonic_parsed.s.CONFIG.sonic_password.isSome = false →
        r.CONFIG = sonic_parsed.s.CONFIG ∧ r.link_url = some "http://a/")) ∧
    main scenario_world sonic_argv
      = some ⟨1, some Failure.sonic, { Config_defaults with sonic_username := some "bob" },
          none, none⟩ :=
  ⟨⟨by decide, by decide, rfl, by decide, by decide⟩,
    C6_sonic_pairing scenario_world sonic_argv sonic_parsed "http://a/"
      (by decide) (by decide) rfl (by decide) (by decide),
    by decide⟩

/-- C8: when `parse_arg_list` has returned 0, the base URL is the second-to-last and the
mountpoint the last token of the original command line; `LinkSystem_init` is never called
with anything but that base URL, and it is called with it as soon as the URL and the Sonic
credentials pass validation; the vector handed to FUSE, when one is handed, is the
pass-through vector with the mountpoint appended as its last element, and it is handed
whenever the validation passes and `LinkSystem_init` succeeds. -/
theorem C8_successful_resolution (w : World) (argv : List String) (p : ParseResult)
    (h : 2 ≤ argv.length) (hp : main_parse w argv = some p) (h0 : p.ret = 0) :
    ∃ base_url mountpoint r, argv[argv.length - 2]? = some base_url ∧
      argv[argv.length - 1]? = some mountpoint ∧ main w argv = some r ∧
      (∀ u, r.link_url = some u → u = base_url) ∧
      (∀ n v, r.fuse = some (n, v) →
        v = p.s.fuse_argv ++ [mountpoint] ∧ n = v.length ∧ v.getLast? = some mountpoint ∧
          r.link_url = some base_url ∧ r.status = 0) ∧
      (valid_url base_url →
        p.s.CONFIG.sonic_username.isSome = p.s.CONFIG.sonic_password.isSome →
        r.link_url = some base_url ∧
        (w.LinkSystem_init r.CONFIG base_url = true →
          r.fuse = some (p.s.fuse_argc + 1, p.s.fuse_argv ++ [mountpoint]))) := by
  obtain ⟨mountpoint, base_url, hmp, hu⟩ := positional_get argv h
  have hlen := main_parse_length w argv p hp
  have hm := main_of_parse w argv p h hp
  rw [main_resolve_eq w argv p.s mountpoint base_url hlen hmp hu] at hm
  simp only [h0, ne_eq, not_true_eq_false, if_false] at hm
  refine ⟨base_url, mountpoint, ?_⟩
  by_cases hv : valid_url base_url
  · simp only [hv, not_true_eq_false, if_false] at hm
    cases hsu : p.s.CONFIG.sonic_username.isSome <;>
      cases hsp : p.s.CONFIG.sonic_password.isSome <;>
      simp only [hsu, hsp, and_self, or_self, and_true, and_false, or_false, or_true, if_true,
        if_false, Bool.false_eq_true] at hm
    · by_cases hl : w.LinkSystem_init p.s.CONFIG base_url = true
      · simp only [hl, if_true] at hm
        exact ⟨_, hu, hmp, hm, by simp [fuse_start, hlen]⟩
      · simp only [hl, if_false] at hm
        exact ⟨_, hu, hmp, hm, by simp [hl]⟩
    · exact ⟨_, hu, hmp, hm, by simp⟩
    · exact ⟨_, hu, hmp, hm, by simp⟩
    · by_cases hl : w.LinkSystem_init { p.s.CONFIG with sonic_mode := 1 } base_url = true
      · simp only [hl, if_true] at hm
        exact ⟨_, hu, hmp, hm, by simp [fuse_start, hlen]⟩
      · simp only [hl, if_false] at hm
        exact ⟨_, hu, hmp, hm, by simp [hl]⟩
  · simp only [hv, not_false_eq_true, if_true] at hm
    exact ⟨_, hu, hmp, hm, by simp [hv]⟩

/-- C8, on the scenario of the claim: the cache is enabled, the segment size is 4194304,
the vector handed to FUSE is `[prog, /mnt/x]`, and `LinkSystem_init` gets
`http://example.com/dir`. -/
theorem C8_successful_resolution_witness :
    (2 ≤ cache_argv.length ∧ main_parse scenario_world cache_argv = some cache_parsed ∧
      cache_parsed.ret = 0) ∧
    (∃ base_url mountpoint r, cache_argv[cache_argv.length - 2]? = some base_url ∧
      cache_argv[cache_argv.length - 1]? = some mountpoint ∧
      main scenario_world cache_argv = some r ∧
      (∀ u, r.link_url = some u → u = base_url) ∧
      (∀ n v, r.fuse = some (n, v) →
        v = cache_parsed.s.fuse_argv ++ [mountpoint] ∧ n = v.length ∧
          v.getLast? = some mountpoint ∧ r.link_url = some base_url ∧ r.status = 0) ∧
      (valid_url base_url →
        cache_parsed.s.CONFIG.sonic_username.isSome
          = cache_parsed.s.CONFIG.sonic_password.isSome →
        r.link_url = some base_url ∧
        (scenario_world.LinkSystem_init r.CONFIG base_url = true →
          r.fuse = some (cache_parsed.s.fuse_argc + 1,
            cache_parsed.s.fuse_argv ++ [mountpoint])))) ∧
    main scenario_world cache_argv
      = some ⟨0, none, { Config_defaults with cache_enabled := 1, data_blksz := 4194304 },
          some "http://example.com/dir", some (2, ["prog", "/mnt/x"])⟩ :=
  ⟨⟨by decide, by rfl, rfl⟩,
    C8_successful_resolution scenario_world cache_argv cache_parsed (by decide) (by rfl) rfl,
    by rfl⟩

/-- C9, as stated, fails: on `prog -h /mnt` the vector handed to FUSE is `[prog, -ho]`; the
command line's last token `/mnt` is not appended. -/
theorem C9_counterexample :
    (main scenario_world ["prog", "-h", "/mnt"]).map (fun r => r.fuse)
      = some (some (2, ["prog", "-ho"])) ∧
    (main scenario_world ["prog", "-h", "/mnt"]).map (fun r => r.fuse)
      ≠ some (some (3, ["prog", "-ho", "/mnt"])) := by
  constructor <;> decide

/-- C9, amended: whenever `parse_arg_list` ends early with a non-zero return value, as it
does for `-h`/`--help` and `-V`/`--version`, the vector handed to FUSE is exactly the
pass-through vector as it stood when classification stopped; no mountpoint is appended. -/
theorem C9_early_termination_vector (w : World) (argv : List String) (p : ParseResult)
    (h : 2 ≤ argv.length) (hp : main_parse w argv = some p) (hne : p.ret ≠ 0) :
    ∃ r, main w argv = some r ∧ r.fuse = some (p.s.fuse_argc, p.s.fuse_argv) ∧
      p.s.fuse_argc = p.s.fuse_argv.length := by
  rw [main_of_parse w argv p h hp]
  simp only [hne, ne_eq, not_false_eq_true, if_true]
  exact ⟨_, rfl, rfl, (main_parse_length w argv p hp).symm⟩

/-- C9 amended, on `prog -f -V /mnt`. -/
theorem C9_early_termination_vector_witness :
    (2 ≤ ["prog", "-f", "-V", "/mnt"].length ∧
      main_parse scenario_world ["prog", "-f", "-V", "/mnt"]
        = some ⟨1, ⟨Config_defaults, ["prog", "-f", "-V"], 3⟩⟩ ∧
      (ParseResult.mk 1 ⟨Config_defaults, ["prog", "-f", "-V"], 3⟩).ret ≠ 0) ∧
    ∃ r, main scenario_world ["prog", "-f", "-V", "/mnt"] = some r ∧
      r.fuse = some (3, ["prog", "-f", "-V"]) ∧ 3 = ["prog", "-f", "-V"].length :=
  ⟨⟨by decide, by decide, by decide⟩,
    C9_early_termination_vector scenario_world ["prog", "-f", "-V", "/mnt"]
      ⟨1, ⟨Config_defaults, ["prog", "-f", "-V"], 3⟩⟩ (by decide) (by decide) (by decide)⟩

/-- C10: when `getopt_long` returns `'h'` (for `-h` or `--help`) or `'V'` (for `-V` or
`--version`), `parse_arg_list` appends the single marker `-ho`, respectively `-V`, to the
pass-through vector and returns 1 at once: the result does not depend on what is left of
the vector, and the settings are unchanged.  After a non-zero return `main` calls neither
the URL or Sonic validation nor `LinkSystem_init`, and hands the vector to FUSE. -/
theorem C10_help_version_stop (fuel : Nat) (st st' : GetoptState) (r : GetoptRet)
    (long_index : Nat) (s : ParseState) (w : World) (argv : List String) (p : ParseResult)
    (hg : getopt_long short_opts.data long_opts st = some (r, st'))
    (hc : r.c = 'h' ∨ r.c = 'V') (hl : s.fuse_argv.length = s.fuse_argc)
    (h : 2 ≤ argv.length) (hp : main_parse w argv = some p) (hne : p.ret ≠ 0) :
    parse_arg_loop (fuel + 1) st long_index s
      = some ⟨1, ⟨s.CONFIG, s.fuse_argv ++ [if r.c = 'h' then "-ho" else "-V"],
          s.fuse_argc + 1⟩⟩ ∧
    ∃ m, main w argv = some m ∧ m.failure = none ∧ m.link_url = none ∧
      m.CONFIG = p.s.CONFIG ∧ m.fuse = some (p.s.fuse_argc, p.s.fuse_argv) := by
  constructor
  · unfold parse_arg_loop
    rcases hc with hc | hc
    · simp [hg, hc, arg_switch, ParseState.add_eq s _ hl]
    · simp [hg, hc, arg_switch, ParseState.add_eq s _ hl]
  · rw [main_of_parse w argv p h hp]
    simp only [hne, ne_eq, not_false_eq_true, if_true]
    exact ⟨_, rfl, rfl, rfl, rfl, rfl⟩

/-- C10, on `prog -f --help -u x -d /mnt`: the options after `--help` change nothing. -/
theorem C10_help_version_stop_witness :
    (getopt_long short_opts.data long_opts ⟨["--help", "-u", "x", "-d", "/mnt"], []⟩
        = some (⟨'h', none, some 0⟩, ⟨["-u", "x", "-d", "/mnt"], []⟩) ∧
      ((GetoptRet.mk 'h' none (some 0)).c = 'h' ∨ (GetoptRet.mk 'h' none (some 0)).c = 'V') ∧
      (ParseState.mk Config_defaults ["prog", "-f"] 2).fuse_argv.length
        = (ParseState.mk Config_defaults ["prog", "-f"] 2).fuse_argc ∧
      2 ≤ ["prog", "-f", "--help", "-u", "x", "-d", "/mnt"].length ∧
      main_parse scenario_world ["prog", "-f", "--help", "-u", "x", "-d", "/mnt"]
        = some ⟨1, ⟨Config_defaults, ["prog", "-f", "-ho"], 3⟩⟩ ∧
      (ParseResult.mk 1 ⟨Config_defaults, ["prog", "-f", "-ho"], 3⟩).ret ≠ 0) ∧
    (parse_arg_loop (0 + 1) ⟨["--help", "-u", "x", "-d", "/mnt"], []⟩ 0
        ⟨Config_defaults, ["prog", "-f"], 2⟩
      = some ⟨1, ⟨Config_defaults,
          ["prog", "-f"] ++ [if (GetoptRet.mk 'h' none (some 0)).c = 'h' then "-ho" else "-V"],
          2 + 1⟩⟩ ∧
    ∃ m, main scenario_world ["prog", "-f", "--help", "-u", "x", "-d", "/mnt"] = some m ∧
      m.failure = none ∧ m.link_url = none ∧ m.CONFIG = Config_defaults ∧
      m.fuse = some (3, ["prog", "-f", "-ho"])) :=
  ⟨⟨by decide, by decide, by decide, by decide, by decide, by decide⟩,
    C10_help_version_stop 0 ⟨["--help", "-u", "x", "-d", "/mnt"], []⟩
      ⟨["-u", "x", "-d", "/mnt"], []⟩ ⟨'h', none, some 0⟩ 0 ⟨Config_defaults, ["prog", "-f"], 2⟩
      scenario_world ["prog", "-f", "--help", "-u", "x", "-d", "/mnt"]
      ⟨1, ⟨Config_defaults, ["prog", "-f", "-ho"], 3⟩⟩
      (by decide) (by decide) (by decide) (by decide) (by decide) (by decide)⟩

/-! ## Decimal numerals and `atoi` -/

theorem digitChar_isDigit (k : Nat) (hk : k < 10) :
    (Nat.digitChar k).isDigit = true ∧ (Nat.digitChar k).toNat - '0'.toNat = k ∧
    isspace (Nat.digitChar k) = false ∧ Nat.digitChar k ≠ '-' ∧ Nat.digitChar k ≠ '+' := by
  interval_cases k <;> decide

theorem toDigitsCore_spec :
    ∀ (fuel n : Nat) (ds : List Char), n < fuel →
      ∃ pre, Nat.toDigitsCore 10 fuel n ds = pre ++ ds ∧
        (∃ k, k < 10 ∧ pre.head? = some (Nat.digitChar k)) ∧
        ∀ acc tail, strtol_digits acc (pre ++ tail)
          = strtol_digits (acc * 10 ^ pre.length + n) tail := by
  intro fuel
  induction fuel with
  | zero => intro n ds h; omega
  | succ f ih =>
    intro n ds h
    have hd := digitChar_isDigit (n % 10) (Nat.mod_lt _ (by decide))
    unfold Nat.toDigitsCore
    by_cases hz : n / 10 = 0
    · simp only [hz, if_true]
      refine ⟨[Nat.digitChar (n % 10)], rfl, ⟨n % 10, Nat.mod_lt _ (by decide), rfl⟩, ?_⟩
      intro acc tail
      have hn : n % 10 = n := Nat.mod_eq_of_lt (by omega)
      simp only [List.singleton_append, strtol_digits, hd.1, if_true, hd.2.1, List.length_singleton,
        pow_one]
      rw [hn]
      rfl
    · simp only [hz, if_false]
      obtain ⟨pre, hpre, hhead, hval⟩ := ih (n / 10) (Nat.digitChar (n % 10) :: ds) (by omega)
      refine ⟨pre ++ [Nat.digitChar (n % 10)], by simp [hpre], ?_, ?_⟩
      · obtain ⟨k, hk, hh⟩ := hhead
        refine ⟨k, hk, ?_⟩
        cases pre with
        | nil => simp at hh
        | cons x xs => simpa using hh
      · intro acc tail
        rw [List.append_assoc, hval]
        simp only [List.singleton_append, strtol_digits, hd.1, if_true, hd.2.1,
          List.length_append, List.length_singleton, pow_succ]
        congr 1
        have := Nat.div_add_mod n 10
        nlinarith [Nat.div_add_mod n 10]

/-- On the decimal numeral of `n`, `strtol` reads `n` back (within the range of `long`). -/
theorem strtol_repr (n : Nat) (hn : n < 2 ^ 63) : strtol (Nat.repr n).data = (n : Int) := by
  obtain ⟨pre, hpre, ⟨k, hk, hhead⟩, hval⟩ := toDigitsCore_spec (n + 1) n [] (Nat.lt_succ_self _)
  have hdata : (Nat.repr n).data = pre := by
    simp [Nat.repr, Nat.toDigits, hpre, List.asString]
  have hd := digitChar_isDigit k hk
  rw [hdata]
  cases pre with
  | nil => simp at hhead
  | cons x xs =>
    simp only [List.head?_cons, Option.some.injEq] at hhead
    subst hhead
    have hv := hval 0 []
    simp only [List.append_nil, Nat.zero_mul, Nat.zero_add] at hv
    have hdrop : List.dropWhile isspace (Nat.digitChar k :: xs) = Nat.digitChar k :: xs := by
      simp [List.dropWhile, hd.2.2.1]
    have hc : to_long_clamped (n : Int) = n := by
      unfold to_long_clamped
      have h1 : ¬ ((n : Int) < -(2 ^ 63)) := by omega
      have h2 : ¬ ((2 : Int) ^ 63 - 1 < n) := by
        have : (n : Int) < 2 ^ 63 := by exact_mod_cast hn
        omega
      simp only [h1, h2, if_false]
    simp only [strtol, hdrop, List.head?_cons, Option.some.injEq, hd.2.2.2.1, hd.2.2.2.2,
      if_false, hv, strtol_digits, hc]

/-- On `-` followed by the decimal numeral of `n`, `strtol` reads `-n`. -/
theorem strtol_neg_repr (n : Nat) (hn : n ≤ 2 ^ 63) :
    strtol ("-" ++ Nat.repr n).data = -(n : Int) := by
  obtain ⟨pre, hpre, _, hval⟩ := toDigitsCore_spec (n + 1) n [] (Nat.lt_succ_self _)
  have hdata : ("-" ++ Nat.repr n).data = '-' :: pre := by
    simp [Nat.repr, Nat.toDigits, hpre, List.asString]
  have hv := hval 0 []
  simp only [List.append_nil, Nat.zero_mul, Nat.zero_add] at hv
  have hdrop : List.dropWhile isspace ('-' :: pre) = '-' :: pre := by
    simp [List.dropWhile, show isspace '-' = false by decide]
  have hc : to_long_clamped (-(n : Int)) = -(n : Int) := by
    unfold to_long_clamped
    have h1 : ¬ (-(n : Int) < -(2 ^ 63)) := by
      have : (n : Int) ≤ 2 ^ 63 := by exact_mod_cast hn
      omega
    have h2 : ¬ ((2 : Int) ^ 63 - 1 < -(n : Int)) := by omega
    simp only [h1, h2, if_false]
  simp only [strtol, hdata, hdrop, List.head?_cons, if_true, List.tail_cons, hv, hc,
    strtol_digits]

theorem to_int_of_range (x : Int) (hlo : -(2 ^ 31) ≤ x) (hhi : x < 2 ^ 31) : to_int x = x := by
  unfold to_int
  have h : (x + 2 ^ 31) % 2 ^ 32 = x + 2 ^ 31 := Int.emod_eq_of_lt (by omega) (by omega)
  rw [h]
  omega

/-- The value stored for a segment size argument that reads as `n`, when the product fits
an `int`. -/
theorem seg_size_value (a : String) (n : Int) (ha : strtol a.data = n)
    (hlo : -2048 ≤ n) (hhi : n < 2048) :
    int_mul (int_mul (atoi a) 1024) 1024 = n * 1048576 := by
  unfold int_mul atoi
  rw [ha, to_int_of_range n (by omega) (by omega),
    to_int_of_range (n * 1024) (by omega) (by omega),
    to_int_of_range (n * 1024 * 1024) (by omega) (by omega)]
  ring

theorem toString_int_strtol (n : Int) (hlo : -2048 ≤ n) (hhi : n < 2048) :
    strtol (toString n).data = n := by
  cases n with
  | ofNat m =>
    have hm : m < 2 ^ 63 := by
      have : (m : Int) < 2048 := hhi
      omega
    exact strtol_repr m hm
  | negSucc m =>
    have hlo' : -2048 ≤ -((m : Int) + 1) := by
      rw [← Int.negSucc_eq]; exact hlo
    have hm : m + 1 ≤ 2 ^ 63 := by omega
    have := strtol_neg_repr (m + 1) hm
    rw [Int.negSucc_eq]
    exact_mod_cast this

theorem getopt_dl_seg_size (v : String) (rest : List String) :
    getopt_long short_opts.data long_opts ⟨"--dl-seg-size" :: v :: rest, []⟩
      = some (⟨'L', some v, some 9⟩, ⟨rest, []⟩) := rfl

/-- C7, as stated, fails for `n = 2048`: the product is computed in `int` arithmetic and
the stored value is not `2048 × 1048576`. -/
theorem C7_counterexample :
    (parse_arg_list 3 ["prog", "--dl-seg-size", "2048"] Config_defaults ["prog"] 1).map
        (fun r => r.s.CONFIG.data_blksz) = some (-2147483648) ∧
    (-2147483648 : Int) ≠ 2048 * 1048576 := by
  constructor
  · rfl
  · decide

/-- C7, amended: for every integer `n` with `-2048 ≤ n < 2048`, so that `n × 1048576` fits
a 32-bit `int`, `--dl-seg-size` followed by the decimal numeral of `n` stores
`n × 1048576` in `data_blksz` and changes nothing else. -/
theorem C7_segment_size (n : Int) (hlo : -2048 ≤ n) (hhi : n < 2048) (argv0 : String)
    (CONFIG : ConfigStruct) (fuse_argv : List String) (fuse_argc : Nat) :
    parse_arg_list 3 [argv0, "--dl-seg-size", toString n] CONFIG fuse_argv fuse_argc
      = some ⟨0, ⟨{ CONFIG with data_blksz := n * 1048576 }, fuse_argv, fuse_argc⟩⟩ := by
  have hv := seg_size_value (toString n) n (toString_int_strtol n hlo hhi) hlo hhi
  have hf : (GetoptState.mk (([argv0, "--dl-seg-size", toString n].take 3).drop 1) []).size + 1
      = ((toString n).data.length + 14) + 1 + 1 := by
    simp only [GetoptState.size, List.take, List.drop, List.map_cons, List.map_nil,
      List.sum_cons, List.sum_nil, List.length_nil, List.length_cons]
    omega
  unfold parse_arg_list
  rw [hf]
  have e1 : (([argv0, "--dl-seg-size", toString n].take 3).drop 1)
      = ["--dl-seg-size", toString n] := rfl
  rw [e1]
  unfold parse_arg_loop
  rw [getopt_dl_seg_size]
  simp only [Option.getD_some]
  have e2 : arg_switch 'L' 9 (some (toString n)) ⟨CONFIG, fuse_argv, fuse_argc⟩
      = some (.break_ ⟨{ CONFIG with
          data_blksz := (int_mul (int_mul (atoi (toString n)) 1024) 1024) },
          fuse_argv, fuse_argc⟩) := rfl
  rw [e2, hv]
  rfl

/-- C7 amended, on the claim's `n = 4` and on the ends of the range. -/
theorem C7_segment_size_witness :
    ((-2048 : Int) ≤ 4 ∧ (4 : Int) < 2048) ∧
    parse_arg_list 3 ["prog", "--dl-seg-size", toString (4 : Int)] Config_defaults ["prog"] 1
      = some ⟨0, ⟨{ Config_defaults with data_blksz := 4 * 1048576 }, ["prog"], 1⟩⟩ :=
  ⟨by decide, C7_segment_size 4 (by decide) (by decide) "prog" Config_defaults ["prog"] 1⟩

/-! ## What one pass through the `switch` does to the settings -/

theorem long_switch_break (long_index : Nat) (optarg : Option String) (s s' : ParseState)
    (h : long_switch long_index optarg s = some (.break_ s')) :
    (long_index = 8 ∧ s' = { s with CONFIG := { s.CONFIG with cache_enabled := 1 } }) ∨
    ∃ a, optarg = some a ∧
      ((long_index = 6 ∧ s' = { s with CONFIG := { s.CONFIG with proxy_username := some a } }) ∨
       (long_index = 7 ∧ s' = { s with CONFIG := { s.CONFIG with proxy_password := some a } }) ∨
       (long_index = 9 ∧ s' = { s with CONFIG := { s.CONFIG with
          data_blksz := (int_mul (int_mul (atoi a) 1024) 1024) } }) ∨
       (long_index = 10 ∧ s' = { s with CONFIG := { s.CONFIG with max_segbc := atoi a } }) ∨
       (long_index = 11 ∧ s' = { s with CONFIG := { s.CONFIG with max_conns := atoi a } }) ∨
       (long_index = 12 ∧ s' = { s with CONFIG := { s.CONFIG with user_agent := some a } }) ∨
       (long_index = 13 ∧ s' = { s with CONFIG := { s.CONFIG with http_wait_sec := atoi a } }) ∨
       (long_index = 14 ∧ s' = { s with CONFIG := { s.CONFIG with cache_dir := some a } }) ∨
       (long_index = 15 ∧ s' = { s with CONFIG := { s.CONFIG with sonic_username := some a } }) ∨
       (long_index = 16 ∧
          s' = { s with CONFIG := { s.CONFIG with sonic_password := some a } })) := by
  by_cases hbig : 17 ≤ long_index
  · obtain ⟨k, rfl⟩ : ∃ k, long_index = k + 17 := ⟨long_index - 17, by omega⟩
    rw [long_switch_default] at h
    simp at h
  · cases optarg with
    | none => interval_cases long_index <;> simp [long_switch] at h; simp [h]
    | some a =>
      interval_cases long_index <;> simp [long_switch, strdup] at h <;> simp [h]

theorem arg_switch_return (c : Char) (long_index : Nat) (optarg : Option String)
    (s s' : ParseState) (ret : Nat) (h : arg_switch c long_index optarg s = some (.return_ ret s')) :
    ret = 1 := by
  unfold arg_switch at h
  by_cases c1 : c = 'o'
  · subst c1; cases optarg <;> simp at h
  by_cases c2 : c = 'h'
  · subst c2; simp at h; exact h.1.symm
  by_cases c3 : c = 'V'
  · subst c3; simp at h; exact h.1.symm
  by_cases c4 : c = 'd'
  · subst c4; simp at h
  by_cases c5 : c = 'f'
  · subst c5; simp at h
  by_cases c6 : c = 's'
  · subst c6; simp at h
  by_cases c7 : c = 'u'
  · subst c7; cases optarg <;> simp at h
  by_cases c8 : c = 'p'
  · subst c8; cases optarg <;> simp at h
  by_cases c9 : c = 'P'
  · subst c9; cases optarg <;> simp at h
  by_cases c10 : c = 'L'
  · subst c10
    simp at h
    by_cases hbig : 17 ≤ long_index
    · obtain ⟨k, rfl⟩ : ∃ k, long_index = k + 17 := ⟨long_index - 17, by omega⟩
      rw [long_switch_default] at h
      simp at h
      exact h.1.symm
    · cases optarg with
      | none => interval_cases long_index <;> simp [long_switch] at h <;> exact h.1.symm
      | some a => interval_cases long_index <;> simp [long_switch] at h <;> exact h.1.symm
  · simp only [c1, c2, c3, c4, c5, c6, c7, c8, c9, c10, if_false, Option.some.injEq,
      Flow.return_.injEq] at h
    exact h.1.symm

/-- The effect on the settings of a pass through the `switch` that ends in `break`, for an
option that `getopt_long` returned. -/
theorem arg_switch_break (st st' : GetoptState) (r : GetoptRet) (long_index : Nat)
    (s s' : ParseState) (hg : getopt_long short_opts.data long_opts st = some (r, st'))
    (h : arg_switch r.c (r.longindex.getD long_index) r.optarg s = some (.break_ s')) :
    ((r.c = 'o' ∨ r.c = 'd' ∨ r.c = 'f' ∨ r.c = 's') ∧ s'.CONFIG = s.CONFIG) ∨
    (r.c = 'L' ∧ r.longindex = some 8 ∧ s'.CONFIG = { s.CONFIG with cache_enabled := 1 }) ∨
    ∃ a, r.optarg = some a ∧
      ((r.c = 'u' ∧ s'.CONFIG = { s.CONFIG with http_username := some a }) ∨
       (r.c = 'p' ∧ s'.CONFIG = { s.CONFIG with http_password := some a }) ∨
       (r.c = 'P' ∧ s'.CONFIG = { s.CONFIG with proxy := some a }) ∨
       (r.c = 'L' ∧ r.longindex = some 6
          ∧ s'.CONFIG = { s.CONFIG with proxy_username := some a }) ∨
       (r.c = 'L' ∧ r.longindex = some 7
          ∧ s'.CONFIG = { s.CONFIG with proxy_password := some a }) ∨
       (r.c = 'L' ∧ r.longindex = some 9 ∧ s'.CONFIG = { s.CONFIG with
          data_blksz := (int_mul (int_mul (atoi a) 1024) 1024) }) ∨
       (r.c = 'L' ∧ r.longindex = some 10 ∧ s'.CONFIG = { s.CONFIG with max_segbc := atoi a }) ∨
       (r.c = 'L' ∧ r.longindex = some 11 ∧ s'.CONFIG = { s.CONFIG with max_conns := atoi a }) ∨
       (r.c = 'L' ∧ r.longindex = some 12 ∧ s'.CONFIG = { s.CONFIG with user_agent := some a }) ∨
       (r.c = 'L' ∧ r.longindex = some 13
          ∧ s'.CONFIG = { s.CONFIG with http_wait_sec := atoi a }) ∨
       (r.c = 'L' ∧ r.longindex = some 14 ∧ s'.CONFIG = { s.CONFIG with cache_dir := some a }) ∨
       (r.c = 'L' ∧ r.longindex = some 15
          ∧ s'.CONFIG = { s.CONFIG with sonic_username := some a }) ∨
       (r.c = 'L' ∧ r.longindex = some 16
          ∧ s'.CONFIG = { s.CONFIG with sonic_password := some a })) := by
  obtain ⟨_, hL⟩ := getopt_long_wf st st' r hg
  unfold arg_switch at h
  by_cases c1 : r.c = 'o'
  · left
    rw [c1] at h
    cases ho : r.optarg with
    | none => simp [ho] at h
    | some a =>
      simp only [ho, if_true, Option.map_some', Option.some.injEq, Flow.break_.injEq] at h
      exact ⟨Or.inl c1, by rw [← h]; rfl⟩
  by_cases c2 : r.c = 'h'
  · rw [c2] at h; simp at h
  by_cases c3 : r.c = 'V'
  · rw [c3] at h; simp at h
  by_cases c4 : r.c = 'd'
  · left
    rw [c4] at h; simp at h
    exact ⟨by tauto, by rw [← h]; rfl⟩
  by_cases c5 : r.c = 'f'
  · left
    rw [c5] at h; simp at h
    exact ⟨by tauto, by rw [← h]; rfl⟩
  by_cases c6 : r.c = 's'
  · left
    rw [c6] at h; simp at h
    exact ⟨by tauto, by rw [← h]; rfl⟩
  by_cases c7 : r.c = 'u'
  · right; right
    rw [c7] at h
    cases ho : r.optarg with
    | none => simp [ho] at h
    | some a =>
      simp [ho, strdup] at h
      exact ⟨a, rfl, Or.inl ⟨c7, by rw [← h]⟩⟩
  by_cases c8 : r.c = 'p'
  · right; right
    rw [c8] at h
    cases ho : r.optarg with
    | none => simp [ho] at h
    | some a =>
      simp [ho, strdup] at h
      exact ⟨a, rfl, Or.inr (Or.inl ⟨c8, by rw [← h]⟩)⟩
  by_cases c9 : r.c = 'P'
  · right; right
    rw [c9] at h
    cases ho : r.optarg with
    | none => simp [ho] at h
    | some a =>
      simp [ho, strdup] at h
      exact ⟨a, rfl, Or.inr (Or.inr (Or.inl ⟨c9, by rw [← h]⟩))⟩
  by_cases c10 : r.c = 'L'
  · obtain ⟨i, hi, _, _, _⟩ := hL c10
    rw [c10, hi] at h
    simp only [Option.getD_some] at h
    simp only [show ¬ 'L' = 'o' by decide, show ¬ 'L' = 'h' by decide,
      show ¬ 'L' = 'V' by decide, show ¬ 'L' = 'd' by decide, show ¬ 'L' = 'f' by decide,
      show ¬ 'L' = 's' by decide, show ¬ 'L' = 'u' by decide, show ¬ 'L' = 'p' by decide,
      show ¬ 'L' = 'P' by decide, if_false, if_true] at h
    rcases long_switch_break i r.optarg s s' h with ⟨h8, hs⟩ | ⟨a, ha, hrest⟩
    · right; left
      exact ⟨c10, by rw [hi, h8], by rw [hs]⟩
    · right; right
      refine ⟨a, ha, ?_⟩
      rcases hrest with ⟨e, hs⟩ | ⟨e, hs⟩ | ⟨e, hs⟩ | ⟨e, hs⟩ | ⟨e, hs⟩ | ⟨e, hs⟩ | ⟨e, hs⟩ |
        ⟨e, hs⟩ | ⟨e, hs⟩ | ⟨e, hs⟩ <;> subst e <;> subst hs <;> simp [c10, hi]
  · simp only [c1, c2, c3, c4, c5, c6, c7, c8, c9, c10, if_false, Option.some.injEq] at h
    simp at h

/-! ## Last occurrence wins -/

theorem getopt_results_mem :
    ∀ (fuel : Nat) (st : GetoptState) (r : GetoptRet), r ∈ getopt_results fuel st →
      ∃ st1 st2, getopt_long short_opts.data long_opts st1 = some (r, st2) := by
  intro fuel
  induction fuel with
  | zero => intro st r h; simp [getopt_results] at h
  | succ k ih =>
    intro st r h
    unfold getopt_results at h
    cases hg : getopt_long short_opts.data long_opts st with
    | none => simp [hg] at h
    | some p =>
      obtain ⟨r', st'⟩ := p
      simp only [hg, List.mem_cons] at h
      rcases h with h | h
      · exact ⟨st, st', by rw [h, hg]⟩
      · exact ih st' r h

theorem getLast?_filter_cons {β : Type} (sel : β → Bool) (x : β) (xs : List β) :
    ((x :: xs).filter sel).getLast?
      = match (xs.filter sel).getLast? with
        | some y => some y
        | none => if sel x then some x else none := by
  by_cases hx : sel x = true
  · simp only [List.filter_cons, hx, if_true]
    cases hf : xs.filter sel with
    | nil => rfl
    | cons y ys =>
      rw [List.getLast?_cons_cons]
      cases hl : (y :: ys).getLast? with
      | none => simp at hl
      | some z => rfl
  · have hx' : sel x = false := by simpa using hx
    simp only [List.filter_cons, hx', Bool.false_eq_true, if_false]
    cases hf : (xs.filter sel).getLast? with
    | none => rfl
    | some z => rfl

/-- The settings after the loop, read through `get`, are what the last selected occurrence
wrote, when every pass through the `switch` either writes `upd r` (selected occurrence) or
leaves the value alone. -/
theorem parse_arg_loop_last {α : Type} (get : ConfigStruct → α) (sel : GetoptRet → Bool)
    (upd : GetoptRet → α)
    (hw : ∀ (st st' : GetoptState) (r : GetoptRet) (long_index : Nat) (s s' : ParseState),
      getopt_long short_opts.data long_opts st = some (r, st') →
      arg_switch r.c (r.longindex.getD long_index) r.optarg s = some (.break_ s') →
      get s'.CONFIG = if sel r then upd r else get s.CONFIG) :
    ∀ (fuel : Nat) (st : GetoptState) (long_index : Nat) (s : ParseState) (res : ParseResult),
      parse_arg_loop fuel st long_index s = some res → res.ret = 0 →
      get res.s.CONFIG = match ((getopt_results fuel st).filter sel).getLast? with
        | some r => upd r
        | none => get s.CONFIG := by
  intro fuel
  induction fuel with
  | zero => intro st li s res h; simp [parse_arg_loop] at h
  | succ k ih =>
    intro st li s res h h0
    unfold parse_arg_loop at h
    unfold getopt_results
    cases hg : getopt_long short_opts.data long_opts st with
    | none =>
      simp only [hg, Option.some.injEq] at h
      subst h
      simp
    | some p =>
      obtain ⟨r, st'⟩ := p
      simp only [hg] at h
      cases hs : arg_switch r.c (r.longindex.getD li) r.optarg s with
      | none => simp [hs] at h
      | some fl =>
        simp only [hs] at h
        cases fl with
        | return_ ret s' =>
          simp only [Option.some.injEq] at h
          have := arg_switch_return _ _ _ _ _ _ hs
          subst h
          simp only at h0
          omega
        | break_ s' =>
          have hi := ih st' _ s' res h h0
          have hstep := hw st st' r li s s' hg hs
          simp only [getLast?_filter_cons]
          rw [hi]
          cases hl : ((getopt_results k st').filter sel).getLast? with
          | some y => rfl
          | none =>
            simp only
            by_cases hsel : sel r = true
            · simp [hsel, hstep]
            · simp [hsel, hstep]

theorem parse_arg_list_last {α : Type} (get : ConfigStruct → α) (sel : GetoptRet → Bool)
    (val : String → α)
    (hw : ∀ (st st' : GetoptState) (r : GetoptRet) (long_index : Nat) (s s' : ParseState),
      getopt_long short_opts.data long_opts st = some (r, st') →
      arg_switch r.c (r.longindex.getD long_index) r.optarg s = some (.break_ s') →
      (sel r = true → ∃ a, r.optarg = some a ∧ get s'.CONFIG = val a) ∧
      (sel r = false → get s'.CONFIG = get s.CONFIG))
    (argc : Nat) (argv : List String) (CONFIG : ConfigStruct) (fuse_argv : List String)
    (fuse_argc : Nat) (res : ParseResult)
    (h : parse_arg_list argc argv CONFIG fuse_argv fuse_argc = some res) (h0 : res.ret = 0) :
    get res.s.CONFIG = last_value sel val (get CONFIG) (occurrences argc argv) := by
  have key := parse_arg_loop_last get sel
    (fun r => match r.optarg with
      | some a => val a
      | none => get CONFIG)
    (by
      intro st st' r li s s' hg hs
      obtain ⟨h1, h2⟩ := hw st st' r li s s' hg hs
      cases hsel : sel r with
      | true =>
        obtain ⟨a, ha, hv⟩ := h1 hsel
        simp [ha, hv]
      | false => simp [h2 hsel])
    _ _ _ _ res h h0
  rw [key]
  unfold last_value occurrences
  cases hl : (List.filter sel (getopt_results
      ((GetoptState.mk ((argv.take argc).drop 1) []).size + 1)
      ⟨(argv.take argc).drop 1, []⟩)).getLast? with
  | none => rfl
  | some r =>
    obtain ⟨c, oa, li⟩ := r
    cases oa <;> rfl

/-- Every pass through the `switch` that ends in `break` writes the argument into the field
of the option it was called for, and leaves the other fields alone. -/
theorem switch_writes (st st' : GetoptState) (r : GetoptRet) (long_index : Nat)
    (s s' : ParseState) (hg : getopt_long short_opts.data long_opts st = some (r, st'))
    (hs : arg_switch r.c (r.longindex.getD long_index) r.optarg s = some (.break_ s')) :
    (((is_opt 'u') r = true → ∃ a, r.optarg = some a ∧ s'.CONFIG.http_username = (some) a) ∧
      ((is_opt 'u') r = false → s'.CONFIG.http_username = s.CONFIG.http_username)) ∧
    (((is_opt 'p') r = true → ∃ a, r.optarg = some a ∧ s'.CONFIG.http_password = (some) a) ∧
      ((is_opt 'p') r = false → s'.CONFIG.http_password = s.CONFIG.http_password)) ∧
    (((is_opt 'P') r = true → ∃ a, r.optarg = some a ∧ s'.CONFIG.proxy = (some) a) ∧
      ((is_opt 'P') r = false → s'.CONFIG.proxy = s.CONFIG.proxy)) ∧
    (((is_long 6) r = true → ∃ a, r.optarg = some a ∧ s'.CONFIG.proxy_username = (some) a) ∧
      ((is_long 6) r = false → s'.CONFIG.proxy_username = s.CONFIG.proxy_username)) ∧
    (((is_long 7) r = true → ∃ a, r.optarg = some a ∧ s'.CONFIG.proxy_password = (some) a) ∧
      ((is_long 7) r = false → s'.CONFIG.proxy_password = s.CONFIG.proxy_password)) ∧
    (((is_long 9) r = true → ∃ a, r.optarg = some a ∧ s'.CONFIG.data_blksz = ((fun a => int_mul (int_mul (atoi a) 1024) 1024)) a) ∧
      ((is_long 9) r = false → s'.CONFIG.data_blksz = s.CONFIG.data_blksz)) ∧
    (((is_long 10) r = true → ∃ a, r.optarg = some a ∧ s'.CONFIG.max_segbc = (atoi) a) ∧
      ((is_long 10) r = false → s'.CONFIG.max_segbc = s.CONFIG.max_segbc)) ∧
    (((is_long 11) r = true → ∃ a, r.optarg = some a ∧ s'.CONFIG.max_conns = (atoi) a) ∧
      ((is_long 11) r = false → s'.CONFIG.max_conns = s.CONFIG.max_conns)) ∧
    (((is_long 12) r = true → ∃ a, r.optarg = some a ∧ s'.CONFIG.user_agent = (some) a) ∧
      ((is_long 12) r = false → s'.CONFIG.user_agent = s.CONFIG.user_agent)) ∧
    (((is_long 13) r = true → ∃ a, r.optarg = some a ∧ s'.CONFIG.http_wait_sec = (atoi) a) ∧
      ((is_long 13) r = false → s'.CONFIG.http_wait_sec = s.CONFIG.http_wait_sec)) ∧
    (((is_long 14) r = true → ∃ a, r.optarg = some a ∧ s'.CONFIG.cache_dir = (some) a) ∧
      ((is_long 14) r = false → s'.CONFIG.cache_dir = s.CONFIG.cache_dir)) ∧
    (((is_long 15) r = true → ∃ a, r.optarg = some a ∧ s'.CONFIG.sonic_username = (some) a) ∧
      ((is_long 15) r = false → s'.CONFIG.sonic_username = s.CONFIG.sonic_username)) ∧
    (((is_long 16) r = true → ∃ a, r.optarg = some a ∧ s'.CONFIG.sonic_password = (some) a) ∧
      ((is_long 16) r = false → s'.CONFIG.sonic_password = s.CONFIG.sonic_password)) ∧
    (s'.CONFIG.cache_enabled = if is_long 8 r then 1 else s.CONFIG.cache_enabled) := by
  rcases arg_switch_break st st' r long_index s s' hg hs with
    ⟨hc, he⟩ | ⟨hc, hi, he⟩ | ⟨a, ha, hrest⟩
  · rcases hc with hc | hc | hc | hc <;> simp [is_opt, is_long, hc, he]
  · simp [is_opt, is_long, hc, hi, he]
  · rcases hrest with ⟨hc, he⟩ | ⟨hc, he⟩ | ⟨hc, he⟩ | hlong
    · simp [is_opt, is_long, hc, he, ha]
    · simp [is_opt, is_long, hc, he, ha]
    · simp [is_opt, is_long, hc, he, ha]
    · rcases hlong with ⟨hc, hi, he⟩ | ⟨hc, hi, he⟩ | ⟨hc, hi, he⟩ | ⟨hc, hi, he⟩ |
        ⟨hc, hi, he⟩ | ⟨hc, hi, he⟩ | ⟨hc, hi, he⟩ | ⟨hc, hi, he⟩ | ⟨hc, hi, he⟩ |
        ⟨hc, hi, he⟩ <;> simp [is_opt, is_long, hc, hi, he, ha]

theorem cache_enabled_last (argc : Nat) (argv : List String) (CONFIG : ConfigStruct)
    (fuse_argv : List String) (fuse_argc : Nat) (res : ParseResult)
    (h : parse_arg_list argc argv CONFIG fuse_argv fuse_argc = some res) (h0 : res.ret = 0) :
    res.s.CONFIG.cache_enabled
      = if (occurrences argc argv).any (is_long 8) then 1 else CONFIG.cache_enabled := by
  have key := parse_arg_loop_last (fun c => c.cache_enabled) (is_long 8) (fun _ => 1)
    (fun st st' r li s s' hg hs => by
      have := (switch_writes st st' r li s s' hg hs).2.2.2.2.2.2.2.2.2.2.2.2.2
      simpa using this)
    _ _ _ _ res h h0
  dsimp only at key
  rw [key]
  unfold occurrences
  cases hl : List.filter (is_long 8) (getopt_results
      ((GetoptState.mk ((argv.take argc).drop 1) []).size + 1)
      ⟨(argv.take argc).drop 1, []⟩) with
  | nil =>
    have hany : (getopt_results ((GetoptState.mk ((argv.take argc).drop 1) []).size + 1)
        ⟨(argv.take argc).drop 1, []⟩).any (is_long 8) = false := by
      rw [List.any_eq_false]
      intro x hx hsel
      have : x ∈ List.filter (is_long 8) (getopt_results
          ((GetoptState.mk ((argv.take argc).drop 1) []).size + 1)
          ⟨(argv.take argc).drop 1, []⟩) := List.mem_filter.2 ⟨hx, hsel⟩
      rw [hl] at this
      simp at this
    rw [hany]
    rfl
  | cons y ys =>
    have hmem : y ∈ List.filter (is_long 8) (getopt_results
        ((GetoptState.mk ((argv.take argc).drop 1) []).size + 1)
        ⟨(argv.take argc).drop 1, []⟩) := by rw [hl]; exact List.mem_cons_self _ _
    have hany : (getopt_results ((GetoptState.mk ((argv.take argc).drop 1) []).size + 1)
        ⟨(argv.take argc).drop 1, []⟩).any (is_long 8) = true := by
      rw [List.any_eq_true]
      exact ⟨y, (List.mem_filter.1 hmem).1, (List.mem_filter.1 hmem).2⟩
    rw [hany]
    cases hg : (y :: ys).getLast? with
    | none => simp at hg
    | some z => rfl

/-- C2: whenever `parse_arg_list` finishes with 0, every settings field holds the value
given by the argument of the last occurrence of its option in the combined argument list,
and its initial value when the option does not occur (`cache_enabled`, whose option takes
no argument, is 1 as soon as `--cache` occurs).  Since the configuration file tokens come
before the command line tokens, a field that both set holds the command line value. -/
theorem C2_last_wins (argc : Nat) (argv : List String) (CONFIG : ConfigStruct)
    (fuse_argv : List String) (fuse_argc : Nat) (res : ParseResult)
    (h : parse_arg_list argc argv CONFIG fuse_argv fuse_argc = some res) (h0 : res.ret = 0) :
    res.s.CONFIG.http_username
      = last_value (is_opt 'u') some CONFIG.http_username (occurrences argc argv) ∧
    res.s.CONFIG.http_password
      = last_value (is_opt 'p') some CONFIG.http_password (occurrences argc argv) ∧
    res.s.CONFIG.proxy
      = last_value (is_opt 'P') some CONFIG.proxy (occurrences argc argv) ∧
    res.s.CONFIG.proxy_username
      = last_value (is_long 6) some CONFIG.proxy_username (occurrences argc argv) ∧
    res.s.CONFIG.proxy_password
      = last_value (is_long 7) some CONFIG.proxy_password (occurrences argc argv) ∧
    res.s.CONFIG.data_blksz
      = last_value (is_long 9) (fun a => int_mul (int_mul (atoi a) 1024) 1024) CONFIG.data_blksz (occurrences argc argv) ∧
    res.s.CONFIG.max_segbc
      = last_value (is_long 10) atoi CONFIG.max_segbc (occurrences argc argv) ∧
    res.s.CONFIG.max_conns
      = last_value (is_long 11) atoi CONFIG.max_conns (occurrences argc argv) ∧
    res.s.CONFIG.user_agent
      = last_value (is_long 12) some CONFIG.user_agent (occurrences argc argv) ∧
    res.s.CONFIG.http_wait_sec
      = last_value (is_long 13) atoi CONFIG.http_wait_sec (occurrences argc argv) ∧
    res.s.CONFIG.cache_dir
      = last_value (is_long 14) some CONFIG.cache_dir (occurrences argc argv) ∧
    res.s.CONFIG.sonic_username
      = last_value (is_long 15) some CONFIG.sonic_username (occurrences argc argv) ∧
    res.s.CONFIG.sonic_password
      = last_value (is_long 16) some CONFIG.sonic_password (occurrences argc argv) ∧
    res.s.CONFIG.cache_enabled
      = if (occurrences argc argv).any (is_long 8) then 1 else CONFIG.cache_enabled := by
  refine ⟨?_, ?_, ?_, ?_, ?_, ?_, ?_, ?_, ?_, ?_, ?_, ?_, ?_, ?_⟩
  · exact parse_arg_list_last (fun c => c.http_username) (is_opt 'u') some
      (fun st st' r li s s' hg hs => (switch_writes st st' r li s s' hg hs).1)
      argc argv CONFIG fuse_argv fuse_argc res h h0
  · exact parse_arg_list_last (fun c => c.http_password) (is_opt 'p') some
      (fun st st' r li s s' hg hs => (switch_writes st st' r li s s' hg hs).2.1)
      argc argv CONFIG fuse_argv fuse_argc res h h0
  · exact parse_arg_list_last (fun c => c.proxy) (is_opt 'P') some
      (fun st st' r li s s' hg hs => (switch_writes st st' r li s s' hg hs).2.2.1)
      argc argv CONFIG fuse_argv fuse_argc res h h0
  · exact parse_arg_list_last (fun c => c.proxy_username) (is_long 6) some
      (fun st st' r li s s' hg hs => (switch_writes st st' r li s s' hg hs).2.2.2.1)
      argc argv CONFIG fuse_argv fuse_argc res h h0
  · exact parse_arg_list_last (fun c => c.proxy_password) (is_long 7) some
      (fun st st' r li s s' hg hs => (switch_writes st st' r li s s' hg hs).2.2.2.2.1)
      argc argv CONFIG fuse_argv fuse_argc res h h0
  · exact parse_arg_list_last (fun c => c.data_blksz) (is_long 9) (fun a => int_mul (int_mul (atoi a) 1024) 1024)
      (fun st st' r li s s' hg hs => (switch_writes st st' r li s s' hg hs).2.2.2.2.2.1)
      argc argv CONFIG fuse_argv fuse_argc res h h0
  · exact parse_arg_list_last (fun c => c.max_segbc) (is_long 10) atoi
      (fun st st' r li s s' hg hs => (switch_writes st st' r li s s' hg hs).2.2.2.2.2.2.1)
      argc argv CONFIG fuse_argv fuse_argc res h h0
  · exact parse_arg_list_last (fun c => c.max_conns) (is_long 11) atoi
      (fun st st' r li s s' hg hs => (switch_writes st st' r li s s' hg hs).2.2.2.2.2.2.2.1)
      argc argv CONFIG fuse_argv fuse_argc res h h0
  · exact parse_arg_list_last (fun c => c.user_agent) (is_long 12) some
      (fun st st' r li s s' hg hs => (switch_writes st st' r li s s' hg hs).2.2.2.2.2.2.2.2.1)
      argc argv CONFIG fuse_argv fuse_argc res h h0
  · exact parse_arg_list_last (fun c => c.http_wait_sec) (is_long 13) atoi
      (fun st st' r li s s' hg hs => (switch_writes st st' r li s s' hg hs).2.2.2.2.2.2.2.2.2.1)
      argc argv CONFIG fuse_argv fuse_argc res h h0
  · exact parse_arg_list_last (fun c => c.cache_dir) (is_long 14) some
      (fun st st' r li s s' hg hs => (switch_writes st st' r li s s' hg hs).2.2.2.2.2.2.2.2.2.2.1)
      argc argv CONFIG fuse_argv fuse_argc res h h0
  · exact parse_arg_list_last (fun c => c.sonic_username) (is_long 15) some
      (fun st st' r li s s' hg hs => (switch_writes st st' r li s s' hg hs).2.2.2.2.2.2.2.2.2.2.2.1)
      argc argv CONFIG fuse_argv fuse_argc res h h0
  · exact parse_arg_list_last (fun c => c.sonic_password) (is_long 16) some
      (fun st st' r li s s' hg hs => (switch_writes st st' r li s s' hg hs).2.2.2.2.2.2.2.2.2.2.2.2.1)
      argc argv CONFIG fuse_argv fuse_argc res h h0
  · exact cache_enabled_last argc argv CONFIG fuse_argv fuse_argc res h h0

/-- C2, on the scenario of the claim: the configuration file line `-u alice` and the
command line `prog -u carol http://a/ /mnt` leave `http_username` at `carol`. -/
theorem C2_last_wins_witness :
    (parse_arg_list 7 carol_merged Config_defaults ["prog"] 1 = some carol_parsed ∧
      carol_parsed.ret = 0) ∧
    carol_parsed.s.CONFIG.http_username
      = last_value (is_opt 'u') some Config_defaults.http_username (occurrences 7 carol_merged) ∧
    occurrences 7 carol_merged = [⟨'u', some "alice", none⟩, ⟨'u', some "carol", none⟩] ∧
    main_all_args (scenario_world_with "-u alice\n") ["prog", "-u", "carol", "http://a/", "/mnt"]
      = some (carol_merged, 7) ∧
    (main (scenario_world_with "-u alice\n") ["prog", "-u", "carol", "http://a/", "/mnt"]).map
      (fun r => r.CONFIG.http_username) = some (some "carol") :=
  ⟨⟨by rfl, rfl⟩,
    (C2_last_wins 7 carol_merged Config_defaults ["prog"] 1 carol_parsed (by rfl) rfl).1,
    by rfl, by rfl, by rfl⟩

/-! ## The line buffer as a C string -/

theorem c_string_nil : c_string [] = [] := rfl

theorem c_string_cons (c : Char) (cs : List Char) :
    c_string (c :: cs) = if c = NUL then [] else c :: c_string cs := by
  by_cases h : c = NUL
  · simp [c_string, List.takeWhile_cons, h]
  · simp [c_string, List.takeWhile_cons, h]

theorem strnlen_eq : ∀ (buf : List Char) (n : Nat),
    strnlen buf n = min (c_string buf).length n := by
  intro buf
  induction buf with
  | nil => intro n; cases n <;> simp [strnlen, c_string_nil]
  | cons c cs ih =>
    intro n
    cases n with
    | zero => simp [strnlen]
    | succ k =>
      simp only [strnlen, c_string_cons]
      by_cases h : c = NUL
      · simp [h]
      · simp only [h, if_false, ih k, List.length_cons]
        omega

theorem strndup_chars_eq : ∀ (p : List Char) (n : Nat),
    strndup_chars p n = (c_string p).take n := by
  intro p
  induction p with
  | nil => intro n; cases n <;> simp [strndup_chars, c_string_nil]
  | cons c cs ih =>
    intro n
    cases n with
    | zero => simp [strndup_chars]
    | succ k =>
      simp only [strndup_chars, c_string_cons]
      by_cases h : c = NUL
      · simp [h]
      · simp [h, ih k]

theorem strchr_space_eq : ∀ buf : List Char,
    strchr buf ' ' = if ' ' ∈ c_string buf
      then some ((c_string buf).takeWhile (· != ' ')).length else none := by
  intro buf
  induction buf with
  | nil => simp [strchr, c_string_nil]
  | cons c cs ih =>
    simp only [strchr, c_string_cons]
    by_cases hs : c = ' '
    · subst hs
      simp [NUL, List.takeWhile_cons]
    · by_cases hn : c = NUL
      · have hne : ¬ NUL = ' ' := by decide
        simp [hn, hne]
      · simp only [hs, hn, if_false, ih]
        have hs' : ¬ ' ' = c := fun e => hs e.symm
        by_cases hm : ' ' ∈ c_string cs
        · simp [hm, hs, List.takeWhile_cons]
        · simp [hm, hs']

theorem c_string_initial (buf : List Char) : c_string buf <+: buf :=
  List.takeWhile_prefix _

theorem c_string_no_NUL (buf : List Char) : ∀ c ∈ c_string buf, c ≠ NUL := by
  intro c hc
  have := List.mem_takeWhile_imp hc
  simpa using this

theorem c_string_length_le (buf : List Char) : (c_string buf).length ≤ buf.length :=
  (c_string_initial buf).length_le

/-- Writing a NUL over the last character of the string in the buffer shortens the string
by that character. -/
theorem c_string_set_last : ∀ buf : List Char, c_string buf ≠ [] →
    c_string (buf.set ((c_string buf).length - 1) NUL) = (c_string buf).dropLast := by
  intro buf
  induction buf with
  | nil => intro h; simp [c_string_nil] at h
  | cons c cs ih =>
    intro h
    rw [c_string_cons] at h ⊢
    by_cases hn : c = NUL
    · simp [hn] at h
    · simp only [hn, if_false, List.length_cons, Nat.add_sub_cancel]
      by_cases he : c_string cs = []
      · simp [he, List.set, c_string_cons]
      · obtain ⟨k, hk⟩ : ∃ k, (c_string cs).length = k + 1 := by
          cases hl : c_string cs with
          | nil => exact absurd hl he
          | cons x xs => exact ⟨xs.length, rfl⟩
        have ih' := ih he
        rw [hk] at ih' ⊢
        simp only [Nat.add_sub_cancel] at ih'
        simp only [List.set, c_string_cons, hn, if_false, ih']
        cases hl : c_string cs with
        | nil => exact absurd hl he
        | cons x xs => simp [List.dropLast]

theorem c_string_drop : ∀ (buf : List Char) (i : Nat), i ≤ (c_string buf).length →
    c_string (buf.drop i) = (c_string buf).drop i := by
  intro buf
  induction buf with
  | nil => intro i _; simp [c_string_nil]
  | cons c cs ih =>
    intro i hi
    cases i with
    | zero => simp
    | succ k =>
      rw [c_string_cons] at hi ⊢
      by_cases hn : c = NUL
      · simp [hn] at hi
      · simp only [hn, if_false, List.length_cons] at hi
        simp only [hn, if_false, List.drop_succ_cons]
        exact ih k (by omega)

theorem take_takeWhile_length (p : Char → Bool) (l : List Char) :
    l.take (l.takeWhile p).length = l.takeWhile p := by
  have h := List.takeWhile_append_dropWhile p l
  have e : List.take (l.takeWhile p).length (l.takeWhile p ++ l.dropWhile p)
      = l.takeWhile p := List.take_left' rfl
  rwa [h] at e

theorem drop_takeWhile_length (p : Char → Bool) (l : List Char) :
    l.drop (l.takeWhile p).length = l.dropWhile p := by
  have h := List.takeWhile_append_dropWhile p l
  have e : List.drop (l.takeWhile p).length (l.takeWhile p ++ l.dropWhile p)
      = l.dropWhile p := List.drop_left' rfl
  rwa [h] at e

theorem takeWhile_length_lt_of_mem (l : List Char) (h : ' ' ∈ l) :
    (l.takeWhile (· != ' ')).length < l.length := by
  induction l with
  | nil => simp at h
  | cons c cs ih =>
    rw [List.takeWhile_cons]
    by_cases hc : c = ' '
    · simp [hc]
    · have : ' ' ∈ cs := by
        rcases List.mem_cons.1 h with e | e
        · exact absurd e.symm hc
        · exact e
      simp only [bne_iff_ne, ne_eq, hc, not_false_eq_true, decide_True, if_true, List.length_cons]
      have := ih this
      omega

/-- The tokens of a buffer content whose first character is `-`: the string in the buffer
loses its last character; what is left is one token when it has no space, and otherwise the
two tokens before and after its first space. -/
theorem line_tokens_eq (buf_len : Nat) (buf : List Char) (hd : buf.head? = some '-')
    (hlen : (c_string buf).length < buf_len) :
    line_tokens buf_len buf =
      if ' ' ∈ (c_string buf).dropLast then
        [String.mk ((c_string buf).dropLast.takeWhile (· != ' ')),
         String.mk (((c_string buf).dropLast.dropWhile (· != ' ')).drop 1)]
      else [String.mk (c_string buf).dropLast] := by
  have hne : c_string buf ≠ [] := by
    cases buf with
    | nil => simp at hd
    | cons c cs =>
      simp only [List.head?_cons, Option.some.injEq] at hd
      subst hd
      rw [c_string_cons]
      simp [NUL]
  have hsn : strnlen buf buf_len = (c_string buf).length := by
    rw [strnlen_eq]; omega
  have hcs := c_string_set_last buf hne
  have hdl : (c_string buf).dropLast.length < buf_len := by
    rw [List.length_dropLast]; omega
  unfold line_tokens parse_config_line
  simp only [hd, if_true, hsn, strchr_space_eq, hcs]
  by_cases hm : ' ' ∈ (c_string buf).dropLast
  · simp only [hm, if_true]
    have hlt := takeWhile_length_lt_of_mem _ hm
    have e1 : realloc [] (0 + 1 + 1) = ["", ""] := rfl
    simp only [e1, strndup, strndup_chars_eq, hcs, List.set]
    rw [c_string_drop _ _ (by rw [hcs]; omega), hcs]
    have e2 : 0 + 1 + 1 - 2 = 0 := rfl
    have e3 : 0 + 1 + 1 - 1 = 1 := rfl
    simp only [e2, e3, List.set, take_takeWhile_length]
    have e4 : ((c_string buf).dropLast.drop
        (((c_string buf).dropLast.takeWhile (· != ' ')).length + 1))
        = ((c_string buf).dropLast.dropWhile (· != ' ')).drop 1 := by
      rw [← drop_takeWhile_length, List.drop_drop]
    rw [e4]
    have e5 : (((c_string buf).dropLast.dropWhile (· != ' ')).drop 1).take
        (buf_len - (((c_string buf).dropLast.takeWhile (· != ' ')).length + 1))
        = ((c_string buf).dropLast.dropWhile (· != ' ')).drop 1 := by
      apply List.take_of_length_le
      rw [← e4, List.length_drop]
      omega
    rw [e5]
    rfl
  · simp only [hm, if_false]
    have e1 : realloc [] (0 + 1) = [""] := rfl
    simp only [e1, strndup, strndup_chars_eq, hcs, List.set, Nat.add_sub_cancel]
    rw [List.take_of_length_le (by omega)]
    rfl

/-! ## What `fgets` returns -/

theorem fgets_read_append (n : Nat) :
    ∀ file : List Char, (fgets_read n file).1 ++ (fgets_read n file).2 = file ∧
      (fgets_read n file).1.length ≤ n := by
  induction n with
  | zero => intro file; simp [fgets_read]
  | succ k ih =>
    intro file
    cases file with
    | nil => simp [fgets_read]
    | cons c cs =>
      unfold fgets_read
      by_cases hc : c = '\n'
      · simp [hc]
      · simp only [hc, if_false, List.cons_append, List.length_cons]
        exact ⟨by rw [(ih cs).1], Nat.succ_le_succ (ih cs).2⟩

/-- A line that fits is read whole, with its newline, and the stream is left after it. -/
theorem fgets_read_line (line rest : List Char) (hnl : '\n' ∉ line) :
    ∀ n, line.length + 1 ≤ n →
      fgets_read n (line ++ '\n' :: rest) = (line ++ ['\n'], rest) := by
  induction line with
  | nil =>
    intro n hn
    obtain ⟨k, rfl⟩ : ∃ k, n = k + 1 := ⟨n - 1, by simp at hn; omega⟩
    simp [fgets_read]
  | cons c cs ih =>
    intro n hn
    obtain ⟨k, rfl⟩ : ∃ k, n = k + 1 := ⟨n - 1, by simp at hn; omega⟩
    have hc : c ≠ '\n' := fun e => hnl (by simp [e])
    have hcs : '\n' ∉ cs := fun e => hnl (List.mem_cons_of_mem _ e)
    have e := ih hcs k (by simp at hn; omega)
    show fgets_read (k + 1) (c :: (cs ++ '\n' :: rest)) = _
    simp only [fgets_read, hc, if_false, e]
    rfl

/-- A last line without newline that fits is read whole, to the end of the stream. -/
theorem fgets_read_last (line : List Char) (hnl : '\n' ∉ line) :
    ∀ n, line.length ≤ n → fgets_read n line = (line, []) := by
  induction line with
  | nil => intro n _; cases n <;> simp [fgets_read]
  | cons c cs ih =>
    intro n hn
    obtain ⟨k, rfl⟩ : ∃ k, n = k + 1 := ⟨n - 1, by simp at hn; omega⟩
    have hc : c ≠ '\n' := fun e => hnl (by simp [e])
    have hcs : '\n' ∉ cs := fun e => hnl (List.mem_cons_of_mem _ e)
    simp only [fgets_read, hc, if_false]
    rw [ih hcs k (by simp at hn; omega)]

theorem fgets_some (buf_len : Nat) (file buf rest : List Char)
    (h : fgets buf_len file = some (buf, rest)) :
    ∃ line, buf = line ++ [NUL] ∧ line ++ rest = file ∧ line.length ≤ buf_len - 1 := by
  cases file with
  | nil => simp [fgets] at h
  | cons c cs =>
    simp only [fgets, Option.some.injEq, Prod.mk.injEq] at h
    obtain ⟨h1, h2⟩ := h
    have ha := fgets_read_append (buf_len - 1) (c :: cs)
    exact ⟨(fgets_read (buf_len - 1) (c :: cs)).1, h1.symm, by rw [← h2]; exact ha.1, ha.2⟩

theorem c_string_append_NUL : ∀ line : List Char,
    c_string (line ++ [NUL]) = c_string line := by
  intro line
  induction line with
  | nil => simp [c_string_cons, c_string_nil]
  | cons c cs ih =>
    simp only [List.cons_append, c_string_cons, ih]

theorem c_string_of_no_NUL : ∀ line : List Char, NUL ∉ line → c_string line = line := by
  intro line
  induction line with
  | nil => intro _; rfl
  | cons c cs ih =>
    intro h
    have hc : c ≠ NUL := fun e => h (by simp [e])
    have hcs : NUL ∉ cs := fun e => h (List.mem_cons_of_mem _ e)
    rw [c_string_cons]
    simp [hc, ih hcs]

/-- The string in a buffer that `fgets` filled is shorter than the buffer. -/
theorem fgets_c_string_length (buf_len : Nat) (file buf rest : List Char)
    (h : fgets buf_len file = some (buf, rest)) :
    (c_string buf).length ≤ buf_len - 1 ∧ (c_string buf).length < buf.length := by
  obtain ⟨line, hb, _, hl⟩ := fgets_some buf_len file buf rest h
  subst hb
  rw [c_string_append_NUL]
  have := c_string_length_le line
  simp only [List.length_append, List.length_singleton]
  omega

theorem c_string_ne_nil_of_head (buf : List Char) (hd : buf.head? = some '-') :
    c_string buf ≠ [] := by
  cases buf with
  | nil => simp at hd
  | cons c cs =>
    simp only [List.head?_cons, Option.some.injEq] at hd
    subst hd
    rw [c_string_cons]
    simp [NUL]

/-! ## The tokens of the configuration file, line by line -/

theorem line_tokens_of_not_dash (buf_len : Nat) (buf : List Char)
    (hd : buf.head? ≠ some '-') : line_tokens buf_len buf = [] := by
  simp [line_tokens, parse_config_line, hd]

theorem line_tokens_length_of_dash (buf_len : Nat) (buf : List Char)
    (hd : buf.head? = some '-') :
    (line_tokens buf_len buf).length = 1 ∨ (line_tokens buf_len buf).length = 2 := by
  unfold line_tokens
  rw [parse_config_line_count buf_len buf [] 0 rfl]
  unfold parse_config_line
  simp only [hd, if_true]
  cases strchr (buf.set (strnlen buf buf_len - 1) NUL) ' ' with
  | none => left; rfl
  | some space => right; rfl

theorem parse_config_loop_lines (buf_len : Nat) (hb : 2 ≤ buf_len) :
    ∀ (fuel : Nat) (file : List Char) (argv : List String) (argc : Nat),
      file.length < fuel → argv.length = argc →
      parse_config_loop fuel buf_len file argv argc
        = some (argv ++ ((config_lines fuel buf_len file).map (line_tokens buf_len)).flatten,
            argc + ((config_lines fuel buf_len file).map (line_tokens buf_len)).flatten.length) := by
  intro fuel
  induction fuel with
  | zero => intro file argv argc h _; omega
  | succ k ih =>
    intro file argv argc h hl
    unfold parse_config_loop config_lines
    cases hf : fgets buf_len file with
    | none => simp
    | some bf =>
      obtain ⟨buf, file'⟩ := bf
      have hlt := fgets_consumes buf_len hb file buf file' hf
      simp only
      rw [parse_config_line_append buf_len buf argv argc hl]
      simp only
      rw [ih file' _ _ (by omega) (by simp [hl])]
      simp only [List.map_cons, List.flatten_cons, List.append_assoc, List.length_append,
        Nat.add_assoc]
      rfl

theorem config_lines_join (buf_len : Nat) (hb : 2 ≤ buf_len) :
    ∀ (fuel : Nat) (file : List Char), file.length < fuel →
      ((config_lines fuel buf_len file).map List.dropLast).flatten = file := by
  intro fuel
  induction fuel with
  | zero => intro file h; omega
  | succ k ih =>
    intro file h
    unfold config_lines
    cases hf : fgets buf_len file with
    | none =>
      cases file with
      | nil => rfl
      | cons c cs => simp [fgets] at hf
    | some bf =>
      obtain ⟨buf, file'⟩ := bf
      have hlt := fgets_consumes buf_len hb file buf file' hf
      obtain ⟨line, hbuf, hfile, _⟩ := fgets_some buf_len file buf file' hf
      simp only [List.map_cons, List.flatten_cons]
      rw [ih file' (by omega), hbuf, List.dropLast_concat, hfile]

/-! ## The claims on the configuration file and on `add_arg` -/

/-- C11, evaluated where the code departs from it: a file that consists of the line
`--cache` without a line terminator yields the token `--cach`, since line 109 removes the
last character of the line whatever it is; with the terminator the token is `--cache`. -/
theorem C11_unterminated_line_loses_last_character :
    parse_config_file 4096 (some "--cache".data) [] 0 = some (["--cach"], 1) ∧
    parse_config_file 4096 (some "--cache\n".data) [] 0 = some (["--cache"], 1) := by
  constructor <;> decide

/-- C12, evaluated where the code departs from it: a file that consists of the line
`-o a b` without a line terminator yields the tokens `-o` and `a ` (the last character of
the line is removed before the split), and a last line `-o ` yields the single token `-o`;
with the terminator the tokens are `-o` and `a b`. -/
theorem C12_unterminated_line_splits_short :
    parse_config_file 4096 (some "-o a b".data) [] 0 = some (["-o", "a "], 2) ∧
    parse_config_file 4096 (some "-o ".data) [] 0 = some (["-o"], 1) ∧
    parse_config_file 4096 (some "-o a b\n".data) [] 0 = some (["-o", "a b"], 2) := by
  refine ⟨?_, ?_, ?_⟩ <;> decide

theorem text_lines_eq_nil (file : List Char) (h : text_lines file = []) : file = [] := by
  cases file with
  | nil => rfl
  | cons c cs =>
    unfold text_lines at h
    split at h
    · simp at h
    · split at h <;> simp at h

theorem fgets_read_nil (n : Nat) : fgets_read n [] = ([], []) := by
  cases n <;> rfl

/-- When the first line of the text fits, `fgets` reads exactly that line. -/
theorem fgets_read_text_line :
    ∀ (file : List Char) (n : Nat) (l : List Char) (ls : List (List Char)),
      text_lines file = l :: ls → l.length ≤ n →
      (fgets_read n file).1 = l ∧ text_lines (fgets_read n file).2 = ls := by
  intro file
  induction file with
  | nil => intro n l ls h _; simp [text_lines] at h
  | cons c cs ih =>
    intro n l ls h hn
    unfold text_lines at h
    by_cases hc : c = '\n'
    · simp only [hc, if_true, List.cons.injEq] at h
      obtain ⟨h1, h2⟩ := h
      subst h1
      obtain ⟨k, rfl⟩ : ∃ k, n = k + 1 := ⟨n - 1, by simp at hn; omega⟩
      simp [fgets_read, hc, h2]
    · simp only [hc, if_false] at h
      cases ht : text_lines cs with
      | nil =>
        simp only [ht, List.cons.injEq] at h
        obtain ⟨h1, h2⟩ := h
        subst h1
        have hcs := text_lines_eq_nil cs ht
        subst hcs
        obtain ⟨k, rfl⟩ : ∃ k, n = k + 1 := ⟨n - 1, by simp at hn; omega⟩
        simp [fgets_read, hc, fgets_read_nil, ← h2, text_lines]
      | cons l' ls' =>
        simp only [ht, List.cons.injEq] at h
        obtain ⟨h1, h2⟩ := h
        subst h1
        obtain ⟨k, rfl⟩ : ∃ k, n = k + 1 := ⟨n - 1, by simp at hn; omega⟩
        obtain ⟨e1, e2⟩ := ih k l' ls' ht (by simp at hn; omega)
        simp only [fgets_read, hc, if_false, e1, e2]
        exact ⟨trivial, h2⟩

/-- On a file whose lines all fit the buffer, the lines that `fgets` returns are the lines
of the text. -/
theorem config_lines_eq_text_lines (buf_len : Nat) :
    ∀ (fuel : Nat) (file : List Char), file.length < fuel →
      (∀ l ∈ text_lines file, l.length + 1 ≤ buf_len) →
      config_lines fuel buf_len file = (text_lines file).map (· ++ [NUL]) := by
  intro fuel
  induction fuel with
  | zero => intro file h; omega
  | succ k ih =>
    intro file h hfit
    unfold config_lines
    cases file with
    | nil => simp [fgets, text_lines]
    | cons c cs =>
      cases ht : text_lines (c :: cs) with
      | nil => exact absurd (text_lines_eq_nil _ ht) (by simp)
      | cons l ls =>
        have hl : l.length + 1 ≤ buf_len := hfit l (by rw [ht]; exact List.mem_cons_self _ _)
        obtain ⟨e1, e2⟩ := fgets_read_text_line (c :: cs) (buf_len - 1) l ls ht (by omega)
        have hlen := fgets_read_length (buf_len - 1) (c :: cs)
        have hne : l ≠ [] := by
          intro hnil
          subst hnil
          unfold text_lines at ht
          split at ht
          · simp at ht
          · split at ht <;> simp at ht
        have happ := (fgets_read_append (buf_len - 1) (c :: cs)).1
        have hlt : (fgets_read (buf_len - 1) (c :: cs)).2.length < (c :: cs).length := by
          have : ((fgets_read (buf_len - 1) (c :: cs)).1
              ++ (fgets_read (buf_len - 1) (c :: cs)).2).length = (c :: cs).length := by
            rw [happ]
          rw [List.length_append, e1] at this
          have : 0 < l.length := List.length_pos.2 hne
          omega
        simp only [fgets, List.map_cons, e1]
        rw [ih _ (by simp at h hlt ⊢; omega) (by
          intro l' hl'
          rw [e2] at hl'
          exact hfit l' (by rw [ht]; exact List.mem_cons_of_mem _ hl')), e2]

theorem fgets_read_replicate (c : Char) (hc : c ≠ '\n') (rest : List Char) :
    ∀ n, fgets_read n (List.replicate n c ++ rest) = (List.replicate n c, rest) := by
  intro n
  induction n with
  | zero => simp [fgets_read]
  | succ k ih =>
    rw [List.replicate_succ, List.cons_append]
    simp only [fgets_read, hc, if_false, ih]

theorem text_lines_replicate (c : Char) (hc : c ≠ '\n') (rest : List Char)
    (hrest : text_lines rest = [rest]) :
    ∀ n, text_lines (List.replicate n c ++ rest) = [List.replicate n c ++ rest] := by
  intro n
  induction n with
  | zero => simpa using hrest
  | succ k ih =>
    rw [List.replicate_succ, List.cons_append]
    simp only [text_lines, hc, if_false, ih]

/-- C13, as stated, fails on a line that does not fit the buffer: the only line of
`long_comment_file` starts with `#`, and yet `parse_config_file`, with the 4096 byte
buffer, appends the token `-x`, because `fgets` returns the line in two pieces and the
second piece starts with `-`. -/
theorem C13_counterexample :
    text_lines long_comment_file = [long_comment_file] ∧
    long_comment_file.head? = some '#' ∧
    parse_config_file 4096 (some long_comment_file) [] 0 = some (["-x"], 1) := by
  have hcons : long_comment_file = '#' :: (List.replicate 4094 '#' ++ "-x\n".data) := by
    unfold long_comment_file
    rw [show (4095 : Nat) = 4094 + 1 from rfl, List.replicate_succ, List.cons_append]
  refine ⟨?_, ?_, ?_⟩
  · exact text_lines_replicate '#' (by decide) "-x\n".data (by decide) 4095
  · rw [hcons]; rfl
  · have hread : fgets_read 4095 long_comment_file = (List.replicate 4095 '#', "-x\n".data) :=
      fgets_read_replicate '#' (by decide) "-x\n".data 4095
    have hfg : fgets 4096 long_comment_file
        = some (List.replicate 4095 '#' ++ [NUL], "-x\n".data) := by
      have : fgets 4096 long_comment_file
          = some ((fgets_read 4095 long_comment_file).1 ++ [NUL],
              (fgets_read 4095 long_comment_file).2) := by
        rw [hcons]; rfl
      rw [this, hread]
    have hline : parse_config_line 4096 (List.replicate 4095 '#' ++ [NUL]) [] 0 = ([], 0) := by
      have hh : (List.replicate 4095 '#' ++ [NUL]).head? ≠ some '-' := by
        rw [show (4095 : Nat) = 4094 + 1 from rfl, List.replicate_succ, List.cons_append]
        decide
      unfold parse_config_line
      rw [if_neg hh]
    have hlen : long_comment_file.length = 4097 + 1 := by
      unfold long_comment_file
      rw [List.length_append, List.length_replicate]
      rfl
    unfold parse_config_file
    simp only
    unfold parse_config_loop
    simp only [hfg, hline, hlen]
    decide

theorem head?_append_NUL (l : List Char) :
    (l.head? ≠ some '-' → (l ++ [NUL]).head? ≠ some '-') ∧
    (l.head? = some '-' → (l ++ [NUL]).head? = some '-') := by
  cases l with
  | nil => exact ⟨fun _ => by decide, fun h => by simp at h⟩
  | cons c cs => exact ⟨fun h => by simpa using h, fun h => by simpa using h⟩

theorem text_lines_flatten : ∀ file : List Char, (text_lines file).flatten = file := by
  intro file
  induction file with
  | nil => rfl
  | cons c cs ih =>
    unfold text_lines
    by_cases hc : c = '\n'
    · simp [hc, ih]
    · simp only [hc, if_false]
      cases ht : text_lines cs with
      | nil =>
        have := text_lines_eq_nil cs ht
        subst this
        rfl
      | cons l ls =>
        rw [ht] at ih
        simp only [List.flatten_cons] at ih ⊢
        rw [List.cons_append, ih]

/-- C13, amended: `parse_config_file` works on the lines as `fgets` returns them with the
buffer of `buf_len` bytes; these pieces, put end to end, are the file, and for every file
whose lines all fit the buffer they are the lines of the file.  The tokens of the pieces are
appended to the vector in file order, a piece whose first character is not `-` gives no
token, a piece whose first character is `-` gives one or two, and the counter grows by the
number of tokens appended.  So for every file whose lines all fit the buffer the claim holds
of the lines of the file. -/
theorem C13_config_filtering_order (buf_len : Nat) (file : List Char) (argv : List String)
    (argc : Nat) (hb : 2 ≤ buf_len) (hl : argv.length = argc) :
    parse_config_file buf_len (some file) argv argc
      = some (argv ++ ((config_lines (file.length + 1) buf_len file).map
            (line_tokens buf_len)).flatten,
          argc + ((config_lines (file.length + 1) buf_len file).map
            (line_tokens buf_len)).flatten.length) ∧
    ((config_lines (file.length + 1) buf_len file).map List.dropLast).flatten = file ∧
    (∀ buf ∈ config_lines (file.length + 1) buf_len file,
      (buf.head? ≠ some '-' → line_tokens buf_len buf = []) ∧
      (buf.head? = some '-' →
        (line_tokens buf_len buf).length = 1 ∨ (line_tokens buf_len buf).length = 2)) ∧
    ((∀ l ∈ text_lines file, l.length + 1 ≤ buf_len) →
      config_lines (file.length + 1) buf_len file = (text_lines file).map (· ++ [NUL]) ∧
      (text_lines file).flatten = file ∧
      parse_config_file buf_len (some file) argv argc
        = some (argv ++ ((text_lines file).map
              (fun l => line_tokens buf_len (l ++ [NUL]))).flatten,
            argc + ((text_lines file).map
              (fun l => line_tokens buf_len (l ++ [NUL]))).flatten.length) ∧
      ∀ l ∈ text_lines file,
        (l.head? ≠ some '-' → line_tokens buf_len (l ++ [NUL]) = []) ∧
        (l.head? = some '-' →
          (line_tokens buf_len (l ++ [NUL])).length = 1 ∨
            (line_tokens buf_len (l ++ [NUL])).length = 2)) := by
  have h1 := parse_config_loop_lines buf_len hb _ file argv argc (Nat.lt_succ_self _) hl
  refine ⟨h1, config_lines_join buf_len hb _ file (Nat.lt_succ_self _),
    fun buf _ => ⟨line_tokens_of_not_dash buf_len buf, line_tokens_length_of_dash buf_len buf⟩,
    ?_⟩
  intro hfit
  have e := config_lines_eq_text_lines buf_len _ file (Nat.lt_succ_self _) hfit
  refine ⟨e, text_lines_flatten file, ?_, ?_⟩
  · have h1' : parse_config_file buf_len (some file) argv argc
        = some (argv ++ ((config_lines (file.length + 1) buf_len file).map
              (line_tokens buf_len)).flatten,
            argc + ((config_lines (file.length + 1) buf_len file).map
              (line_tokens buf_len)).flatten.length) := h1
    rw [e, List.map_map] at h1'
    exact h1'
  · intro l _
    exact ⟨fun h => line_tokens_of_not_dash buf_len _ ((head?_append_NUL l).1 h),
      fun h => line_tokens_length_of_dash buf_len _ ((head?_append_NUL l).2 h)⟩

/-- C13 amended, on a file with a comment, a blank line, two option lines and a stray
word, all of which fit the buffer. -/
theorem C13_config_filtering_order_witness :
    (2 ≤ 4096 ∧ ["prog"].length = 1 ∧
      ∀ l ∈ text_lines "# comment\n\n-u alice\n--cache\nfoo\n".data, l.length + 1 ≤ 4096) ∧
    (parse_config_file 4096 (some "# comment\n\n-u alice\n--cache\nfoo\n".data) ["prog"] 1
      = some (["prog"] ++ ((text_lines "# comment\n\n-u alice\n--cache\nfoo\n".data).map
            (fun l => line_tokens 4096 (l ++ [NUL]))).flatten,
          1 + ((text_lines "# comment\n\n-u alice\n--cache\nfoo\n".data).map
            (fun l => line_tokens 4096 (l ++ [NUL]))).flatten.length)) ∧
    parse_config_file 4096 (some "# comment\n\n-u alice\n--cache\nfoo\n".data) ["prog"] 1
      = some (["prog", "-u", "alice", "--cache"], 4) ∧
    (text_lines "# comment\n\n-u alice\n--cache\nfoo\n".data).map
        (fun l => line_tokens 4096 (l ++ [NUL]))
      = [[], [], ["-u", "alice"], ["--cache"], []] :=
  ⟨⟨by decide, rfl, by decide⟩,
    ((C13_config_filtering_order 4096 "# comment\n\n-u alice\n--cache\nfoo\n".data ["prog"] 1
      (by decide) rfl).2.2.2 (by decide)).2.2.1,
    by decide, by decide⟩

/-- C17, as stated, fails: the line `-u alice` followed by a newline yields the tokens
`-u` and `alice`; the value token does not keep the newline. -/
theorem C17_counterexample :
    parse_config_file 4096 (some "-u alice\n".data) [] 0 = some (["-u", "alice"], 2) ∧
    parse_config_file 4096 (some "-u alice\n".data) [] 0 ≠ some (["-u", "alice\n"], 2) := by
  constructor <;> decide

/-- C17, amended: line 109 removes the line terminator in the buffer itself, before the
split, so neither token keeps it: a line `flag value` followed by a newline, which fits
the buffer, is read whole by `fgets` and yields exactly the tokens `flag` and `value`. -/
theorem C17_value_without_terminator (buf_len : Nat) (flag value rest : List Char)
    (hd : flag.head? = some '-') (hflag : ' ' ∉ flag)
    (hnul : NUL ∉ flag ++ ' ' :: value) (hnl : '\n' ∉ flag ++ ' ' :: value)
    (hfit : (flag ++ ' ' :: value).length + 2 ≤ buf_len) :
    fgets buf_len (flag ++ ' ' :: value ++ '\n' :: rest)
      = some (flag ++ ' ' :: value ++ ['\n', NUL], rest) ∧
    line_tokens buf_len (flag ++ ' ' :: value ++ ['\n', NUL])
      = [String.mk flag, String.mk value] := by
  constructor
  · have hr := fgets_read_line (flag ++ ' ' :: value) rest hnl (buf_len - 1) (by omega)
    cases hfl : flag with
    | nil => simp [hfl] at hd
    | cons c cs =>
      rw [hfl] at hr
      simp only [List.cons_append, List.append_assoc] at hr ⊢
      simp only [fgets, hr, List.cons_append, List.append_assoc, List.singleton_append]
      rfl
  · have hbuf : flag ++ ' ' :: value ++ ['\n', NUL]
        = ((flag ++ ' ' :: value) ++ ['\n']) ++ [NUL] := by simp
    have hnul' : NUL ∉ (flag ++ ' ' :: value) ++ ['\n'] := by
      intro hm
      rcases List.mem_append.1 hm with hm | hm
      · exact hnul hm
      · simp [NUL] at hm
    have hcs : c_string (flag ++ ' ' :: value ++ ['\n', NUL])
        = (flag ++ ' ' :: value) ++ ['\n'] := by
      rw [hbuf, c_string_append_NUL, c_string_of_no_NUL _ hnul']
    have hhead : (flag ++ ' ' :: value ++ ['\n', NUL]).head? = some '-' := by
      cases hfl : flag with
      | nil => simp [hfl] at hd
      | cons c cs => rw [hfl] at hd; simpa using hd
    rw [line_tokens_eq buf_len _ hhead (by rw [hcs]; simp at hfit ⊢; omega), hcs,
      List.dropLast_concat]
    have hmem : ' ' ∈ flag ++ ' ' :: value := by simp
    have htw : (flag ++ ' ' :: value).takeWhile (· != ' ') = flag := by
      rw [List.takeWhile_append_of_pos]
      · simp [List.takeWhile_cons]
      · intro c hc
        have : c ≠ ' ' := fun e => hflag (e ▸ hc)
        simpa using this
    have hdw : (flag ++ ' ' :: value).dropWhile (· != ' ') = ' ' :: value := by
      rw [List.dropWhile_append_of_pos]
      · simp [List.dropWhile_cons]
      · intro c hc
        have : c ≠ ' ' := fun e => hflag (e ▸ hc)
        simpa using this
    simp only [hmem, if_true, htw, hdw, List.drop_succ_cons, List.drop_zero]

/-- C17 amended, on the line `-u alice`. -/
theorem C17_value_without_terminator_witness :
    ("-u".data.head? = some '-' ∧ ' ' ∉ "-u".data ∧ NUL ∉ "-u".data ++ ' ' :: "alice".data ∧
      '\n' ∉ "-u".data ++ ' ' :: "alice".data ∧
      ("-u".data ++ ' ' :: "alice".data).length + 2 ≤ 4096) ∧
    (fgets 4096 ("-u".data ++ ' ' :: "alice".data ++ '\n' :: "--cache\n".data)
        = some ("-u".data ++ ' ' :: "alice".data ++ ['\n', NUL], "--cache\n".data) ∧
      line_tokens 4096 ("-u".data ++ ' ' :: "alice".data ++ ['\n', NUL])
        = [String.mk "-u".data, String.mk "alice".data]) :=
  ⟨⟨by decide, by decide, by decide, by decide, by decide⟩,
    C17_value_without_terminator 4096 "-u".data "alice".data "--cache\n".data
      (by decide) (by decide) (by decide) (by decide) (by decide)⟩

/-- C20: for every buffer content that `fgets` returns and that starts with `-`, the
string in the buffer has at least 1 and at most `buf_len - 1` characters, so the index
`strnlen(buf, buf_len) - 1` of the write in line 109 lies inside the buffer; the write
removes exactly the last character of that string, whatever it is, and the tokens that
`parse_config_file` takes from the buffer are those of the string so shortened. -/
theorem C20_strip_write_in_bounds (buf_len : Nat) (file buf rest : List Char)
    (hf : fgets buf_len file = some (buf, rest)) (hd : buf.head? = some '-') :
    1 ≤ strnlen buf buf_len ∧ strnlen buf buf_len ≤ buf_len - 1 ∧
    strnlen buf buf_len = (c_string buf).length ∧
    strnlen buf buf_len - 1 < buf.length ∧ buf.length ≤ buf_len ∧
    c_string (buf.set (strnlen buf buf_len - 1) NUL) = (c_string buf).dropLast ∧
    line_tokens buf_len buf =
      (if ' ' ∈ (c_string buf).dropLast then
        [String.mk ((c_string buf).dropLast.takeWhile (· != ' ')),
         String.mk (((c_string buf).dropLast.dropWhile (· != ' ')).drop 1)]
      else [String.mk (c_string buf).dropLast]) := by
  obtain ⟨h1, h2⟩ := fgets_c_string_length buf_len file buf rest hf
  have hne := c_string_ne_nil_of_head buf hd
  have hpos : 1 ≤ (c_string buf).length := by
    cases hc : c_string buf with
    | nil => exact absurd hc hne
    | cons x xs => simp
  have hsn : strnlen buf buf_len = (c_string buf).length := by
    rw [strnlen_eq]; omega
  obtain ⟨line, hbuf, _, hll⟩ := fgets_some buf_len file buf rest hf
  have hbl : buf.length ≤ buf_len := by
    rw [hbuf]
    simp only [List.length_append, List.length_singleton]
    omega
  have htok := line_tokens_eq buf_len buf hd (by omega)
  rw [hsn]
  exact ⟨hpos, h1, rfl, by omega, hbl, c_string_set_last buf hne, htok⟩

/-- C20, on a last line `--cache` without newline: the write at index 6 removes the `e`. -/
theorem C20_strip_write_in_bounds_witness :
    (fgets 4096 "--cache".data = some ("--cache".data ++ [NUL], []) ∧
      ("--cache".data ++ [NUL]).head? = some '-') ∧
    (1 ≤ strnlen ("--cache".data ++ [NUL]) 4096 ∧
      strnlen ("--cache".data ++ [NUL]) 4096 ≤ 4096 - 1 ∧
      strnlen ("--cache".data ++ [NUL]) 4096 = (c_string ("--cache".data ++ [NUL])).length ∧
      strnlen ("--cache".data ++ [NUL]) 4096 - 1 < ("--cache".data ++ [NUL]).length ∧
      ("--cache".data ++ [NUL]).length ≤ 4096 ∧
      c_string (("--cache".data ++ [NUL]).set (strnlen ("--cache".data ++ [NUL]) 4096 - 1) NUL)
        = (c_string ("--cache".data ++ [NUL])).dropLast ∧
      line_tokens 4096 ("--cache".data ++ [NUL]) =
        (if ' ' ∈ (c_string ("--cache".data ++ [NUL])).dropLast then
          [String.mk ((c_string ("--cache".data ++ [NUL])).dropLast.takeWhile (· != ' ')),
           String.mk (((c_string ("--cache".data ++ [NUL])).dropLast.dropWhile
             (· != ' ')).drop 1)]
        else [String.mk (c_string ("--cache".data ++ [NUL])).dropLast])) ∧
    c_string (("--cache".data ++ [NUL]).set (strnlen ("--cache".data ++ [NUL]) 4096 - 1) NUL)
      = "--cach".data :=
  ⟨⟨by decide, by decide⟩,
    C20_strip_write_in_bounds 4096 "--cache".data ("--cache".data ++ [NUL]) []
      (by decide) (by decide),
    by decide⟩

/-! ## The values `getopt_long` can return -/

theorem getopt_long_c (st st' : GetoptState) (r : GetoptRet)
    (h : getopt_long short_opts.data long_opts st = some (r, st')) :
    r.c = '?' ∨ r.c = 'o' ∨ r.c = 'h' ∨ r.c = 'V' ∨ r.c = 'd' ∨ r.c = 'f' ∨ r.c = 's' ∨
      r.c = 'p' ∨ r.c = 'u' ∨ r.c = 'P' ∨ r.c = 'L' := by
  have short : ∀ c more rest, r = (getopt_short short_opts.data c more rest).1 →
      (r.c = '?' ∨ r.c = 'o' ∨ r.c = 'h' ∨ r.c = 'V' ∨ r.c = 'd' ∨ r.c = 'f' ∨ r.c = 's' ∨
        r.c = 'p' ∨ r.c = 'u' ∨ r.c = 'P' ∨ r.c = 'L') := by
    intro c more rest hr
    obtain ⟨_, hs⟩ := getopt_short_spec c more rest
    rw [← hr] at hs
    rcases hs with hq | ⟨hc, hmem, _⟩
    · exact Or.inl hq
    · rw [hc]
      tauto
  have long : ∀ nextchar rest, r = (process_long_option long_opts nextchar rest).1 →
      (r.c = '?' ∨ r.c = 'o' ∨ r.c = 'h' ∨ r.c = 'V' ∨ r.c = 'd' ∨ r.c = 'f' ∨ r.c = 's' ∨
        r.c = 'p' ∨ r.c = 'u' ∨ r.c = 'P' ∨ r.c = 'L') := by
    intro nextchar rest hr
    have hs := process_long_option_spec long_opts nextchar rest
    rw [← hr] at hs
    rcases hs with ⟨hq, _⟩ | ⟨i, o, hg, hc, _, _⟩
    · exact Or.inl hq
    · rw [hc]
      have hi : i < 17 := by
        by_contra hcon
        have : long_opts[i]? = none := by
          apply List.getElem?_eq_none
          simp only [long_opts, List.length_cons, List.length_nil]
          omega
        rw [this] at hg
        simp at hg
      interval_cases i <;> simp [long_opts] at hg <;> subst hg <;> simp
  unfold getopt_long at h
  cases hn : st.nextchar with
  | cons c more =>
    simp only [hn, Option.some.injEq] at h
    exact short c more st.rest (by rw [h])
  | nil =>
    simp only [hn] at h
    cases hd : st.rest.dropWhile NONOPTION_P with
    | nil => simp [hd] at h
    | cons a rest =>
      simp only [hd] at h
      split at h
      · split at h
        · split at h
          · simp at h
          · simp only [Option.some.injEq] at h
            exact long _ rest (by rw [h])
        · simp only [Option.some.injEq] at h
          exact short _ _ rest (by rw [h])
      · simp at h

/-! ## What one pass through the `switch` does to the pass-through vector -/

theorem long_switch_fuse (long_index : Nat) (optarg : Option String)
    (s : ParseState) (fl : Flow) (hfl : long_switch long_index optarg s = some fl) :
    fl.state.fuse_argv = s.fuse_argv ∧ fl.state.fuse_argc = s.fuse_argc := by
  by_cases hbig : 17 ≤ long_index
  · obtain ⟨k, rfl⟩ : ∃ k, long_index = k + 17 := ⟨long_index - 17, by omega⟩
    rw [long_switch_default] at hfl
    simp only [Option.some.injEq] at hfl
    rw [← hfl]; exact ⟨rfl, rfl⟩
  · cases optarg with
    | none =>
      interval_cases long_index <;> simp [long_switch] at hfl <;> (rw [← hfl]; exact ⟨rfl, rfl⟩)
    | some a =>
      interval_cases long_index <;> simp [long_switch] at hfl <;> (rw [← hfl]; exact ⟨rfl, rfl⟩)

theorem passthrough_tokens_other (r : GetoptRet) (h1 : r.c ≠ 'o') (h2 : r.c ≠ 'd')
    (h3 : r.c ≠ 'f') (h4 : r.c ≠ 's') : passthrough_tokens r = [] := by
  simp [passthrough_tokens, h1, h2, h3, h4]

/-- The pass-through vector after one pass through the `switch`: the marker for `-h` and
`-V`, the tokens of the occurrence for `-o`, `-d`, `-f` and `-s`, nothing for the others;
the options that append leave the settings alone. -/
theorem arg_switch_fuse (r : GetoptRet) (long_index : Nat) (s : ParseState) (fl : Flow)
    (hfl : arg_switch r.c long_index r.optarg s = some fl)
    (hl : s.fuse_argv.length = s.fuse_argc) :
    fl.state.fuse_argv = s.fuse_argv ++
      (if r.c = 'h' then ["-ho"] else if r.c = 'V' then ["-V"] else passthrough_tokens r) ∧
    fl.state.fuse_argc = s.fuse_argc +
      (if r.c = 'h' then ["-ho"] else if r.c = 'V' then ["-V"]
        else passthrough_tokens r).length ∧
    ((r.c = 'o' ∨ r.c = 'h' ∨ r.c = 'V' ∨ r.c = 'd' ∨ r.c = 'f' ∨ r.c = 's') →
      fl.state.CONFIG = s.CONFIG) := by
  have hadd : ∀ a, s.add a = ⟨s.CONFIG, s.fuse_argv ++ [a], s.fuse_argc + 1⟩ :=
    fun a => ParseState.add_eq s a hl
  unfold arg_switch at hfl
  by_cases c1 : r.c = 'o'
  · rw [c1] at hfl
    cases ho : r.optarg with
    | none => simp [ho] at hfl
    | some a =>
      simp only [ho, if_true, Option.map_some', Option.some.injEq] at hfl
      have h2 : (s.add "-o").add a
          = ⟨s.CONFIG, s.fuse_argv ++ ["-o", a], s.fuse_argc + 2⟩ := by
        rw [ParseState.add_eq _ a (ParseState.add_length s _ hl), hadd]
        simp
      rw [← hfl]
      simp [Flow.state, h2, c1, passthrough_tokens, ho]
  by_cases c2 : r.c = 'h'
  · rw [c2] at hfl; simp at hfl; subst hfl; simp [Flow.state, hadd, c2]
  by_cases c3 : r.c = 'V'
  · rw [c3] at hfl; simp at hfl; subst hfl; simp [Flow.state, hadd, c3]
  by_cases c4 : r.c = 'd'
  · rw [c4] at hfl; simp at hfl; subst hfl; simp [Flow.state, hadd, c4, passthrough_tokens]
  by_cases c5 : r.c = 'f'
  · rw [c5] at hfl; simp at hfl; subst hfl; simp [Flow.state, hadd, c5, passthrough_tokens]
  by_cases c6 : r.c = 's'
  · rw [c6] at hfl; simp at hfl; subst hfl; simp [Flow.state, hadd, c6, passthrough_tokens]
  have hpt : passthrough_tokens r = [] := passthrough_tokens_other r c1 c4 c5 c6
  have hnone : ¬ (r.c = 'o' ∨ r.c = 'h' ∨ r.c = 'V' ∨ r.c = 'd' ∨ r.c = 'f' ∨ r.c = 's') := by
    tauto
  refine ⟨?_, ?_, fun h => absurd h hnone⟩
  all_goals
    simp only [c2, c3, if_false, hpt, List.append_nil, List.length_nil, Nat.add_zero]
    by_cases c7 : r.c = 'u'
    · rw [c7] at hfl
      cases ho : r.optarg with
      | none => simp [ho] at hfl
      | some a => simp [ho] at hfl; subst hfl; rfl
    by_cases c8 : r.c = 'p'
    · rw [c8] at hfl
      cases ho : r.optarg with
      | none => simp [ho] at hfl
      | some a => simp [ho] at hfl; subst hfl; rfl
    by_cases c9 : r.c = 'P'
    · rw [c9] at hfl
      cases ho : r.optarg with
      | none => simp [ho] at hfl
      | some a => simp [ho] at hfl; subst hfl; rfl
    by_cases c10 : r.c = 'L'
    · rw [c10] at hfl
      simp at hfl
      first
        | exact (long_switch_fuse long_index r.optarg s fl hfl).1
        | exact (long_switch_fuse long_index r.optarg s fl hfl).2
    · simp only [c1, c2, c3, c4, c5, c6, c7, c8, c9, c10, if_false, Option.some.injEq] at hfl
      rw [← hfl]; rfl

/-- Every option that `getopt_long` returns, other than `-h`, `-V` and the error value
`'?'`, takes a `break` branch of the `switch`; in particular a long option returned as
`'L'` never reaches the inner `default`. -/
theorem arg_switch_break_of (st st' : GetoptState) (r : GetoptRet)
    (hg : getopt_long short_opts.data long_opts st = some (r, st')) (long_index : Nat)
    (s : ParseState) (hh : r.c ≠ 'h') (hV : r.c ≠ 'V') (hq : r.c ≠ '?') :
    ∃ s', arg_switch r.c (r.longindex.getD long_index) r.optarg s = some (.break_ s') := by
  obtain ⟨hv, hL⟩ := getopt_long_wf st st' r hg
  have hc := getopt_long_c st st' r hg
  unfold arg_switch
  by_cases c1 : r.c = 'o'
  · obtain ⟨a, ha⟩ := hv (by tauto)
    simp [c1, ha]
  by_cases c4 : r.c = 'd'
  · simp [c4]
  by_cases c5 : r.c = 'f'
  · simp [c5]
  by_cases c6 : r.c = 's'
  · simp [c6]
  by_cases c7 : r.c = 'u'
  · obtain ⟨a, ha⟩ := hv (by tauto)
    simp [c7, ha]
  by_cases c8 : r.c = 'p'
  · obtain ⟨a, ha⟩ := hv (by tauto)
    simp [c8, ha]
  by_cases c9 : r.c = 'P'
  · obtain ⟨a, ha⟩ := hv (by tauto)
    simp [c9, ha]
  by_cases c10 : r.c = 'L'
  · obtain ⟨i, hi, h6, h16, harg⟩ := hL c10
    simp only [c1, hh, hV, c4, c5, c6, c7, c8, c9, c10, if_false, if_true, hi,
      Option.getD_some]
    by_cases h8 : i = 8
    · subst h8; exact ⟨_, rfl⟩
    · obtain ⟨a, ha⟩ := harg h8
      rw [ha]
      interval_cases i <;> first | exact absurd rfl h8 | exact ⟨_, rfl⟩
  · exfalso
    tauto

theorem parse_arg_loop_passthrough :
    ∀ (fuel : Nat) (st : GetoptState) (long_index : Nat) (s : ParseState),
      st.size < fuel → s.fuse_argv.length = s.fuse_argc →
      (∀ r ∈ getopt_results fuel st, r.c ≠ 'h' ∧ r.c ≠ 'V' ∧ r.c ≠ '?') →
      ∃ res, parse_arg_loop fuel st long_index s = some res ∧ res.ret = 0 ∧
        res.s.fuse_argv
          = s.fuse_argv ++ ((getopt_results fuel st).map passthrough_tokens).flatten ∧
        res.s.fuse_argc = res.s.fuse_argv.length := by
  intro fuel
  induction fuel with
  | zero => intro st _ _ h; omega
  | succ k ih =>
    intro st li s hsz hl hocc
    unfold parse_arg_loop
    unfold getopt_results at hocc ⊢
    cases hg : getopt_long short_opts.data long_opts st with
    | none => exact ⟨_, rfl, rfl, by simp, hl.symm⟩
    | some p =>
      obtain ⟨r, st'⟩ := p
      simp only [hg, List.mem_cons, forall_eq_or_imp] at hocc
      obtain ⟨⟨hh, hV, hq⟩, hrest⟩ := hocc
      obtain ⟨s', hs'⟩ := arg_switch_break_of st st' r hg li s hh hV hq
      obtain ⟨hf1, hf2, _⟩ := arg_switch_fuse r _ s _ hs' hl
      simp only [hh, hV, if_false, Flow.state] at hf1 hf2
      have hl' : s'.fuse_argv.length = s'.fuse_argc := by
        rw [hf1, hf2, List.length_append, hl]
      have hlt := getopt_long_size _ _ st st' r hg
      obtain ⟨res, hres, h0, hv, hc⟩ := ih st' (r.longindex.getD li) s' (by omega) hl' hrest
      refine ⟨res, ?_, h0, ?_, hc⟩
      · simp only [hs', hres]
      · rw [hv, hf1]
        simp

/-! ## The claims on the option classifier -/

/-- C15: for every argument list in which `getopt_long` reports neither `-h`, `-V` nor an
error, `parse_arg_list` returns 0 and leaves as pass-through vector the vector it was given
(the seed) followed, in the order of the occurrences, by `-o` and its value for each `-o`,
`-d` for each `-d`/`--debug`, `-f` for each `-f` and `-s` for each `-s`; every occurrence
is kept. -/
theorem C15_passthrough_accumulation (argc : Nat) (argv : List String) (CONFIG : ConfigStruct)
    (fuse_argv : List String) (fuse_argc : Nat) (hl : fuse_argv.length = fuse_argc)
    (hocc : ∀ r ∈ occurrences argc argv, r.c ≠ 'h' ∧ r.c ≠ 'V' ∧ r.c ≠ '?') :
    ∃ res, parse_arg_list argc argv CONFIG fuse_argv fuse_argc = some res ∧ res.ret = 0 ∧
      res.s.fuse_argv
        = fuse_argv ++ ((occurrences argc argv).map passthrough_tokens).flatten ∧
      res.s.fuse_argc = res.s.fuse_argv.length :=
  parse_arg_loop_passthrough _ _ 0 ⟨CONFIG, fuse_argv, fuse_argc⟩ (Nat.lt_succ_self _) hl hocc

/-- C15, on the example of the claim, `-o a -o a -f -f`, with `--debug`, `-s` and a
settings option in between. -/
theorem C15_passthrough_accumulation_witness :
    (["prog"].length = 1 ∧
      ∀ r ∈ occurrences 12
        ["prog", "-o", "a", "-o", "a", "-f", "-f", "--debug", "-u", "x", "-s", "/mnt"],
        r.c ≠ 'h' ∧ r.c ≠ 'V' ∧ r.c ≠ '?') ∧
    (∃ res, parse_arg_list 12
        ["prog", "-o", "a", "-o", "a", "-f", "-f", "--debug", "-u", "x", "-s", "/mnt"]
        Config_defaults ["prog"] 1 = some res ∧ res.ret = 0 ∧
      res.s.fuse_argv = ["prog"] ++ ((occurrences 12
        ["prog", "-o", "a", "-o", "a", "-f", "-f", "--debug", "-u", "x", "-s", "/mnt"]).map
          passthrough_tokens).flatten ∧
      res.s.fuse_argc = res.s.fuse_argv.length) ∧
    ["prog"] ++ ((occurrences 12
        ["prog", "-o", "a", "-o", "a", "-f", "-f", "--debug", "-u", "x", "-s", "/mnt"]).map
          passthrough_tokens).flatten
      = ["prog", "-o", "a", "-o", "a", "-f", "-f", "-d", "-s"] :=
  ⟨⟨rfl, by decide⟩,
    C15_passthrough_accumulation 12
      ["prog", "-o", "a", "-o", "a", "-f", "-f", "--debug", "-u", "x", "-s", "/mnt"]
      Config_defaults ["prog"] 1 rfl (by decide),
    by decide⟩

/-- One option with its value as the whole command line: when `getopt_long` returns it in
one call and the `switch` takes a `break` branch, `parse_arg_list` returns 0 with the
outputs of that branch. -/
theorem parse_flag_value (argv0 flag v : String) (s s' : ParseState) (r : GetoptRet)
    (hg : getopt_long short_opts.data long_opts ⟨[flag, v], []⟩ = some (r, ⟨[], []⟩))
    (hs : arg_switch r.c (r.longindex.getD 0) r.optarg s = some (.break_ s')) :
    parse_arg_list 3 [argv0, flag, v] s.CONFIG s.fuse_argv s.fuse_argc = some ⟨0, s'⟩ := by
  have hf : (GetoptState.mk (([argv0, flag, v].take 3).drop 1) []).size + 1
      = (flag.data.length + v.data.length + 1) + 1 + 1 := by
    simp only [GetoptState.size, List.take, List.drop, List.map_cons, List.map_nil,
      List.sum_cons, List.sum_nil, List.length_nil]
    omega
  unfold parse_arg_list
  rw [hf]
  have e1 : (([argv0, flag, v].take 3).drop 1) = [flag, v] := rfl
  rw [e1]
  unfold parse_arg_loop
  rw [hg]
  simp only [hs]
  unfold parse_arg_loop
  rfl

/-- C16: every option of the CLI table that takes a value, given with a value `v`, writes
the field the table assigns to it and nothing else; `--cache` sets `cache_enabled` to 1;
and a long option that `getopt_long` returns as `'L'` never reaches the inner `default`
branch: it always takes one of the `break` branches for the indices 6 to 16. -/
theorem C16_option_dispatch (flag : String) (field : String → ConfigStruct → ConfigStruct)
    (hmem : (flag, field) ∈ cli_value_options) (v argv0 : String) (CONFIG : ConfigStruct)
    (fuse_argv : List String) (fuse_argc : Nat) (st st' : GetoptState) (r : GetoptRet)
    (long_index : Nat) (s : ParseState)
    (hg : getopt_long short_opts.data long_opts st = some (r, st')) (hc : r.c = 'L') :
    parse_arg_list 3 [argv0, flag, v] CONFIG fuse_argv fuse_argc
      = some ⟨0, ⟨field v CONFIG, fuse_argv, fuse_argc⟩⟩ ∧
    parse_arg_list 2 [argv0, "--cache"] CONFIG fuse_argv fuse_argc
      = some ⟨0, ⟨{ CONFIG with cache_enabled := 1 }, fuse_argv, fuse_argc⟩⟩ ∧
    (∃ i, r.longindex = some i ∧ 6 ≤ i ∧ i ≤ 16) ∧
    ∃ s', arg_switch r.c (r.longindex.getD long_index) r.optarg s = some (.break_ s') := by
  refine ⟨?_, rfl, ?_, ?_⟩
  · have key : ∀ (f : String) (r0 : GetoptRet) (s0 : ParseState),
        getopt_long short_opts.data long_opts ⟨[f, v], []⟩ = some (r0, ⟨[], []⟩) →
        arg_switch r0.c (r0.longindex.getD 0) r0.optarg ⟨CONFIG, fuse_argv, fuse_argc⟩
          = some (.break_ s0) →
        parse_arg_list 3 [argv0, f, v] CONFIG fuse_argv fuse_argc = some ⟨0, s0⟩ :=
      fun f r0 s0 h1 h2 => parse_flag_value argv0 f v ⟨CONFIG, fuse_argv, fuse_argc⟩ s0 r0 h1 h2
    have all : ∀ e ∈ cli_value_options,
        parse_arg_list 3 [argv0, e.1, v] CONFIG fuse_argv fuse_argc
          = some ⟨0, ⟨e.2 v CONFIG, fuse_argv, fuse_argc⟩⟩ := by
      unfold cli_value_options
      simp only [List.forall_mem_cons]
      exact ⟨key "-u" ⟨'u', some v, none⟩ _ rfl rfl,
        key "--username" ⟨'u', some v, some 3⟩ _ rfl rfl,
        key "-p" ⟨'p', some v, none⟩ _ rfl rfl,
        key "--password" ⟨'p', some v, some 4⟩ _ rfl rfl,
        key "-P" ⟨'P', some v, none⟩ _ rfl rfl,
        key "--proxy" ⟨'P', some v, some 5⟩ _ rfl rfl,
        key "--proxy-username" ⟨'L', some v, some 6⟩ _ rfl rfl,
        key "--proxy-password" ⟨'L', some v, some 7⟩ _ rfl rfl,
        key "--dl-seg-size" ⟨'L', some v, some 9⟩ _ rfl rfl,
        key "--max-seg-count" ⟨'L', some v, some 10⟩ _ rfl rfl,
        key "--max-conns" ⟨'L', some v, some 11⟩ _ rfl rfl,
        key "--user-agent" ⟨'L', some v, some 12⟩ _ rfl rfl,
        key "--retry-wait" ⟨'L', some v, some 13⟩ _ rfl rfl,
        key "--cache-location" ⟨'L', some v, some 14⟩ _ rfl rfl,
        key "--sonic-username" ⟨'L', some v, some 15⟩ _ rfl rfl,
        key "--sonic-password" ⟨'L', some v, some 16⟩ _ rfl rfl,
        fun _ hnil => absurd hnil (List.not_mem_nil _)⟩
    exact all (flag, field) hmem
  · obtain ⟨i, hi, h6, h16, _⟩ := (getopt_long_wf st st' r hg).2 hc
    exact ⟨i, hi, h6, h16⟩
  · exact arg_switch_break_of st st' r hg long_index s (by rw [hc]; decide)
      (by rw [hc]; decide) (by rw [hc]; decide)

/-- C16, on `--proxy-username alice` and on the return value for `--sonic-password pw`. -/
theorem C16_option_dispatch_witness :
    (("--proxy-username", fun v C => { C with proxy_username := some v }) ∈ cli_value_options ∧
      getopt_long short_opts.data long_opts ⟨["--sonic-password", "pw"], []⟩
        = some (⟨'L', some "pw", some 16⟩, ⟨[], []⟩) ∧
      (GetoptRet.mk 'L' (some "pw") (some 16)).c = 'L') ∧
    (parse_arg_list 3 ["prog", "--proxy-username", "alice"] Config_defaults ["prog"] 1
      = some ⟨0, ⟨(fun v C => { C with proxy_username := some v }) "alice" Config_defaults,
          ["prog"], 1⟩⟩ ∧
    parse_arg_list 2 ["prog", "--cache"] Config_defaults ["prog"] 1
      = some ⟨0, ⟨{ Config_defaults with cache_enabled := 1 }, ["prog"], 1⟩⟩ ∧
    (∃ i, (GetoptRet.mk 'L' (some "pw") (some 16)).longindex = some i ∧ 6 ≤ i ∧ i ≤ 16) ∧
    ∃ s', arg_switch (GetoptRet.mk 'L' (some "pw") (some 16)).c
        ((GetoptRet.mk 'L' (some "pw") (some 16)).longindex.getD 0)
        (GetoptRet.mk 'L' (some "pw") (some 16)).optarg ⟨Config_defaults, ["prog"], 1⟩
      = some (.break_ s')) :=
  ⟨⟨by simp [cli_value_options], by decide, rfl⟩,
    C16_option_dispatch "--proxy-username" (fun v C => { C with proxy_username := some v })
      (by simp [cli_value_options]) "alice" "prog" Config_defaults ["prog"] 1
      ⟨["--sonic-password", "pw"], []⟩ ⟨[], []⟩ ⟨'L', some "pw", some 16⟩ 0
      ⟨Config_defaults, ["prog"], 1⟩ (by decide) rfl⟩

/-- C18: for every option that `getopt_long` returns and the `switch` handles, one of the
two outputs is written and the other is left alone: `-o`, `-h`, `-V`, `-d`, `-f`, `-s` (and
their long forms) append to the pass-through vector and leave every settings field
unchanged; `-u`, `-p`, `-P` and the long-only options leave the pass-through vector and its
counter unchanged and write their own field only. -/
theorem C18_disjoint_outputs (st st' : GetoptState) (r : GetoptRet) (long_index : Nat)
    (s : ParseState) (fl : Flow)
    (hg : getopt_long short_opts.data long_opts st = some (r, st'))
    (hs : arg_switch r.c (r.longindex.getD long_index) r.optarg s = some fl)
    (hl : s.fuse_argv.length = s.fuse_argc) :
    ((r.c = 'o' ∨ r.c = 'h' ∨ r.c = 'V' ∨ r.c = 'd' ∨ r.c = 'f' ∨ r.c = 's') →
      fl.state.CONFIG = s.CONFIG ∧
      ∃ toks, toks ≠ [] ∧ fl.state.fuse_argv = s.fuse_argv ++ toks ∧
        fl.state.fuse_argc = s.fuse_argc + toks.length) ∧
    ((r.c = 'u' ∨ r.c = 'p' ∨ r.c = 'P' ∨ r.c = 'L') →
      fl.state.fuse_argv = s.fuse_argv ∧ fl.state.fuse_argc = s.fuse_argc ∧
      ((r.c = 'L' ∧ r.longindex = some 8 ∧
          fl.state.CONFIG = { s.CONFIG with cache_enabled := 1 }) ∨
       ∃ a, r.optarg = some a ∧
        ((r.c = 'u' ∧ fl.state.CONFIG = { s.CONFIG with http_username := some a }) ∨
         (r.c = 'p' ∧ fl.state.CONFIG = { s.CONFIG with http_password := some a }) ∨
         (r.c = 'P' ∧ fl.state.CONFIG = { s.CONFIG with proxy := some a }) ∨
         (r.c = 'L' ∧ r.longindex = some 6
            ∧ fl.state.CONFIG = { s.CONFIG with proxy_username := some a }) ∨
         (r.c = 'L' ∧ r.longindex = some 7
            ∧ fl.state.CONFIG = { s.CONFIG with proxy_password := some a }) ∨
         (r.c = 'L' ∧ r.longindex = some 9 ∧ fl.state.CONFIG = { s.CONFIG with
            data_blksz := (int_mul (int_mul (atoi a) 1024) 1024) }) ∨
         (r.c = 'L' ∧ r.longindex = some 10
            ∧ fl.state.CONFIG = { s.CONFIG with max_segbc := atoi a }) ∨
         (r.c = 'L' ∧ r.longindex = some 11
            ∧ fl.state.CONFIG = { s.CONFIG with max_conns := atoi a }) ∨
         (r.c = 'L' ∧ r.longindex = some 12
            ∧ fl.state.CONFIG = { s.CONFIG with user_agent := some a }) ∨
         (r.c = 'L' ∧ r.longindex = some 13
            ∧ fl.state.CONFIG = { s.CONFIG with http_wait_sec := atoi a }) ∨
         (r.c = 'L' ∧ r.longindex = some 14
            ∧ fl.state.CONFIG = { s.CONFIG with cache_dir := some a }) ∨
         (r.c = 'L' ∧ r.longindex = some 15
            ∧ fl.state.CONFIG = { s.CONFIG with sonic_username := some a }) ∨
         (r.c = 'L' ∧ r.longindex = some 16
            ∧ fl.state.CONFIG = { s.CONFIG with sonic_password := some a })))) := by
  obtain ⟨hf1, hf2, hf3⟩ := arg_switch_fuse r _ s fl hs hl
  constructor
  · intro hc
    refine ⟨hf3 hc, (if r.c = 'h' then ["-ho"] else if r.c = 'V' then ["-V"]
      else passthrough_tokens r), ?_, hf1, hf2⟩
    by_cases c2 : r.c = 'h'
    · simp [c2]
    by_cases c3 : r.c = 'V'
    · simp [c3]
    simp only [c2, c3, if_false]
    rcases hc with hc | hc | hc | hc | hc | hc
    · obtain ⟨a, ha⟩ := (getopt_long_wf st st' r hg).1 (Or.inl hc)
      simp [passthrough_tokens, hc, ha]
    · exact absurd hc c2
    · exact absurd hc c3
    · simp [passthrough_tokens, hc]
    · simp [passthrough_tokens, hc]
    · simp [passthrough_tokens, hc]
  · intro hc
    have hh : r.c ≠ 'h' := by rcases hc with e | e | e | e <;> rw [e] <;> decide
    have hV : r.c ≠ 'V' := by rcases hc with e | e | e | e <;> rw [e] <;> decide
    have hq : r.c ≠ '?' := by rcases hc with e | e | e | e <;> rw [e] <;> decide
    have ho : r.c ≠ 'o' := by rcases hc with e | e | e | e <;> rw [e] <;> decide
    have hd : r.c ≠ 'd' := by rcases hc with e | e | e | e <;> rw [e] <;> decide
    have hf : r.c ≠ 'f' := by rcases hc with e | e | e | e <;> rw [e] <;> decide
    have hs' : r.c ≠ 's' := by rcases hc with e | e | e | e <;> rw [e] <;> decide
    have hpt := passthrough_tokens_other r ho hd hf hs'
    simp only [hh, hV, if_false, hpt, List.append_nil, List.length_nil, Nat.add_zero] at hf1 hf2
    refine ⟨hf1, hf2, ?_⟩
    obtain ⟨s', hbr⟩ := arg_switch_break_of st st' r hg long_index s hh hV hq
    have hfl : fl = .break_ s' := by
      rw [hs] at hbr
      exact Option.some.inj hbr
    subst hfl
    rcases arg_switch_break st st' r long_index s s' hg hs with ⟨hc', _⟩ | h8 | hrest
    · exfalso
      rcases hc' with e | e | e | e
      · exact ho e
      · exact hd e
      · exact hf e
      · exact hs' e
    · exact Or.inl h8
    · exact Or.inr hrest

/-- C18, on the occurrences of `-f` and of `--max-conns 4`. -/
theorem C18_disjoint_outputs_witness :
    (getopt_long short_opts.data long_opts ⟨["-f", "--max-conns", "4"], []⟩
        = some (⟨'f', none, none⟩, ⟨["--max-conns", "4"], []⟩) ∧
      arg_switch 'f' ((none : Option Nat).getD 0) none ⟨Config_defaults, ["prog"], 1⟩
        = some (.break_ ⟨Config_defaults, ["prog", "-f"], 2⟩) ∧
      (ParseState.mk Config_defaults ["prog"] 1).fuse_argv.length
        = (ParseState.mk Config_defaults ["prog"] 1).fuse_argc) ∧
    ((GetoptRet.mk 'f' none none).c = 'o' ∨ (GetoptRet.mk 'f' none none).c = 'h' ∨
        (GetoptRet.mk 'f' none none).c = 'V' ∨ (GetoptRet.mk 'f' none none).c = 'd' ∨
        (GetoptRet.mk 'f' none none).c = 'f' ∨ (GetoptRet.mk 'f' none none).c = 's' →
      (Flow.break_ ⟨Config_defaults, ["prog", "-f"], 2⟩).state.CONFIG = Config_defaults ∧
      ∃ toks, toks ≠ [] ∧
        (Flow.break_ ⟨Config_defaults, ["prog", "-f"], 2⟩).state.fuse_argv = ["prog"] ++ toks ∧
        (Flow.break_ ⟨Config_defaults, ["prog", "-f"], 2⟩).state.fuse_argc = 1 + toks.length) ∧
    arg_switch 'L' 11 (some "4") ⟨Config_defaults, ["prog", "-f"], 2⟩
      = some (.break_ ⟨{ Config_defaults with max_conns := 4 }, ["prog", "-f"], 2⟩) :=
  ⟨⟨by decide, by decide, rfl⟩,
    (C18_disjoint_outputs ⟨["-f", "--max-conns", "4"], []⟩ ⟨["--max-conns", "4"], []⟩
      ⟨'f', none, none⟩ 0 ⟨Config_defaults, ["prog"], 1⟩
      (.break_ ⟨Config_defaults, ["prog", "-f"], 2⟩) (by decide) (by decide) rfl).1,
    by decide⟩

/-- C19: `main` reads `argv[argc - 1]` and `argv[argc - 2]` only after the guard of line 20
has let it pass, that is with `argc ≥ 2` (with less it exits at line 23); then both indices
are indices of the command line, lines 61-86 have a defined result whatever
`parse_arg_list` left, and with `argc = 2` the token taken as base URL is `argv[0]`, the
program name. -/
theorem C19_positional_in_range (w : World) (argv : List String) (s : ParseState)
    (short : List String) (hshort : short.length < 2) (h : ¬ argv.length < 2) :
    main w short = some ⟨EXIT_FAILURE, some Failure.usage, CONFIG_static, none, none⟩ ∧
    argv.length - 1 < argv.length ∧ argv.length - 2 < argv.length ∧
    argv.length - 2 + 2 = argv.length ∧
    (∃ mountpoint base_url, argv[argv.length - 1]? = some mountpoint ∧
      argv[argv.length - 2]? = some base_url ∧
      (argv.length = 2 → argv[0]? = some base_url)) ∧
    ∃ m, main_resolve w argv s = some m := by
  have h2 : 2 ≤ argv.length := by omega
  obtain ⟨mountpoint, base_url, hm, hu⟩ := positional_get argv h2
  refine ⟨by simp [main, hshort], by omega, by omega, by omega,
    ⟨mountpoint, base_url, hm, hu, ?_⟩, ?_⟩
  · intro h2'
    rw [h2'] at hu
    exact hu
  · unfold main_resolve
    simp only [hm, hu]
    split
    · exact ⟨_, rfl⟩
    · split
      · split <;> exact ⟨_, rfl⟩
      · split
        · exact ⟨_, rfl⟩
        · split <;> exact ⟨_, rfl⟩

/-- C19, on `prog /mnt`: the base URL is `prog`, which the URL test then rejects. -/
theorem C19_positional_in_range_witness :
    (["prog"].length < 2 ∧ ¬ ["prog", "/mnt"].length < 2) ∧
    (main scenario_world ["prog"]
        = some ⟨EXIT_FAILURE, some Failure.usage, CONFIG_static, none, none⟩ ∧
      ["prog", "/mnt"].length - 1 < ["prog", "/mnt"].length ∧
      ["prog", "/mnt"].length - 2 < ["prog", "/mnt"].length ∧
      ["prog", "/mnt"].length - 2 + 2 = ["prog", "/mnt"].length ∧
      (∃ mountpoint base_url,
        ["prog", "/mnt"][["prog", "/mnt"].length - 1]? = some mountpoint ∧
        ["prog", "/mnt"][["prog", "/mnt"].length - 2]? = some base_url ∧
        (["prog", "/mnt"].length = 2 → ["prog", "/mnt"][0]? = some base_url)) ∧
      ∃ m, main_resolve scenario_world ["prog", "/mnt"] ⟨Config_defaults, ["prog"], 1⟩
        = some m) ∧
    main scenario_world ["prog", "/mnt"]
      = some ⟨EXIT_FAILURE, some Failure.invalid_url, Config_defaults, none, none⟩ :=
  ⟨⟨by decide, by decide⟩,
    C19_positional_in_range scenario_world ["prog", "/mnt"] ⟨Config_defaults, ["prog"], 1⟩
      ["prog"] (by decide) (by decide),
    by decide⟩

end Httpdirfs
